import Mathlib

/-!
# Reference-counted pointers: `SharedPtr` / `WeakPtr` over a control block

A shallow embedding of `src/weak/sw_fwd.h`, `src/weak/shared.h` and
`src/weak/weak.h`, followed by the strong-only `SharedPtr` of
`src/shared/shared.h` (namespace `StrongOnly`), the intrusive pointer of
`src/intrusive/intrusive.h` (namespace `Intrusive`) and the same classes of
`src/weak` for managed objects that own smart pointers (namespace `Owning`).

* The C++ heap of control blocks is a list; a `BaseControlBlock*` is an index
  into it (`none` is `nullptr`), `new` appends a block.
* `size_t` counters are natural numbers reduced modulo `2 ^ 64`.
* A `T*` is an `Addr`.
* Two ghost fields of a block record what cannot be observed from the counters:
  how many times the managed object was destroyed through this block and how
  many times the block's own storage was released.
-/

namespace SmartPtrs

/-! ## Machine integers and addresses -/

/-- The number of values of a 64-bit `size_t`. -/
def SIZE_MOD : Nat := 18446744073709551616

/-- The C++ `++n` on a `size_t`. -/
def incSize (n : Nat) : Nat := (n + 1) % SIZE_MOD

/-- The C++ `--n` on a `size_t` (zero wraps to the largest value). -/
def decSize (n : Nat) : Nat := (n + SIZE_MOD - 1) % SIZE_MOD

/-- A value of type `T*`: the null pointer, the address of a separately
allocated object, or the address of the storage embedded in control block `b`
(what `ControlBlockObj::GetPtr` returns). -/
inductive Addr where
  | null : Addr
  | raw (a : Nat) : Addr
  | obj (b : Nat) : Addr
deriving DecidableEq, Repr

/-! ## Control blocks (`sw_fwd.h`) -/

/-- The dynamic type of a control block. -/
inductive BlockKind where
  | Obj : BlockKind
  | Ptr : BlockKind
deriving DecidableEq, Repr

/-- A control block. `kind` selects the override that a virtual call reaches.
`ptr` is the member `ControlBlockPtr::ptr`; a `ControlBlockObj` has no such
member and keeps it null. The member `is_deleted` of `ControlBlockPtr` is never
read or written by the source and is left out. `destroyed` counts the runs of
the managed object's destructor (`~U()` in place, or `delete ptr` on a non-null
`ptr`); `freed` counts the `delete` calls on the block itself. -/
structure ControlBlock where
  kind : BlockKind
  shared_counter : Nat
  weak_counter : Nat
  ptr : Addr
  destroyed : Nat
  freed : Nat
deriving DecidableEq, Repr

namespace ControlBlock

/-- Constructor `ControlBlockObj(args...)`: the object is built in place. -/
def newObj : ControlBlock :=
  { kind := .Obj, shared_counter := 1, weak_counter := 0, ptr := .null,
    destroyed := 0, freed := 0 }

/-- Constructor `ControlBlockPtr(inptr)`. -/
def newPtr (inptr : Addr) : ControlBlock :=
  { kind := .Ptr, shared_counter := 1, weak_counter := 0, ptr := inptr,
    destroyed := 0, freed := 0 }

def GetSharedCnt (c : ControlBlock) : Nat := c.shared_counter

def GetWeakCnt (c : ControlBlock) : Nat := c.weak_counter

def IncSharedCnt (c : ControlBlock) : ControlBlock :=
  { c with shared_counter := incSize c.shared_counter }

def IncWeakCnt (c : ControlBlock) : ControlBlock :=
  { c with weak_counter := incSize c.weak_counter }

def DecWeakCnt (c : ControlBlock) : ControlBlock :=
  { c with weak_counter := decSize c.weak_counter }

/-- The statements `delete ptr; ptr = nullptr;` of `ControlBlockPtr`. Deleting
a null pointer does nothing. -/
def deletePtr (c : ControlBlock) : ControlBlock :=
  if c.ptr = .null then c
  else { c with destroyed := c.destroyed + 1, ptr := .null }

/-- The destructor body reached by `delete` on the block: `~ControlBlockPtr`
deletes a non-null `ptr`; `ControlBlockObj` has the defaulted destructor, which
does not touch the embedded storage. -/
def dtor (c : ControlBlock) : ControlBlock :=
  match c.kind with
  | .Obj => c
  | .Ptr => if c.ptr = .null then c else deletePtr c

/-- The statement `delete this` (also `delete block_` from a pointer): run the
destructor, then release the storage. -/
def deleteThis (c : ControlBlock) : ControlBlock :=
  { dtor c with freed := (dtor c).freed + 1 }

/-- The two overrides of `DecSharedCnt`, for a managed object without
smart-pointer members: its destructor (`~U()`, `delete ptr`) is one step and
calls nothing back. `Owning.exec` is the version for objects whose destructor
releases pointers of its own. -/
def DecSharedCnt (c : ControlBlock) : ControlBlock :=
  let c1 := { c with shared_counter := decSize c.shared_counter }
  match c.kind with
  | .Obj =>
    if c1.shared_counter = 0 then
      let c2 := { c1 with destroyed := c1.destroyed + 1 }
      if c2.weak_counter = 0 then deleteThis c2 else c2
    else c1
  | .Ptr =>
    if c1.shared_counter = 0 then
      if c1.weak_counter = 0 then deleteThis c1 else deletePtr c1
    else c1

/-- Whether the block still has a managed object to destroy: the embedded
object of a `ControlBlockObj`, or a non-null `ptr` of a `ControlBlockPtr`. -/
def hasObject (c : ControlBlock) : Prop := c.kind = .Obj ∨ c.ptr ≠ .null

instance (c : ControlBlock) : Decidable c.hasObject := by
  unfold hasObject; infer_instance

end ControlBlock

/-- The heap of control blocks. -/
abbrev Heap := List ControlBlock

namespace Heap

/-- A call `block->f()` of a mutating member through a block pointer. -/
def call (h : Heap) (b : Nat) (f : ControlBlock → ControlBlock) : Heap :=
  match h[b]? with
  | some c => h.set b (f c)
  | none => h

/-- The call `block->GetSharedCnt()`. -/
def GetSharedCnt (h : Heap) (b : Nat) : Nat :=
  match h[b]? with
  | some c => c.GetSharedCnt
  | none => 0

/-- The call `block->GetWeakCnt()`. -/
def GetWeakCnt (h : Heap) (b : Nat) : Nat :=
  match h[b]? with
  | some c => c.GetWeakCnt
  | none => 0

end Heap

/-! ## The pointer objects -/

/-- The data members of `SharedPtr<T>`. -/
structure SharedPtr where
  block_ : Option Nat
  ptr_ : Addr
deriving DecidableEq, Repr

/-- The data members of `WeakPtr<T>`. -/
structure WeakPtr where
  block_ : Option Nat
  ptr_ : Addr
deriving DecidableEq, Repr

/-- The exception thrown by a failed promotion. -/
inductive BadWeakPtr where
  | mk : BadWeakPtr
deriving DecidableEq, Repr

namespace WeakPtr

/-- The method `WeakPtr::UseCount`. -/
def UseCount (h : Heap) (self : WeakPtr) : Nat :=
  match self.block_ with
  | some b => h.GetSharedCnt b
  | none => 0

/-- The method `WeakPtr::Expired`. -/
def Expired (h : Heap) (self : WeakPtr) : Bool :=
  match self.block_ with
  | some b => h.GetSharedCnt b == 0
  | none => true

end WeakPtr

namespace SharedPtr

/-- Constructors `SharedPtr()` and `SharedPtr(std::nullptr_t)`. -/
def empty : SharedPtr := { block_ := none, ptr_ := .null }

/-- Constructor `SharedPtr(T* ptr)` (and its `Y*` template). -/
def fromRaw (h : Heap) (ptr : Addr) : Heap × SharedPtr :=
  (h ++ [ControlBlock.newPtr ptr], { block_ := some h.length, ptr_ := ptr })

/-- The function `MakeShared`. -/
def MakeShared (h : Heap) : Heap × SharedPtr :=
  (h ++ [ControlBlock.newObj], { block_ := some h.length, ptr_ := .obj h.length })

/-- Copy constructor `SharedPtr(const SharedPtr& other)` (and its template). -/
def copy (h : Heap) (other : SharedPtr) : Heap × SharedPtr :=
  match other.block_ with
  | some b => (h.call b ControlBlock.IncSharedCnt, { block_ := some b, ptr_ := other.ptr_ })
  | none => (h, { block_ := none, ptr_ := other.ptr_ })

/-- Move constructor `SharedPtr(SharedPtr&& other)` (and its template):
the new pointer and what is left in `other`. -/
def move (other : SharedPtr) : SharedPtr × SharedPtr :=
  ({ block_ := other.block_, ptr_ := other.ptr_ }, { block_ := none, ptr_ := .null })

/-- Aliasing constructor `SharedPtr(const SharedPtr<Y>& other, T* ptr)`. -/
def aliasing (h : Heap) (other : SharedPtr) (ptr : Addr) : Heap × SharedPtr :=
  match other.block_ with
  | some b => (h.call b ControlBlock.IncSharedCnt, { block_ := some b, ptr_ := ptr })
  | none => (h, { block_ := none, ptr_ := ptr })

/-- Promotion `explicit SharedPtr(const WeakPtr<T>& other)`. The heap after the
call is returned on both paths, next to the new pointer or the exception. -/
def ofWeak (h : Heap) (other : WeakPtr) : Heap × Except BadWeakPtr SharedPtr :=
  if other.Expired h then (h, .error .mk)
  else
    match other.block_ with
    | some b =>
      (h.call b ControlBlock.IncSharedCnt, .ok { block_ := some b, ptr_ := other.ptr_ })
    | none => (h, .ok { block_ := none, ptr_ := other.ptr_ })

/-- The method `Reset()`; the destructor `~SharedPtr` has the same body. -/
def Reset (h : Heap) (self : SharedPtr) : Heap × SharedPtr :=
  match self.block_ with
  | some b => (h.call b ControlBlock.DecSharedCnt, { block_ := none, ptr_ := .null })
  | none => (h, { block_ := none, ptr_ := .null })

/-- The method `Reset(T* ptr)` (and its `Y*` template). -/
def ResetPtr (h : Heap) (self : SharedPtr) (ptr : Addr) : Heap × SharedPtr :=
  let h1 :=
    match self.block_ with
    | some b => h.call b ControlBlock.DecSharedCnt
    | none => h
  (h1 ++ [ControlBlock.newPtr ptr], { block_ := some h1.length, ptr_ := ptr })

/-- Copy assignment `operator=(const SharedPtr& other)` (and its template), for
an operand that the `Reset()` does not destroy: `other` is given by value.
`Owning.State.step` reads the operand again after the `Reset()`, as the source
does. -/
def copyAssign (h : Heap) (self other : SharedPtr) : Heap × SharedPtr :=
  match other.block_ with
  | some b =>
    if self.block_ ≠ other.block_ then
      let r := Reset h self
      (r.1.call b ControlBlock.IncSharedCnt, { block_ := some b, ptr_ := other.ptr_ })
    else (h, self)
  | none => Reset h self

/-- Move assignment `operator=(SharedPtr&& other)`: both members are swapped.
Returns the new `*this` and the new `other`. -/
def moveAssign (self other : SharedPtr) : SharedPtr × SharedPtr :=
  ({ block_ := other.block_, ptr_ := other.ptr_ }, { block_ := self.block_, ptr_ := self.ptr_ })

/-- The template `operator=(SharedPtr<Y>&& other)`. Returns the heap, the new
`*this` and the new `other`. -/
def moveAssignConv (h : Heap) (self other : SharedPtr) : Heap × SharedPtr × SharedPtr :=
  match other.block_ with
  | some b =>
    if self.block_ ≠ other.block_ then
      let r := Reset h self
      let h2 := r.1.call b ControlBlock.IncSharedCnt
      let r2 := Reset h2 other
      (r2.1, { block_ := some b, ptr_ := other.ptr_ }, r2.2)
    else (h, self, other)
  | none =>
    let r := Reset h self
    (r.1, r.2, other)

/-- The method `Swap`. -/
def Swap (self other : SharedPtr) : SharedPtr × SharedPtr :=
  ({ block_ := other.block_, ptr_ := other.ptr_ }, { block_ := self.block_, ptr_ := self.ptr_ })

/-- The method `Get`. -/
def Get (self : SharedPtr) : Addr := self.ptr_

/-- The method `UseCount`. -/
def UseCount (h : Heap) (self : SharedPtr) : Nat :=
  match self.block_ with
  | some b => h.GetSharedCnt b
  | none => 0

/-- The conversion `explicit operator bool`. -/
def toBool (self : SharedPtr) : Bool :=
  if self.ptr_ ≠ .null then true else false

end SharedPtr

namespace WeakPtr

/-- Constructor `WeakPtr()`. -/
def empty : WeakPtr := { block_ := none, ptr_ := .null }

/-- Copy constructor `WeakPtr(const WeakPtr& other)`. -/
def copy (h : Heap) (other : WeakPtr) : Heap × WeakPtr :=
  match other.block_ with
  | some b => (h.call b ControlBlock.IncWeakCnt, { block_ := some b, ptr_ := other.ptr_ })
  | none => (h, { block_ := none, ptr_ := other.ptr_ })

/-- Move constructor `WeakPtr(WeakPtr&& other)`. -/
def move (other : WeakPtr) : WeakPtr × WeakPtr :=
  ({ block_ := other.block_, ptr_ := other.ptr_ }, { block_ := none, ptr_ := .null })

/-- Demotion `WeakPtr(const SharedPtr<T>& other)`. -/
def ofShared (h : Heap) (other : SharedPtr) : Heap × WeakPtr :=
  match other.block_ with
  | some b => (h.call b ControlBlock.IncWeakCnt, { block_ := some b, ptr_ := other.ptr_ })
  | none => (h, { block_ := none, ptr_ := other.ptr_ })

/-- The method `WeakPtr::Reset()`; the destructor `~WeakPtr` has the same body.
An empty pointer is left as it is (its `ptr_` is not cleared). -/
def Reset (h : Heap) (self : WeakPtr) : Heap × WeakPtr :=
  match self.block_ with
  | some b =>
    let h1 := h.call b ControlBlock.DecWeakCnt
    let h2 :=
      if ¬ (h1.GetSharedCnt b ≠ 0 ∨ h1.GetWeakCnt b ≠ 0) then
        h1.call b ControlBlock.deleteThis
      else h1
    (h2, { block_ := none, ptr_ := .null })
  | none => (h, self)

/-- Copy assignment `WeakPtr::operator=(const WeakPtr& other)`. The source
calls `IncSharedCnt` on the newly shared block. -/
def copyAssign (h : Heap) (self other : WeakPtr) : Heap × WeakPtr :=
  match other.block_ with
  | some b =>
    if self.block_ ≠ other.block_ then
      let r := Reset h self
      (r.1.call b ControlBlock.IncSharedCnt, { block_ := some b, ptr_ := other.ptr_ })
    else (h, self)
  | none => Reset h self

/-- Move assignment `WeakPtr::operator=(WeakPtr&& other)`: a swap. -/
def moveAssign (self other : WeakPtr) : WeakPtr × WeakPtr :=
  ({ block_ := other.block_, ptr_ := other.ptr_ }, { block_ := self.block_, ptr_ := self.ptr_ })

/-- The method `WeakPtr::Swap`. -/
def Swap (self other : WeakPtr) : WeakPtr × WeakPtr :=
  ({ block_ := other.block_, ptr_ := other.ptr_ }, { block_ := self.block_, ptr_ := self.ptr_ })

/-- The method `WeakPtr::Lock`. -/
def Lock (h : Heap) (self : WeakPtr) : Heap × SharedPtr :=
  if self.Expired h then (h, SharedPtr.empty)
  else
    match self.block_ with
    | some b => (h.call b ControlBlock.IncSharedCnt, { block_ := some b, ptr_ := self.ptr_ })
    | none => (h, { block_ := none, ptr_ := self.ptr_ })

end WeakPtr

/-- The number of pointers in `sp` whose `block_` is block `b`. -/
def SharedPtr.refCount (sp : List SharedPtr) (b : Nat) : Nat :=
  sp.countP (fun p => decide (p.block_ = some b))

/-- The number of pointers in `wp` whose `block_` is block `b`. -/
def WeakPtr.refCount (wp : List WeakPtr) (b : Nat) : Nat :=
  wp.countP (fun p => decide (p.block_ = some b))

/-! ## Programs: a heap, the live pointer objects, and the public operations -/

/-- A program state: the heap of control blocks and the live `SharedPtr` and
`WeakPtr` objects (variables), named by their position. -/
structure State where
  heap : Heap
  sp : List SharedPtr
  wp : List WeakPtr
deriving DecidableEq, Repr

/-- The public operations. Constructors add an object at the end of `sp` or
`wp`; destructors remove the object; the other operations act on the objects at
the given positions (`i` is `*this`, `j` and `k` the argument). -/
inductive Op where
  | sDefault : Op
  | sFromRaw (ptr : Addr) : Op
  | sMake : Op
  | sCopy (j : Nat) : Op
  | sMove (j : Nat) : Op
  | sAlias (j : Nat) (ptr : Addr) : Op
  | sPromote (k : Nat) : Op
  | sCopyAssign (i j : Nat) : Op
  | sMoveAssign (i j : Nat) : Op
  | sMoveAssignConv (i j : Nat) : Op
  | sReset (i : Nat) : Op
  | sResetPtr (i : Nat) (ptr : Addr) : Op
  | sSwap (i j : Nat) : Op
  | sDestroy (i : Nat) : Op
  | wDefault : Op
  | wCopy (k : Nat) : Op
  | wMove (k : Nat) : Op
  | wOfShared (j : Nat) : Op
  | wCopyAssign (i k : Nat) : Op
  | wMoveAssign (i k : Nat) : Op
  | wReset (i : Nat) : Op
  | wSwap (i k : Nat) : Op
  | wDestroy (i : Nat) : Op
  | wLock (k : Nat) : Op
deriving DecidableEq, Repr

namespace State

/-- The state before the program creates anything. -/
def init : State := { heap := [], sp := [], wp := [] }

/-- One operation. The pointer objects are the variables of the program; the
managed objects own none (for those see `Owning.State.step`). An operation that
names an object which does not exist is not a step of any program and leaves
the state as it is. When two positions coincide the argument is written back
first and `*this` last. A promotion that throws creates no object. -/
def step (s : State) : Op → State
  | .sDefault => { s with sp := s.sp ++ [SharedPtr.empty] }
  | .sFromRaw ptr =>
    let r := SharedPtr.fromRaw s.heap ptr
    { s with heap := r.1, sp := s.sp ++ [r.2] }
  | .sMake =>
    let r := SharedPtr.MakeShared s.heap
    { s with heap := r.1, sp := s.sp ++ [r.2] }
  | .sCopy j =>
    match s.sp[j]? with
    | some other =>
      let r := SharedPtr.copy s.heap other
      { s with heap := r.1, sp := s.sp ++ [r.2] }
    | none => s
  | .sMove j =>
    match s.sp[j]? with
    | some other =>
      let r := SharedPtr.move other
      { s with sp := s.sp.set j r.2 ++ [r.1] }
    | none => s
  | .sAlias j ptr =>
    match s.sp[j]? with
    | some other =>
      let r := SharedPtr.aliasing s.heap other ptr
      { s with heap := r.1, sp := s.sp ++ [r.2] }
    | none => s
  | .sPromote k =>
    match s.wp[k]? with
    | some other =>
      match SharedPtr.ofWeak s.heap other with
      | (h, .ok p) => { s with heap := h, sp := s.sp ++ [p] }
      | (h, .error _) => { s with heap := h }
    | none => s
  | .sCopyAssign i j =>
    match s.sp[i]?, s.sp[j]? with
    | some self, some other =>
      let r := SharedPtr.copyAssign s.heap self other
      { s with heap := r.1, sp := s.sp.set i r.2 }
    | _, _ => s
  | .sMoveAssign i j =>
    match s.sp[i]?, s.sp[j]? with
    | some self, some other =>
      let r := SharedPtr.moveAssign self other
      { s with sp := (s.sp.set j r.2).set i r.1 }
    | _, _ => s
  | .sMoveAssignConv i j =>
    match s.sp[i]?, s.sp[j]? with
    | some self, some other =>
      let r := SharedPtr.moveAssignConv s.heap self other
      { s with heap := r.1, sp := (s.sp.set j r.2.2).set i r.2.1 }
    | _, _ => s
  | .sReset i =>
    match s.sp[i]? with
    | some self =>
      let r := SharedPtr.Reset s.heap self
      { s with heap := r.1, sp := s.sp.set i r.2 }
    | none => s
  | .sResetPtr i ptr =>
    match s.sp[i]? with
    | some self =>
      let r := SharedPtr.ResetPtr s.heap self ptr
      { s with heap := r.1, sp := s.sp.set i r.2 }
    | none => s
  | .sSwap i j =>
    match s.sp[i]?, s.sp[j]? with
    | some self, some other =>
      let r := SharedPtr.Swap self other
      { s with sp := (s.sp.set j r.2).set i r.1 }
    | _, _ => s
  | .sDestroy i =>
    match s.sp[i]? with
    | some self =>
      let r := SharedPtr.Reset s.heap self
      { s with heap := r.1, sp := s.sp.eraseIdx i }
    | none => s
  | .wDefault => { s with wp := s.wp ++ [WeakPtr.empty] }
  | .wCopy k =>
    match s.wp[k]? with
    | some other =>
      let r := WeakPtr.copy s.heap other
      { s with heap := r.1, wp := s.wp ++ [r.2] }
    | none => s
  | .wMove k =>
    match s.wp[k]? with
    | some other =>
      let r := WeakPtr.move other
      { s with wp := s.wp.set k r.2 ++ [r.1] }
    | none => s
  | .wOfShared j =>
    match s.sp[j]? with
    | some other =>
      let r := WeakPtr.ofShared s.heap other
      { s with heap := r.1, wp := s.wp ++ [r.2] }
    | none => s
  | .wCopyAssign i k =>
    match s.wp[i]?, s.wp[k]? with
    | some self, some other =>
      let r := WeakPtr.copyAssign s.heap self other
      { s with heap := r.1, wp := s.wp.set i r.2 }
    | _, _ => s
  | .wMoveAssign i k =>
    match s.wp[i]?, s.wp[k]? with
    | some self, some other =>
      let r := WeakPtr.moveAssign self other
      { s with wp := (s.wp.set k r.2).set i r.1 }
    | _, _ => s
  | .wReset i =>
    match s.wp[i]? with
    | some self =>
      let r := WeakPtr.Reset s.heap self
      { s with heap := r.1, wp := s.wp.set i r.2 }
    | none => s
  | .wSwap i k =>
    match s.wp[i]?, s.wp[k]? with
    | some self, some other =>
      let r := WeakPtr.Swap self other
      { s with wp := (s.wp.set k r.2).set i r.1 }
    | _, _ => s
  | .wDestroy i =>
    match s.wp[i]? with
    | some self =>
      let r := WeakPtr.Reset s.heap self
      { s with heap := r.1, wp := s.wp.eraseIdx i }
    | none => s
  | .wLock k =>
    match s.wp[k]? with
    | some self =>
      let r := WeakPtr.Lock s.heap self
      { s with heap := r.1, sp := s.sp ++ [r.2] }
    | none => s

/-- A program: operations executed in order. -/
def run (s : State) : List Op → State
  | [] => s
  | o :: os => run (s.step o) os

/-- The number of live `SharedPtr` objects that reference block `b`. -/
def liveShared (s : State) (b : Nat) : Nat := SharedPtr.refCount s.sp b

/-- The number of live `WeakPtr` objects that reference block `b`. -/
def liveWeak (s : State) (b : Nat) : Nat := WeakPtr.refCount s.wp b

end State

/-! ## Invariants of reachable states -/

namespace ControlBlock

/-- What `WeakPtr::Reset` does to the block it holds: `DecWeakCnt()`, then
`delete block_` when both counters read zero. -/
def weakRelease (c : ControlBlock) : ControlBlock :=
  if ¬ ((DecWeakCnt c).shared_counter ≠ 0 ∨ (DecWeakCnt c).weak_counter ≠ 0) then
    deleteThis (DecWeakCnt c)
  else DecWeakCnt c

/-- The relation between a block before (`c`) and after (`d`) an operation
that says: the managed object is destroyed in this operation, once, exactly
when the strong counter goes from 1 to 0 (and there is an object). -/
def DestroyStep (c d : ControlBlock) : Prop :=
  d.destroyed = c.destroyed +
    (if c.shared_counter = 1 ∧ d.shared_counter = 0 ∧ c.hasObject then 1 else 0)

end ControlBlock

/-- The invariant of one control block, relative to the number `ls` of live
`SharedPtr` objects and the number `lw` of live `WeakPtr` objects that
reference it. `N` bounds the number of operations executed so far and `E` says
that no weak copy assignment was among them. -/
structure BlockInv (E : Prop) (N ls lw : Nat) (c : ControlBlock) : Prop where
  bound : N < SIZE_MOD
  shared_ge : ls ≤ c.shared_counter
  shared_le : c.shared_counter ≤ N
  lw_le : lw ≤ N
  weak_lt : c.weak_counter < SIZE_MOD
  sum_mod : (c.weak_counter + c.shared_counter) % SIZE_MOD = (lw + ls) % SIZE_MOD
  exact_s : E → c.shared_counter = ls
  destroyed_le : c.destroyed ≤ 1
  destroyed_gap : 1 ≤ c.destroyed → c.shared_counter = 0 ∨ ls < c.shared_counter
  ptr_destroyed : c.kind = .Ptr → c.ptr ≠ .null → c.destroyed = 0
  ptr_null : c.kind = .Ptr → c.shared_counter = 0 → c.ptr = .null
  freed_le : c.freed ≤ 1
  freed_iff : c.freed = 1 ↔ (c.shared_counter = 0 ∧ c.weak_counter = 0)

/-- The invariant of a heap relative to the reference counts `ls` and `lw` of
the pointer objects: every block satisfies `BlockInv`, and nothing references a
block that was never allocated. -/
structure HeapInv (E : Prop) (N : Nat) (h : Heap) (ls lw : Nat → Nat) : Prop where
  bound : N < SIZE_MOD
  block : ∀ b c, h[b]? = some c → BlockInv E N (ls b) (lw b) c
  fresh : ∀ b, h.length ≤ b → ls b = 0 ∧ lw b = 0

/-- One if the block pointer `o` is block `x`, else zero. -/
def refersTo (o : Option Nat) (x : Nat) : Nat := if o = some x then 1 else 0

namespace Op

/-- Operations of `SharedPtr` that involve no `WeakPtr`. -/
def strongOnly : Op → Bool
  | .sDefault | .sFromRaw _ | .sMake | .sCopy _ | .sMove _ | .sAlias _ _
  | .sCopyAssign _ _ | .sMoveAssign _ _ | .sMoveAssignConv _ _ | .sReset _
  | .sResetPtr _ _ | .sSwap _ _ | .sDestroy _ => true
  | _ => false

/-- Every operation except the weak copy assignment. -/
def exact : Op → Bool
  | .wCopyAssign _ _ => false
  | _ => true

end Op

namespace State

/-- The invariant of a program state. -/
def Inv (E : Prop) (N : Nat) (s : State) : Prop :=
  HeapInv E N s.heap s.liveShared s.liveWeak

end State

/-- The relation between the heap before and after an operation: every block
stays in the heap, and its managed object is destroyed in the operation exactly
when its strong counter goes from 1 to 0; a block allocated by the operation
has its object alive and its storage in place. -/
def Heap.DestroyStep (h h2 : Heap) : Prop :=
  (∀ (b : Nat) (c : ControlBlock), h[b]? = some c →
    ∃ d : ControlBlock, h2[b]? = some d ∧ c.DestroyStep d) ∧
  (∀ (b : Nat) (d : ControlBlock), h.length ≤ b → h2[b]? = some d →
    d.destroyed = 0 ∧ d.freed = 0)

/-! ## The managed objects -/

/-- The objects in memory: the value of the object that lives at an address,
if any. The pointer classes never read or write it; only the constructor call
in `MakeShared` and the dereference operators do. -/
abbrev Memory (α : Type) := Addr → Option α

/-- The function `MakeShared<T>(v)` together with the object it builds: the
placement `new` in the constructor of `ControlBlockObj` constructs the object
from `v` in the storage of the new block (the address that `GetPtr` returns). -/
def SharedPtr.MakeSharedOf {α : Type} (h : Heap) (m : Memory α) (v : α) :
    Heap × Memory α × SharedPtr :=
  ((SharedPtr.MakeShared h).1,
    fun a => if a = Addr.obj h.length then some v else m a,
    (SharedPtr.MakeShared h).2)

/-- The operator `*` of `SharedPtr`: the object at `ptr_`. -/
def SharedPtr.deref {α : Type} (m : Memory α) (self : SharedPtr) : Option α :=
  m self.ptr_

/-! ## Pointers whose access pointer is null exactly without a block -/

/-- Every live pointer object has a null access pointer exactly when it has no
block. -/
def State.PlainPtrs (s : State) : Prop :=
  (∀ p ∈ s.sp, (p.block_ = none ↔ p.ptr_ = Addr.null)) ∧
  (∀ w ∈ s.wp, (w.block_ = none ↔ w.ptr_ = Addr.null))

instance (s : State) : Decidable s.PlainPtrs := by
  unfold State.PlainPtrs; infer_instance

/-- Whether the operation, executed in state `s`, pairs a null access pointer
with "no block": `SharedPtr(ptr)` and `Reset(ptr)` always create a block, so
they must get a non-null `ptr`; the aliasing constructor takes the block of its
source, so it must get a null `ptr` exactly when the source has no block. Every
other operation qualifies. -/
def State.plainOp (s : State) : Op → Bool
  | .sFromRaw ptr => decide (ptr ≠ Addr.null)
  | .sResetPtr i ptr =>
    match s.sp[i]? with
    | some _ => decide (ptr ≠ Addr.null)
    | none => true
  | .sAlias j ptr =>
    match s.sp[j]? with
    | some other => decide (other.block_ = none ↔ ptr = Addr.null)
    | none => true
  | _ => true

/-- Every operation of the program qualifies in the state it is executed in. -/
def State.plainRun (s : State) : List Op → Bool
  | [] => true
  | o :: os => s.plainOp o && (s.step o).plainRun os

/-! ## The `SharedPtr` of `src/shared/shared.h` (no weak pointers) -/

namespace StrongOnly

/-- A control block of `src/shared/shared.h`. `counter` is the member
`shared_counter` of `ControlBlockObj` resp. `counter` of `ControlBlockPtr`;
`ptr` is the member of `ControlBlockPtr` (the object of a `ControlBlockObj` is
its member `object`). `destroyed` and `freed` count the destructions of the
managed object and the `delete` calls on the block. -/
structure ControlBlock where
  kind : BlockKind
  counter : Nat
  ptr : Addr
  destroyed : Nat
  freed : Nat
deriving DecidableEq, Repr

namespace ControlBlock

/-- Constructor `ControlBlockObj(args...)`. -/
def newObj : ControlBlock :=
  { kind := .Obj, counter := 1, ptr := .null, destroyed := 0, freed := 0 }

/-- Constructor `ControlBlockPtr(inptr)`. -/
def newPtr (inptr : Addr) : ControlBlock :=
  { kind := .Ptr, counter := 1, ptr := inptr, destroyed := 0, freed := 0 }

def GetSharedCnt (c : ControlBlock) : Nat := c.counter

def IncSharedCnt (c : ControlBlock) : ControlBlock :=
  { c with counter := incSize c.counter }

/-- Both overrides only decrement. -/
def DecSharedCnt (c : ControlBlock) : ControlBlock :=
  { c with counter := decSize c.counter }

/-- The statement `delete block_`: the destructor of `ControlBlockObj` destroys
the member `object`; `~ControlBlockPtr` runs `delete ptr; ptr = nullptr;`
(nothing is destroyed by deleting a null pointer); then the storage is
released. -/
def deleteBlock (c : ControlBlock) : ControlBlock :=
  match c.kind with
  | .Obj => { c with destroyed := c.destroyed + 1, freed := c.freed + 1 }
  | .Ptr =>
    { c with destroyed := c.destroyed + (if c.ptr = .null then 0 else 1), ptr := .null,
             freed := c.freed + 1 }

end ControlBlock

/-- The heap of control blocks of `src/shared/shared.h`. -/
abbrev Heap := List ControlBlock

/-- A call `block->f()` of a mutating member through a block pointer. -/
def Heap.call (h : Heap) (b : Nat) (f : ControlBlock → ControlBlock) : Heap :=
  match h[b]? with
  | some c => h.set b (f c)
  | none => h

/-- The call `block->GetSharedCnt()`. -/
def Heap.GetSharedCnt (h : Heap) (b : Nat) : Nat :=
  match h[b]? with
  | some c => c.GetSharedCnt
  | none => 0

/-- The method `UseCount`. -/
def UseCount (h : Heap) (self : SharedPtr) : Nat :=
  match self.block_ with
  | some b => h.GetSharedCnt b
  | none => 0

/-- Constructor `SharedPtr(T* ptr)` (and its `Y*` template). -/
def fromRaw (h : Heap) (ptr : Addr) : Heap × SharedPtr :=
  (h ++ [ControlBlock.newPtr ptr], { block_ := some h.length, ptr_ := ptr })

/-- The function `MakeShared`. -/
def MakeShared (h : Heap) : Heap × SharedPtr :=
  (h ++ [ControlBlock.newObj], { block_ := some h.length, ptr_ := .obj h.length })

/-- Copy constructor (and its template). -/
def copy (h : Heap) (other : SharedPtr) : Heap × SharedPtr :=
  match other.block_ with
  | some b => (h.call b ControlBlock.IncSharedCnt, { block_ := some b, ptr_ := other.ptr_ })
  | none => (h, { block_ := none, ptr_ := other.ptr_ })

/-- Move constructor (and its template). -/
def move (other : SharedPtr) : SharedPtr × SharedPtr :=
  ({ block_ := other.block_, ptr_ := other.ptr_ }, { block_ := none, ptr_ := .null })

/-- Aliasing constructor `SharedPtr(const SharedPtr<Y>& other, T* ptr)`. -/
def aliasing (h : Heap) (other : SharedPtr) (ptr : Addr) : Heap × SharedPtr :=
  match other.block_ with
  | some b => (h.call b ControlBlock.IncSharedCnt, { block_ := some b, ptr_ := ptr })
  | none => (h, { block_ := none, ptr_ := ptr })

/-- The method `Reset()`; the destructor has the same body. A pointer without
a block is left as it is. -/
def Reset (h : Heap) (self : SharedPtr) : Heap × SharedPtr :=
  match self.block_ with
  | some b =>
    (if UseCount h self = 1 then h.call b ControlBlock.deleteBlock
      else h.call b ControlBlock.DecSharedCnt,
     { block_ := none, ptr_ := .null })
  | none => (h, self)

/-- The method `Reset(T* ptr)` (and its `Y*` template). -/
def ResetPtr (h : Heap) (self : SharedPtr) (ptr : Addr) : Heap × SharedPtr :=
  ((Reset h self).1 ++ [ControlBlock.newPtr ptr],
    { block_ := some (Reset h self).1.length, ptr_ := ptr })

/-- Copy assignment (and its template). -/
def copyAssign (h : Heap) (self other : SharedPtr) : Heap × SharedPtr :=
  match other.block_ with
  | some b =>
    if self.block_ ≠ other.block_ then
      ((Reset h self).1.call b ControlBlock.IncSharedCnt,
        { block_ := some b, ptr_ := other.ptr_ })
    else (h, self)
  | none => Reset h self

/-- Move assignment `operator=(SharedPtr&& other)`: both members are swapped. -/
def moveAssign (self other : SharedPtr) : SharedPtr × SharedPtr :=
  ({ block_ := other.block_, ptr_ := other.ptr_ }, { block_ := self.block_, ptr_ := self.ptr_ })

/-- The template `operator=(SharedPtr<Y>&& other)`. -/
def moveAssignConv (h : Heap) (self other : SharedPtr) : Heap × SharedPtr × SharedPtr :=
  match other.block_ with
  | some b =>
    if self.block_ ≠ other.block_ then
      let h2 := (Reset h self).1.call b ControlBlock.IncSharedCnt
      ((Reset h2 other).1, { block_ := some b, ptr_ := other.ptr_ }, (Reset h2 other).2)
    else (h, self, other)
  | none => ((Reset h self).1, (Reset h self).2, other)

/-- The method `Swap`. -/
def Swap (self other : SharedPtr) : SharedPtr × SharedPtr :=
  ({ block_ := other.block_, ptr_ := other.ptr_ }, { block_ := self.block_, ptr_ := self.ptr_ })

/-- A program state: the heap and the live `SharedPtr` objects. -/
structure State where
  heap : Heap
  sp : List SharedPtr
deriving DecidableEq, Repr

namespace State

def init : State := { heap := [], sp := [] }

/-- One operation, as in `SmartPtrs.State.step`. The operations that involve a
`WeakPtr` are not operations of this class and leave the state as it is. -/
def step (s : State) : Op → State
  | .sDefault => { s with sp := s.sp ++ [SharedPtr.empty] }
  | .sFromRaw ptr =>
    { heap := (fromRaw s.heap ptr).1, sp := s.sp ++ [(fromRaw s.heap ptr).2] }
  | .sMake => { heap := (MakeShared s.heap).1, sp := s.sp ++ [(MakeShared s.heap).2] }
  | .sCopy j =>
    match s.sp[j]? with
    | some other => { heap := (copy s.heap other).1, sp := s.sp ++ [(copy s.heap other).2] }
    | none => s
  | .sMove j =>
    match s.sp[j]? with
    | some other => { s with sp := s.sp.set j (move other).2 ++ [(move other).1] }
    | none => s
  | .sAlias j ptr =>
    match s.sp[j]? with
    | some other =>
      { heap := (aliasing s.heap other ptr).1, sp := s.sp ++ [(aliasing s.heap other ptr).2] }
    | none => s
  | .sCopyAssign i j =>
    match s.sp[i]?, s.sp[j]? with
    | some self, some other =>
      { heap := (copyAssign s.heap self other).1,
        sp := s.sp.set i (copyAssign s.heap self other).2 }
    | _, _ => s
  | .sMoveAssign i j =>
    match s.sp[i]?, s.sp[j]? with
    | some self, some other =>
      { s with sp := (s.sp.set j (moveAssign self other).2).set i (moveAssign self other).1 }
    | _, _ => s
  | .sMoveAssignConv i j =>
    match s.sp[i]?, s.sp[j]? with
    | some self, some other =>
      { heap := (moveAssignConv s.heap self other).1,
        sp := (s.sp.set j (moveAssignConv s.heap self other).2.2).set i
          (moveAssignConv s.heap self other).2.1 }
    | _, _ => s
  | .sReset i =>
    match s.sp[i]? with
    | some self => { heap := (Reset s.heap self).1, sp := s.sp.set i (Reset s.heap self).2 }
    | none => s
  | .sResetPtr i ptr =>
    match s.sp[i]? with
    | some self =>
      { heap := (ResetPtr s.heap self ptr).1, sp := s.sp.set i (ResetPtr s.heap self ptr).2 }
    | none => s
  | .sSwap i j =>
    match s.sp[i]?, s.sp[j]? with
    | some self, some other =>
      { s with sp := (s.sp.set j (Swap self other).2).set i (Swap self other).1 }
    | _, _ => s
  | .sDestroy i =>
    match s.sp[i]? with
    | some self => { heap := (Reset s.heap self).1, sp := s.sp.eraseIdx i }
    | none => s
  | _ => s

/-- A program: operations executed in order. -/
def run (s : State) : List Op → State
  | [] => s
  | o :: os => run (s.step o) os

end State

end StrongOnly

/-! ## Intrusive pointers (`src/intrusive/intrusive.h`) -/

namespace Intrusive

/-- An object derived from `SimpleRefCounted`: `count_` is the member of its
`SimpleCounter`; `destroyed` counts the calls `Deleter::Destroy(this)`. -/
structure Counted where
  count_ : Nat
  destroyed : Nat
deriving DecidableEq, Repr

namespace Counted

/-- A newly constructed object: `size_t count_ = 0`. -/
def new : Counted := { count_ := 0, destroyed := 0 }

/-- The method `RefCounted::IncRef`: `counter_.IncRef()`, that is `++count_`. -/
def IncRef (c : Counted) : Counted := { c with count_ := incSize c.count_ }

/-- The method `RefCounted::DecRef`: `if (!counter_.DecRef()) Deleter::Destroy(this)`,
where `SimpleCounter::DecRef` returns `--count_`. -/
def DecRef (c : Counted) : Counted :=
  let c1 := { c with count_ := decSize c.count_ }
  if c1.count_ = 0 then { c1 with destroyed := c1.destroyed + 1 } else c1

def RefCount (c : Counted) : Nat := c.count_

end Counted

/-- The ref-counted objects of a program; a non-null `T*` is an index. -/
abbrev Objects := List Counted

/-- A call `counted->f()` of a mutating member. -/
def Objects.call (m : Objects) (b : Nat) (f : Counted → Counted) : Objects :=
  match m[b]? with
  | some c => m.set b (f c)
  | none => m

/-- The call `counted->RefCount()`. -/
def Objects.RefCount (m : Objects) (b : Nat) : Nat :=
  match m[b]? with
  | some c => c.RefCount
  | none => 0

/-- A call `counted->f()` through a pointer that may be null: no object
changes when it is null. -/
def Objects.callAt (m : Objects) (o : Option Nat) (f : Counted → Counted) : Objects :=
  match o with
  | some b => m.call b f
  | none => m

/-- The class `IntrusivePtr<T>`: its only member `counted_`. -/
structure IntrusivePtr where
  counted_ : Option Nat
deriving DecidableEq, Repr

namespace IntrusivePtr

/-- Constructors `IntrusivePtr()` and `IntrusivePtr(std::nullptr_t)`. -/
def empty : IntrusivePtr := { counted_ := none }

/-- Constructor `IntrusivePtr(T* ptr)`: `counted_ = ptr; counted_->IncRef();`.
The call through a null `ptr` is undefined in C++; here it changes no object. -/
def fromRaw (m : Objects) (ptr : Option Nat) : Objects × IntrusivePtr :=
  match ptr with
  | some b => (m.call b Counted.IncRef, { counted_ := some b })
  | none => (m, { counted_ := none })

/-- Copy constructor (and its template). -/
def copy (m : Objects) (other : IntrusivePtr) : Objects × IntrusivePtr :=
  match other.counted_ with
  | some b => (m.call b Counted.IncRef, { counted_ := some b })
  | none => (m, { counted_ := none })

/-- Move constructor (and its template): the new pointer, then the source. -/
def move (other : IntrusivePtr) : IntrusivePtr × IntrusivePtr :=
  ({ counted_ := other.counted_ }, { counted_ := none })

/-- The method `Reset()`; the destructor calls it. -/
def Reset (m : Objects) (self : IntrusivePtr) : Objects × IntrusivePtr :=
  match self.counted_ with
  | some b => (m.call b Counted.DecRef, { counted_ := none })
  | none => (m, self)

/-- The method `Reset(T* ptr)`: the whole body is guarded by `if (counted_)`.
The call `counted_->IncRef()` through a null `ptr` is undefined in C++; here it
changes no object. -/
def ResetPtr (m : Objects) (self : IntrusivePtr) (ptr : Option Nat) : Objects × IntrusivePtr :=
  match self.counted_ with
  | some b => ((m.call b Counted.DecRef).callAt ptr Counted.IncRef, { counted_ := ptr })
  | none => (m, self)

/-- Copy assignment, for an operand that the `Reset()` does not destroy:
`other` is given by value. -/
def copyAssign (m : Objects) (self other : IntrusivePtr) : Objects × IntrusivePtr :=
  if self.counted_ ≠ other.counted_ then
    ((Reset m self).1.callAt other.counted_ Counted.IncRef, { counted_ := other.counted_ })
  else (m, self)

/-- Move assignment, for an operand that the `Reset()` does not destroy: the
objects, `*this`, then the source. -/
def moveAssign (m : Objects) (self other : IntrusivePtr) :
    Objects × IntrusivePtr × IntrusivePtr :=
  if self.counted_ ≠ other.counted_ then
    ((Reset m self).1, { counted_ := other.counted_ }, { counted_ := none })
  else (m, self, other)

/-- The method `Swap`. -/
def Swap (self other : IntrusivePtr) : IntrusivePtr × IntrusivePtr :=
  ({ counted_ := other.counted_ }, { counted_ := self.counted_ })

def Get (self : IntrusivePtr) : Option Nat := self.counted_

/-- The method `UseCount`. -/
def UseCount (m : Objects) (self : IntrusivePtr) : Nat :=
  match self.counted_ with
  | none => 0
  | some b => m.RefCount b

/-- The conversion `operator bool`. -/
def toBool (self : IntrusivePtr) : Bool := self.counted_.isSome

end IntrusivePtr

/-- The function `MakeIntrusive`: `new T(args...)`, then
`IntrusivePtr<T>(counted)`, for arguments that are not a ref-counted object of
type `T`: the constructor of `T` starts from the default member initializer
`count_ = 0`. -/
def MakeIntrusive (m : Objects) : Objects × IntrusivePtr :=
  IntrusivePtr.fromRaw (m ++ [Counted.new]) (some m.length)

/-- The call `MakeIntrusive<T>(*src)` for a `T` with the implicit copy
constructor: `new T(*src)` copies the base `RefCounted`, which declares only
`operator=`, so its implicit copy constructor copies `counter_`, and that of
`SimpleCounter` copies `count_`; then `IntrusivePtr<T>(counted)`. -/
def MakeIntrusiveCopy (m : Objects) (src : Nat) : Objects × IntrusivePtr :=
  IntrusivePtr.fromRaw (m ++ [{ count_ := m.RefCount src, destroyed := 0 }]) (some m.length)

/-- A program state: the ref-counted objects and the live `IntrusivePtr`s. -/
structure State where
  objs : Objects
  ip : List IntrusivePtr
deriving DecidableEq, Repr

/-- The operations of a client on intrusive pointers. `oNew` is a `new T` of
the client, `pFromRaw b` the constructor from the raw pointer to object `b`;
the other operations name pointers by their position in `State.ip`. -/
inductive Op where
  | oNew : Op
  | pDefault : Op
  | pFromRaw (b : Nat) : Op
  | pMake : Op
  | pCopy (j : Nat) : Op
  | pMove (j : Nat) : Op
  | pCopyAssign (i j : Nat) : Op
  | pMoveAssign (i j : Nat) : Op
  | pReset (i : Nat) : Op
  | pSwap (i j : Nat) : Op
  | pDestroy (i : Nat) : Op
deriving DecidableEq, Repr

namespace State

def init : State := { objs := [], ip := [] }

/-- One operation. An operation on a position that holds no pointer does
nothing; for an operation on two pointers the argument is written back first
and `*this` last. -/
def step (s : State) : Op → State
  | .oNew => { s with objs := s.objs ++ [Counted.new] }
  | .pDefault => { s with ip := s.ip ++ [IntrusivePtr.empty] }
  | .pFromRaw b =>
    { objs := (IntrusivePtr.fromRaw s.objs (some b)).1,
      ip := s.ip ++ [(IntrusivePtr.fromRaw s.objs (some b)).2] }
  | .pMake => { objs := (MakeIntrusive s.objs).1, ip := s.ip ++ [(MakeIntrusive s.objs).2] }
  | .pCopy j =>
    match s.ip[j]? with
    | some other =>
      { objs := (IntrusivePtr.copy s.objs other).1,
        ip := s.ip ++ [(IntrusivePtr.copy s.objs other).2] }
    | none => s
  | .pMove j =>
    match s.ip[j]? with
    | some other =>
      { s with ip := s.ip.set j (IntrusivePtr.move other).2 ++ [(IntrusivePtr.move other).1] }
    | none => s
  | .pCopyAssign i j =>
    match s.ip[i]?, s.ip[j]? with
    | some self, some other =>
      { objs := (IntrusivePtr.copyAssign s.objs self other).1,
        ip := s.ip.set i (IntrusivePtr.copyAssign s.objs self other).2 }
    | _, _ => s
  | .pMoveAssign i j =>
    match s.ip[i]?, s.ip[j]? with
    | some self, some other =>
      { objs := (IntrusivePtr.moveAssign s.objs self other).1,
        ip := (s.ip.set j (IntrusivePtr.moveAssign s.objs self other).2.2).set i
          (IntrusivePtr.moveAssign s.objs self other).2.1 }
    | _, _ => s
  | .pReset i =>
    match s.ip[i]? with
    | some self =>
      { objs := (IntrusivePtr.Reset s.objs self).1,
        ip := s.ip.set i (IntrusivePtr.Reset s.objs self).2 }
    | none => s
  | .pSwap i j =>
    match s.ip[i]?, s.ip[j]? with
    | some self, some other =>
      { objs := s.objs,
        ip := (s.ip.set j (IntrusivePtr.Swap self other).2).set i
          (IntrusivePtr.Swap self other).1 }
    | _, _ => s
  | .pDestroy i =>
    match s.ip[i]? with
    | some self => { objs := (IntrusivePtr.Reset s.objs self).1, ip := s.ip.eraseIdx i }
    | none => s

/-- A program: operations executed in order. -/
def run (s : State) : List Op → State
  | [] => s
  | o :: os => run (s.step o) os

/-- What C++ asks of the client for the operation to be defined: the raw
pointer given to `IntrusivePtr(T*)` points to an object that exists and has not
been destroyed. -/
def pre (s : State) : Op → Bool
  | .pFromRaw b =>
    match s.objs[b]? with
    | some c => decide (c.destroyed = 0)
    | none => false
  | _ => true

/-- Every operation of the program is defined in the state it is executed in. -/
def valid (s : State) : List Op → Bool
  | [] => true
  | o :: os => s.pre o && valid (s.step o) os

/-- The number of live `IntrusivePtr` objects that hold object `b`. -/
def live (s : State) (b : Nat) : Nat :=
  s.ip.countP (fun p => decide (p.counted_ = some b))

end State

/-- The invariant of one object with `n` live pointers to it. -/
structure ObjInv (n : Nat) (c : Counted) : Prop where
  count_eq : c.count_ = n
  destroyed_le : c.destroyed ≤ 1
  destroyed_zero : 1 ≤ c.destroyed → c.count_ = 0

/-- The invariant of the objects, for a count `L` of the live pointers. -/
def ObjsInv (m : Objects) (L : Nat → Nat) : Prop :=
  (∀ (b : Nat) (c : Counted), m[b]? = some c → ObjInv (L b) c) ∧
  (∀ b : Nat, m.length ≤ b → L b = 0)

/-- The change of the objects in one operation: every object stays, and it is
destroyed in the operation, once, exactly when its counter goes from 1 to 0;
an object created in the operation is not destroyed. -/
def Objects.DestroyStep (m m2 : Objects) : Prop :=
  (∀ (b : Nat) (c : Counted), m[b]? = some c →
    ∃ d : Counted, m2[b]? = some d ∧
      d.destroyed = c.destroyed + (if c.count_ = 1 ∧ d.count_ = 0 then 1 else 0)) ∧
  (∀ (b : Nat) (d : Counted), m.length ≤ b → m2[b]? = some d → d.destroyed = 0)

/-- The invariant of a state reached by at most `N` operations. -/
structure State.Inv (N : Nat) (s : State) : Prop where
  len : s.ip.length ≤ N
  objs : ObjsInv s.objs s.live

end Intrusive

/-! ## Managed objects that own smart pointers

The definitions above treat the managed object as a value without smart-pointer
members: its destructor is one step and calls nothing back. Here the managed
object has smart-pointer data members, its destructor destroys them (in reverse
order of declaration), and the operations take their operands by reference, as
the source does. Destroyed objects and released blocks keep their last
contents, so that the statements the source executes after a nested call read
what that call left behind. -/

namespace Owning

/-- The type of a smart-pointer data member: `SharedPtr<T>` or `WeakPtr<T>`. -/
inductive MemberKind where
  | strong : MemberKind
  | weak : MemberKind
deriving DecidableEq, Repr

/-- A smart-pointer data member of a managed object. -/
inductive Member where
  | strong (p : SharedPtr) : Member
  | weak (w : WeakPtr) : Member
deriving DecidableEq, Repr

/-- A member after the constructor of the object: default-constructed. -/
def Member.new : MemberKind → Member
  | .strong => .strong SharedPtr.empty
  | .weak => .weak WeakPtr.empty

/-- A control block together with the smart-pointer members of the object it
manages (the embedded object of a `ControlBlockObj`, the object at `ptr` of a
`ControlBlockPtr`), in order of declaration. -/
structure Cell where
  block : ControlBlock
  members : List Member
deriving DecidableEq, Repr

/-- A pointer object of the program: the variable at position `i` of `sp` or
`wp`, or member `k` of the object managed by block `b`. -/
inductive Loc where
  | var (i : Nat) : Loc
  | field (b k : Nat) : Loc
deriving DecidableEq, Repr

/-- A program state. `ub` counts the member calls and `delete`s made through a
block pointer that is null or points to released storage, and the accesses a
member function of a block makes to its own members after a nested call
released the block: each of them is undefined in C++. Accesses to the members
of a destroyed object are not counted. -/
structure State where
  heap : List Cell
  sp : List SharedPtr
  wp : List WeakPtr
  ub : Nat
deriving DecidableEq, Repr

namespace State

def init : State := { heap := [], sp := [], wp := [], ub := 0 }

/-- The `SharedPtr` object at a location. -/
def getS (s : State) : Loc → Option SharedPtr
  | .var i => s.sp[i]?
  | .field b k =>
    match s.heap[b]? with
    | some c =>
      match c.members[k]? with
      | some (.strong p) => some p
      | _ => none
    | none => none

/-- Assignment of both members of the `SharedPtr` object at a location. -/
def setS (s : State) (l : Loc) (p : SharedPtr) : State :=
  match l with
  | .var i => { s with sp := s.sp.set i p }
  | .field b k =>
    match s.heap[b]? with
    | some c => { s with heap := s.heap.set b { c with members := c.members.set k (.strong p) } }
    | none => s

/-- The `WeakPtr` object at a location. -/
def getW (s : State) : Loc → Option WeakPtr
  | .var i => s.wp[i]?
  | .field b k =>
    match s.heap[b]? with
    | some c =>
      match c.members[k]? with
      | some (.weak w) => some w
      | _ => none
    | none => none

/-- Assignment of both members of the `WeakPtr` object at a location. -/
def setW (s : State) (l : Loc) (w : WeakPtr) : State :=
  match l with
  | .var i => { s with wp := s.wp.set i w }
  | .field b k =>
    match s.heap[b]? with
    | some c => { s with heap := s.heap.set b { c with members := c.members.set k (.weak w) } }
    | none => s

/-- An access through the block pointer `o`: counted in `ub` when the pointer
is null or the storage of the block has been released. -/
def touch (s : State) (o : Option Nat) : State :=
  match o with
  | none => { s with ub := s.ub + 1 }
  | some b =>
    match s.heap[b]? with
    | some c => if c.block.freed = 0 then s else { s with ub := s.ub + 1 }
    | none => { s with ub := s.ub + 1 }

/-- An update of the members of block `b` (no access check). -/
def modBlock (s : State) (b : Nat) (f : ControlBlock → ControlBlock) : State :=
  match s.heap[b]? with
  | some c => { s with heap := s.heap.set b { c with block := f c.block } }
  | none => s

/-- A call `block->f()` through a block pointer that may be null. -/
def call (s : State) (o : Option Nat) (f : ControlBlock → ControlBlock) : State :=
  match o with
  | some b => (s.touch (some b)).modBlock b f
  | none => s.touch none

def GetSharedCnt (s : State) (b : Nat) : Nat :=
  match s.heap[b]? with
  | some c => c.block.shared_counter
  | none => 0

def GetWeakCnt (s : State) (b : Nat) : Nat :=
  match s.heap[b]? with
  | some c => c.block.weak_counter
  | none => 0

end State

/-- The member functions that can call one another through a destructor. -/
inductive Call where
  | DecSharedCnt (b : Nat) : Call
  | deleteBlock (b : Nat) : Call
  | deletePtr (b : Nat) : Call
  | dtorObject (b : Nat) : Call
  | dtorMembers (b k : Nat) : Call
  | ResetShared (l : Loc) : Call
  | ResetWeak (l : Loc) : Call
deriving DecidableEq, Repr

/-- Execution of a call, with a bound on the depth of nested calls (`none`:
the bound was too small).

* `DecSharedCnt b`: the call `block->DecSharedCnt()`. `ControlBlockObj`:
  `--shared_counter; if (!shared_counter) { ~U(); if (!weak_counter) delete
  this; }`, where `weak_counter` is read after the destructor returned.
  `ControlBlockPtr`: `--shared_counter; if (!shared_counter) { if
  (!weak_counter) delete this; else { delete ptr; ptr = nullptr; } }`.
* `deleteBlock b`: `delete` on the block: the destructor (`~ControlBlockPtr`
  is `if (ptr) { delete ptr; ptr = nullptr; }`, the one of `ControlBlockObj`
  does nothing), then the release of the storage.
* `deletePtr b`: the statement `delete ptr` of a `ControlBlockPtr`.
* `dtorObject b`: the destructor `~U()` of the managed object, which destroys
  the members, the last declared first; `dtorMembers b k` destroys the members
  `k - 1, ..., 0`.
* `ResetShared l`, `ResetWeak l`: `SharedPtr::Reset()` and `WeakPtr::Reset()`
  on the pointer object at `l` (also the two destructors). -/
def exec : Nat → Call → State → Option State
  | 0, _, _ => none
  | n + 1, .DecSharedCnt b, s =>
    -- sw_fwd.h:38 and 74: the decrement
    let s1 := s.call (some b) (fun c => { c with shared_counter := decSize c.shared_counter })
    match s1.heap[b]? with
    | none => some s1
    | some c =>
      if c.block.shared_counter = 0 then
        match c.block.kind with
        | .Obj =>
          -- sw_fwd.h:40: the destructor of the object
          match exec n (.dtorObject b) s1 with
          | none => none
          | some s2 =>
            -- sw_fwd.h:41-42: `weak_counter` as it is now, then `delete this`
            if (s2.touch (some b)).GetWeakCnt b = 0 then
              exec n (.deleteBlock b) (s2.touch (some b))
            else some (s2.touch (some b))
        | .Ptr =>
          -- sw_fwd.h:76-77
          if c.block.weak_counter = 0 then exec n (.deleteBlock b) s1
          else
            -- sw_fwd.h:79: `delete ptr`, then sw_fwd.h:80: `ptr = nullptr`
            match exec n (.deletePtr b) s1 with
            | none => none
            | some s2 => some (s2.call (some b) (fun c => { c with ptr := .null }))
      else some s1
  | n + 1, .deleteBlock b, s =>
    match (s.touch (some b)).heap[b]? with
    | none => some (s.touch (some b))
    | some c =>
      match c.block.kind with
      | .Obj =>
        some ((s.touch (some b)).modBlock b (fun c => { c with freed := c.freed + 1 }))
      | .Ptr =>
        if c.block.ptr = .null then
          some ((s.touch (some b)).modBlock b (fun c => { c with freed := c.freed + 1 }))
        else
          -- sw_fwd.h:94-97, then the release of the storage
          match exec n (.deletePtr b) (s.touch (some b)) with
          | none => none
          | some s1 =>
            some ((s1.modBlock b (fun c => { c with ptr := .null })).modBlock b
              (fun c => { c with freed := c.freed + 1 }))
  | n + 1, .deletePtr b, s =>
    match s.heap[b]? with
    | none => some s
    | some c => if c.block.ptr = .null then some s else exec n (.dtorObject b) s
  | n + 1, .dtorObject b, s =>
    match s.heap[b]? with
    | none => some s
    | some c =>
      exec n (.dtorMembers b c.members.length)
        (s.modBlock b (fun c => { c with destroyed := c.destroyed + 1 }))
  | _ + 1, .dtorMembers _ 0, s => some s
  | n + 1, .dtorMembers b (k + 1), s =>
    match s.heap[b]? with
    | none => some s
    | some c =>
      match c.members[k]? with
      | some (.strong _) =>
        match exec n (.ResetShared (.field b k)) s with
        | none => none
        | some s1 => exec n (.dtorMembers b k) s1
      | some (.weak _) =>
        match exec n (.ResetWeak (.field b k)) s with
        | none => none
        | some s1 => exec n (.dtorMembers b k) s1
      | none => exec n (.dtorMembers b k) s
  | n + 1, .ResetShared l, s =>
    match s.getS l with
    | none => some s
    | some p =>
      -- shared.h:136-140
      match p.block_ with
      | some b =>
        match exec n (.DecSharedCnt b) s with
        | none => none
        | some s1 => some (s1.setS l { block_ := none, ptr_ := .null })
      | none => some (s.setS l { block_ := none, ptr_ := .null })
  | n + 1, .ResetWeak l, s =>
    match s.getW l with
    | none => some s
    | some w =>
      -- weak.h:67-74
      match w.block_ with
      | some b =>
        if ¬ ((s.call (some b) ControlBlock.DecWeakCnt).GetSharedCnt b ≠ 0 ∨
            (s.call (some b) ControlBlock.DecWeakCnt).GetWeakCnt b ≠ 0) then
          match exec n (.deleteBlock b) (s.call (some b) ControlBlock.DecWeakCnt) with
          | none => none
          | some s2 => some (s2.setW l { block_ := none, ptr_ := .null })
        else some ((s.call (some b) ControlBlock.DecWeakCnt).setW l { block_ := none, ptr_ := .null })
      | none => some s

/-- The operations of the programs below. `shape` lists the smart-pointer
members of the object that is created; an operand is any pointer object of the
program, a variable or a member of a managed object (`cur->next`). -/
inductive Op where
  | sDefault : Op
  | sFromRaw (ptr : Addr) (shape : List MemberKind) : Op
  | sMake (shape : List MemberKind) : Op
  | sCopy (src : Loc) : Op
  | sCopyAssign (dst src : Loc) : Op
  | sReset (dst : Loc) : Op
  | sDestroy (i : Nat) : Op
  | wDefault : Op
  | wOfShared (src : Loc) : Op
  | wMoveAssign (dst src : Loc) : Op
  | wReset (dst : Loc) : Op
  | wDestroy (i : Nat) : Op
deriving DecidableEq, Repr

namespace State

/-- One operation, with the bound `fuel` on the depth of nested calls. An
operation on a location that holds no pointer object of the right type leaves
the state as it is. Constructors add a variable at the end of `sp` or `wp`,
the destructor of a variable removes it.

* `sFromRaw`: `SharedPtr<T>(ptr)` with `ptr` from `new T` (`shared.h:17-19`; a
  null `ptr` has no object); `sMake`: `MakeShared<T>()`.
* `sCopy`: the copy constructor.
* `sCopyAssign dst src`: `operator=(const SharedPtr& other)` (`shared.h:77-89`);
  `other` is a reference, read again after `Reset()`.
* `wOfShared`: `WeakPtr(const SharedPtr<T>&)`; `wMoveAssign`:
  `operator=(WeakPtr&&)`, two `std::swap` calls. -/
def step (fuel : Nat) (s : State) : Op → Option State
  | .sDefault => some { s with sp := s.sp ++ [SharedPtr.empty] }
  | .sFromRaw ptr shape =>
    some { s with
      heap := s.heap ++ [Cell.mk (ControlBlock.newPtr ptr)
        (if ptr = Addr.null then [] else shape.map Member.new)],
      sp := s.sp ++ [{ block_ := some s.heap.length, ptr_ := ptr }] }
  | .sMake shape =>
    some { s with
      heap := s.heap ++ [{ block := ControlBlock.newObj, members := shape.map Member.new }],
      sp := s.sp ++ [{ block_ := some s.heap.length, ptr_ := .obj s.heap.length }] }
  | .sCopy src =>
    match s.getS src with
    | some other =>
      match other.block_ with
      | some b =>
        some { s.call (some b) ControlBlock.IncSharedCnt with
          sp := s.sp ++ [{ block_ := some b, ptr_ := other.ptr_ }] }
      | none => some { s with sp := s.sp ++ [{ block_ := none, ptr_ := other.ptr_ }] }
    | none => some s
  | .sCopyAssign dst src =>
    match s.getS dst, s.getS src with
    | some self, some other =>
      match other.block_ with
      | some _ =>
        if self.block_ ≠ other.block_ then
          match exec fuel (.ResetShared dst) s with
          | none => none
          | some s1 =>
            match s1.getS src with
            | some other1 =>
              some ((s1.setS dst { block_ := other1.block_, ptr_ := other1.ptr_ }).call
                other1.block_ ControlBlock.IncSharedCnt)
            | none => some s1
        else some s
      | none => exec fuel (.ResetShared dst) s
    | _, _ => some s
  | .sReset dst => exec fuel (.ResetShared dst) s
  | .sDestroy i =>
    match s.sp[i]? with
    | some _ =>
      match exec fuel (.ResetShared (.var i)) s with
      | none => none
      | some s1 => some { s1 with sp := s1.sp.eraseIdx i }
    | none => some s
  | .wDefault => some { s with wp := s.wp ++ [WeakPtr.empty] }
  | .wOfShared src =>
    match s.getS src with
    | some other =>
      match other.block_ with
      | some b =>
        some { s.call (some b) ControlBlock.IncWeakCnt with
          wp := s.wp ++ [{ block_ := some b, ptr_ := other.ptr_ }] }
      | none => some { s with wp := s.wp ++ [{ block_ := none, ptr_ := other.ptr_ }] }
    | none => some s
  | .wMoveAssign dst src =>
    match s.getW dst, s.getW src with
    | some self, some other =>
      some ((s.setW src { block_ := self.block_, ptr_ := self.ptr_ }).setW dst
        { block_ := other.block_, ptr_ := other.ptr_ })
    | _, _ => some s
  | .wReset dst => exec fuel (.ResetWeak dst) s
  | .wDestroy i =>
    match s.wp[i]? with
    | some _ =>
      match exec fuel (.ResetWeak (.var i)) s with
      | none => none
      | some s1 => some { s1 with wp := s1.wp.eraseIdx i }
    | none => some s

/-- A program: operations executed in order. -/
def run (fuel : Nat) (s : State) : List Op → Option State
  | [] => some s
  | o :: os =>
    match s.step fuel o with
    | none => none
    | some s1 => run fuel s1 os

end State

/-- What the statements below show of a block: both counters and the two ghost
counters. -/
def Cell.view (c : Cell) : Nat × Nat × Nat × Nat :=
  (c.block.shared_counter, c.block.weak_counter, c.block.destroyed, c.block.freed)

end Owning

/-! ## Basic facts about the heap and the counters -/

theorem incSize_of_lt {n : Nat} (h : n + 1 < SIZE_MOD) : incSize n = n + 1 := by
  unfold incSize
  exact Nat.mod_eq_of_lt h

theorem decSize_one : decSize 1 = 0 := by decide

theorem Heap.call_of_some {h : Heap} {b : Nat} {c : ControlBlock}
    (f : ControlBlock → ControlBlock) (hc : h[b]? = some c) :
    h.call b f = h.set b (f c) := by
  simp [Heap.call, hc]

theorem Heap.call_of_none {h : Heap} {b : Nat}
    (f : ControlBlock → ControlBlock) (hc : h[b]? = none) :
    h.call b f = h := by
  simp [Heap.call, hc]

theorem Heap.GetSharedCnt_of_some {h : Heap} {b : Nat} {c : ControlBlock}
    (hc : h[b]? = some c) : h.GetSharedCnt b = c.shared_counter := by
  simp [Heap.GetSharedCnt, hc, ControlBlock.GetSharedCnt]

theorem Heap.GetWeakCnt_of_some {h : Heap} {b : Nat} {c : ControlBlock}
    (hc : h[b]? = some c) : h.GetWeakCnt b = c.weak_counter := by
  simp [Heap.GetWeakCnt, hc, ControlBlock.GetWeakCnt]

/-- A pointer that is not expired holds a block of the heap whose strong
counter is not zero. -/
theorem WeakPtr.not_expired_iff (h : Heap) (w : WeakPtr) :
    w.Expired h = false ↔
      ∃ b c, w.block_ = some b ∧ h[b]? = some c ∧ c.shared_counter ≠ 0 := by
  unfold WeakPtr.Expired
  cases hb : w.block_ with
  | none => simp
  | some b =>
    cases hc : h[b]? with
    | none => simp [Heap.GetSharedCnt, hc]
    | some c => simp [Heap.GetSharedCnt, hc, ControlBlock.GetSharedCnt]

/-! ## Single operations -/

/-- For a managed object without smart-pointer members
(`ControlBlock.DecSharedCnt`): when `Reset()` (the body of the destructor) of a
`SharedPtr` finds the
strong counter of its block at 1, the counter becomes 0, the weak counter is
unchanged, and the managed object is destroyed in this operation (once, for
either kind of block that has an object). With a positive weak counter the
block's storage is not released; with a zero weak counter it is released in
this operation. -/
theorem SharedPtr.Reset_last_strong (h : Heap) (p : SharedPtr) (b : Nat) (c : ControlBlock)
    (hb : p.block_ = some b) (hc : h[b]? = some c) (h1 : c.shared_counter = 1) :
    ∃ c2, (p.Reset h).1 = h.set b c2 ∧ (p.Reset h).2 = SharedPtr.empty ∧
      c2.kind = c.kind ∧ c2.shared_counter = 0 ∧ c2.weak_counter = c.weak_counter ∧
      (c.hasObject → c2.destroyed = c.destroyed + 1) ∧
      (¬ c.hasObject → c2.destroyed = c.destroyed) ∧
      (0 < c.weak_counter → c2.freed = c.freed) ∧
      (c.weak_counter = 0 → c2.freed = c.freed + 1) := by
  refine ⟨c.DecSharedCnt, ?_, ?_, ?_⟩
  · simp [SharedPtr.Reset, hb, Heap.call_of_some _ hc]
  · simp [SharedPtr.Reset, hb, SharedPtr.empty]
  · unfold ControlBlock.DecSharedCnt ControlBlock.deleteThis ControlBlock.dtor
      ControlBlock.deletePtr ControlBlock.hasObject
    rw [h1, decSize_one]
    cases hk : c.kind <;> by_cases hw : c.weak_counter = 0 <;>
      by_cases hp : c.ptr = Addr.null <;> simp [hk, hw, hp]

/-- Witness for `SharedPtr.Reset_last_strong`: the last strong pointer of an
external block that still has a weak reference. -/
theorem SharedPtr.Reset_last_strong_witness :
    ∃ c2, (SharedPtr.Reset [ControlBlock.mk .Ptr 1 1 (.raw 7) 0 0]
        (SharedPtr.mk (some 0) (.raw 7))).1 = [c2] ∧
      c2.shared_counter = 0 ∧ c2.weak_counter = 1 ∧ c2.destroyed = 1 ∧ c2.freed = 0 := by
  obtain ⟨c2, e1, _, _, e2, e3, e4, _, e5, _⟩ :=
    SharedPtr.Reset_last_strong [ControlBlock.mk .Ptr 1 1 (.raw 7) 0 0]
      (SharedPtr.mk (some 0) (.raw 7)) 0 (ControlBlock.mk .Ptr 1 1 (.raw 7) 0 0) rfl rfl rfl
  exact ⟨c2, e1, e2, e3, e4 (by decide), e5 (by decide)⟩

/-- C9: copy construction from the object at position `j`. From a pointer with
a block, the new object has the same block and the same access pointer, the
only change in the heap is one increment of that block's strong counter (its
weak counter and every other block are as before), and the source and all
other pointer objects are unchanged. From a pointer without a block the new
object has no block and the heap is unchanged. -/
theorem State.step_sCopy_spec (s : State) (j : Nat) (src : SharedPtr)
    (hj : s.sp[j]? = some src) :
    (∀ b c, src.block_ = some b → s.heap[b]? = some c →
      (s.step (.sCopy j)).sp = s.sp ++ [{ block_ := some b, ptr_ := src.ptr_ }] ∧
      (s.step (.sCopy j)).sp[j]? = some src ∧
      (s.step (.sCopy j)).wp = s.wp ∧
      (s.step (.sCopy j)).heap =
        s.heap.set b { c with shared_counter := incSize c.shared_counter } ∧
      (c.shared_counter + 1 < SIZE_MOD → incSize c.shared_counter = c.shared_counter + 1)) ∧
    (src.block_ = none →
      (s.step (.sCopy j)).sp = s.sp ++ [{ block_ := none, ptr_ := src.ptr_ }] ∧
      (s.step (.sCopy j)).wp = s.wp ∧
      (s.step (.sCopy j)).heap = s.heap ∧
      SharedPtr.UseCount s.heap { block_ := none, ptr_ := src.ptr_ } = 0) := by
  have hlt : j < s.sp.length := (List.getElem?_eq_some.1 hj).1
  refine ⟨?_, ?_⟩
  · intro b c hb hc
    refine ⟨?_, ?_, ?_, ?_, fun hlt2 => incSize_of_lt hlt2⟩
    · simp [State.step, hj, SharedPtr.copy, hb]
    · simp [State.step, hj, SharedPtr.copy, hb, List.getElem?_append_left hlt]
    · simp [State.step, hj, SharedPtr.copy, hb]
    · simp [State.step, hj, SharedPtr.copy, hb, Heap.call_of_some _ hc,
        ControlBlock.IncSharedCnt]
  · intro hb
    simp [State.step, hj, SharedPtr.copy, hb, SharedPtr.UseCount]

/-- Witness for `State.step_sCopy_spec`: a pointer made from a raw pointer is
copied; both objects then share block 0, whose strong counter is 2. -/
theorem State.step_sCopy_spec_witness :
    ((State.init.step (.sFromRaw (.raw 1))).step (.sCopy 0)).sp =
      [{ block_ := some 0, ptr_ := .raw 1 }, { block_ := some 0, ptr_ := .raw 1 }] ∧
    ((State.init.step (.sFromRaw (.raw 1))).step (.sCopy 0)).heap =
      [ControlBlock.mk .Ptr 2 0 (.raw 1) 0 0] := by
  obtain ⟨e1, _, _, e2, _⟩ :=
    (State.step_sCopy_spec (State.init.step (.sFromRaw (.raw 1))) 0
      { block_ := some 0, ptr_ := .raw 1 } rfl).1 0 (ControlBlock.newPtr (.raw 1)) rfl rfl
  exact ⟨e1, e2⟩

/-! ## Executions that show defects of the source -/

/-- C10: copy assignment between two pointers that share a block but expose
different access pointers (the second was made by the aliasing constructor)
changes nothing: afterwards `a.Get()` is still `raw 1` while `b.Get()` is
`raw 2`. -/
theorem SharedPtr.copyAssign_same_block_keeps_ptr :
    (State.run State.init [.sFromRaw (.raw 1), .sAlias 0 (.raw 2), .sCopyAssign 0 1]).sp =
      [{ block_ := some 0, ptr_ := .raw 1 }, { block_ := some 0, ptr_ := .raw 2 }] ∧
    ((State.run State.init [.sFromRaw (.raw 1), .sAlias 0 (.raw 2), .sCopyAssign 0 1]).sp[0]?.map
        SharedPtr.Get) ≠
      ((State.run State.init [.sFromRaw (.raw 1), .sAlias 0 (.raw 2), .sCopyAssign 0 1]).sp[1]?.map
        SharedPtr.Get) := by
  decide

/-- C6: after the only `SharedPtr` of a block is destroyed the weak pointer is
expired and no `SharedPtr` references the block; a following weak copy
assignment from it raises the strong counter from 0 to 1, and the same weak
pointer reports `Expired() == false` although no `SharedPtr` exists. -/
theorem WeakPtr.copyAssign_revives_expired :
    (∀ w ∈ (State.run State.init [.sMake, .wOfShared 0, .wDefault, .sDestroy 0]).wp,
      w.block_ = some 0 →
      w.Expired (State.run State.init [.sMake, .wOfShared 0, .wDefault, .sDestroy 0]).heap
        = true) ∧
    (State.run State.init [.sMake, .wOfShared 0, .wDefault, .sDestroy 0]).liveShared 0 = 0 ∧
    (State.run State.init
      [.sMake, .wOfShared 0, .wDefault, .sDestroy 0, .wCopyAssign 1 0]).liveShared 0 = 0 ∧
    (State.run State.init
      [.sMake, .wOfShared 0, .wDefault, .sDestroy 0, .wCopyAssign 1 0]).heap.GetSharedCnt 0 = 1 ∧
    (State.run State.init
      [.sMake, .wOfShared 0, .wDefault, .sDestroy 0, .wCopyAssign 1 0]).wp[0]?.map
        (WeakPtr.Expired (State.run State.init
          [.sMake, .wOfShared 0, .wDefault, .sDestroy 0, .wCopyAssign 1 0]).heap)
      = some false := by
  decide

/-- C7: after a weak copy assignment two live `WeakPtr` objects reference
block 0, but its weak counter is still 1 (and its strong counter is 2 with one
live `SharedPtr`). -/
theorem WeakPtr.copyAssign_miscounts :
    (State.run State.init [.sMake, .wOfShared 0, .wDefault, .wCopyAssign 1 0]).liveWeak 0 = 2 ∧
    (State.run State.init [.sMake, .wOfShared 0, .wDefault, .wCopyAssign 1 0]).heap.GetWeakCnt 0
      = 1 ∧
    (State.run State.init [.sMake, .wOfShared 0, .wDefault, .wCopyAssign 1 0]).liveShared 0 = 1 ∧
    (State.run State.init [.sMake, .wOfShared 0, .wDefault, .wCopyAssign 1 0]).heap.GetSharedCnt 0
      = 2 := by
  decide

/-! ## The block invariant under the counter operations -/

theorem BlockInv.mono {E E2 : Prop} {N N2 ls lw : Nat} {c : ControlBlock}
    (hI : BlockInv E N ls lw c) (hN : N ≤ N2) (hN2 : N2 < SIZE_MOD) (hE : E2 → E) :
    BlockInv E2 N2 ls lw c := by
  obtain ⟨h0, h1, h2, h3, h4, h5, h6, h7, h8, h9, h10, h11, h12⟩ := hI
  exact ⟨hN2, h1, by omega, by omega, h4, h5, fun e => h6 (hE e), h7, h8, h9, h10, h11, h12⟩

theorem BlockInv.newObj (E : Prop) {N : Nat} (hN : N + 1 < SIZE_MOD) :
    BlockInv E (N + 1) 1 0 ControlBlock.newObj := by
  unfold SIZE_MOD at *
  refine ⟨hN, ?_, ?_, ?_, ?_, ?_, ?_, ?_, ?_, ?_, ?_, ?_, ?_⟩ <;>
    simp [ControlBlock.newObj, SIZE_MOD]

theorem BlockInv.newPtr (E : Prop) {N : Nat} (hN : N + 1 < SIZE_MOD) (p : Addr) :
    BlockInv E (N + 1) 1 0 (ControlBlock.newPtr p) := by
  unfold SIZE_MOD at *
  refine ⟨hN, ?_, ?_, ?_, ?_, ?_, ?_, ?_, ?_, ?_, ?_, ?_, ?_⟩ <;>
    simp [ControlBlock.newPtr, SIZE_MOD]

theorem ControlBlock.DestroyStep.refl (c : ControlBlock) : c.DestroyStep c := by
  unfold ControlBlock.DestroyStep
  have : ¬ (c.shared_counter = 1 ∧ c.shared_counter = 0 ∧ c.hasObject) := by
    rintro ⟨h1, h0, _⟩; omega
  simp [this]

theorem BlockInv.incShared {E : Prop} {N ls lw : Nat} {c : ControlBlock}
    (hI : BlockInv E N ls lw c) (hN : N + 1 < SIZE_MOD) (hs : 1 ≤ c.shared_counter) :
    BlockInv E (N + 1) (ls + 1) lw c.IncSharedCnt ∧ c.DestroyStep c.IncSharedCnt := by
  obtain ⟨h0, h1, h2, h3, h4, h5, h6, h7, h8, h9, h10, h11, h12⟩ := hI
  have hinc : incSize c.shared_counter = c.shared_counter + 1 := by
    unfold incSize; simp only [SIZE_MOD] at *; omega
  refine ⟨⟨hN, ?_, ?_, ?_, ?_, ?_, ?_, ?_, ?_, ?_, ?_, ?_, ?_⟩, ?_⟩
  all_goals try simp only [ControlBlock.IncSharedCnt, ControlBlock.DestroyStep, hinc]
  all_goals try simp only [SIZE_MOD] at *
  · omega
  · omega
  · omega
  · exact h4
  · omega
  · intro e; have := h6 e; omega
  · exact h7
  · intro hd; have := h8 hd; omega
  · exact h9
  · intro _ hz; omega
  · exact h11
  · constructor
    · intro hf; have := h12.1 hf; omega
    · intro hz; omega
  · have : ¬ (c.shared_counter = 1 ∧ c.shared_counter + 1 = 0 ∧ c.hasObject) := by
      rintro ⟨_, h, _⟩; omega
    simp [this]

/-! ### The fields of a block after `DecSharedCnt` and after `WeakPtr::Reset` -/

theorem ControlBlock.kind_cases (c : ControlBlock) : c.kind = .Obj ∨ c.kind = .Ptr := by
  cases c.kind <;> simp

theorem ControlBlock.DecSharedCnt_kind (c : ControlBlock) :
    c.DecSharedCnt.kind = c.kind := by
  unfold ControlBlock.DecSharedCnt ControlBlock.deleteThis ControlBlock.dtor
    ControlBlock.deletePtr
  rcases c.kind_cases with hk | hk <;> simp only [hk] <;> split_ifs <;> simp_all

theorem ControlBlock.DecSharedCnt_shared (c : ControlBlock) :
    c.DecSharedCnt.shared_counter = decSize c.shared_counter := by
  unfold ControlBlock.DecSharedCnt ControlBlock.deleteThis ControlBlock.dtor
    ControlBlock.deletePtr
  rcases c.kind_cases with hk | hk <;> simp only [hk] <;> split_ifs <;> simp_all

theorem ControlBlock.DecSharedCnt_weak (c : ControlBlock) :
    c.DecSharedCnt.weak_counter = c.weak_counter := by
  unfold ControlBlock.DecSharedCnt ControlBlock.deleteThis ControlBlock.dtor
    ControlBlock.deletePtr
  rcases c.kind_cases with hk | hk <;> simp only [hk] <;> split_ifs <;> simp_all

theorem ControlBlock.DecSharedCnt_destroyed (c : ControlBlock) :
    c.DecSharedCnt.destroyed =
      c.destroyed + (if decSize c.shared_counter = 0 ∧ c.hasObject then 1 else 0) := by
  unfold ControlBlock.DecSharedCnt ControlBlock.deleteThis ControlBlock.dtor
    ControlBlock.deletePtr ControlBlock.hasObject
  rcases c.kind_cases with hk | hk <;> simp only [hk] <;> split_ifs <;> simp_all

theorem ControlBlock.DecSharedCnt_freed (c : ControlBlock) :
    c.DecSharedCnt.freed =
      c.freed + (if decSize c.shared_counter = 0 ∧ c.weak_counter = 0 then 1 else 0) := by
  unfold ControlBlock.DecSharedCnt ControlBlock.deleteThis ControlBlock.dtor
    ControlBlock.deletePtr
  rcases c.kind_cases with hk | hk <;> simp only [hk] <;> split_ifs <;> simp_all

theorem ControlBlock.DecSharedCnt_ptr (c : ControlBlock) :
    c.DecSharedCnt.ptr =
      if decSize c.shared_counter = 0 ∧ c.kind = .Ptr then .null else c.ptr := by
  unfold ControlBlock.DecSharedCnt ControlBlock.deleteThis ControlBlock.dtor
    ControlBlock.deletePtr
  rcases c.kind_cases with hk | hk <;> simp only [hk] <;> split_ifs <;> simp_all

theorem ControlBlock.weakRelease_kind (c : ControlBlock) :
    c.weakRelease.kind = c.kind := by
  unfold ControlBlock.weakRelease ControlBlock.deleteThis ControlBlock.dtor
    ControlBlock.deletePtr ControlBlock.DecWeakCnt
  rcases c.kind_cases with hk | hk <;> simp only [hk] <;> split_ifs <;> simp_all

theorem ControlBlock.weakRelease_shared (c : ControlBlock) :
    c.weakRelease.shared_counter = c.shared_counter := by
  unfold ControlBlock.weakRelease ControlBlock.deleteThis ControlBlock.dtor
    ControlBlock.deletePtr ControlBlock.DecWeakCnt
  rcases c.kind_cases with hk | hk <;> simp only [hk] <;> split_ifs <;> simp_all

theorem ControlBlock.weakRelease_weak (c : ControlBlock) :
    c.weakRelease.weak_counter = decSize c.weak_counter := by
  unfold ControlBlock.weakRelease ControlBlock.deleteThis ControlBlock.dtor
    ControlBlock.deletePtr ControlBlock.DecWeakCnt
  rcases c.kind_cases with hk | hk <;> simp only [hk] <;> split_ifs <;> simp_all

theorem ControlBlock.weakRelease_destroyed (c : ControlBlock) :
    c.weakRelease.destroyed =
      c.destroyed +
        (if c.shared_counter = 0 ∧ decSize c.weak_counter = 0 ∧ c.kind = .Ptr ∧ c.ptr ≠ .null
          then 1 else 0) := by
  unfold ControlBlock.weakRelease ControlBlock.deleteThis ControlBlock.dtor
    ControlBlock.deletePtr ControlBlock.DecWeakCnt
  rcases c.kind_cases with hk | hk <;> simp only [hk] <;> split_ifs <;> simp_all

theorem ControlBlock.weakRelease_freed (c : ControlBlock) :
    c.weakRelease.freed =
      c.freed + (if c.shared_counter = 0 ∧ decSize c.weak_counter = 0 then 1 else 0) := by
  unfold ControlBlock.weakRelease ControlBlock.deleteThis ControlBlock.dtor
    ControlBlock.deletePtr ControlBlock.DecWeakCnt
  rcases c.kind_cases with hk | hk <;> simp only [hk] <;> split_ifs <;> simp_all

theorem ControlBlock.weakRelease_ptr (c : ControlBlock) :
    c.weakRelease.ptr =
      if c.shared_counter = 0 ∧ decSize c.weak_counter = 0 ∧ c.kind = .Ptr then .null
      else c.ptr := by
  unfold ControlBlock.weakRelease ControlBlock.deleteThis ControlBlock.dtor
    ControlBlock.deletePtr ControlBlock.DecWeakCnt
  rcases c.kind_cases with hk | hk <;> simp only [hk] <;> split_ifs <;> simp_all

theorem BlockInv.decShared {E : Prop} {N ls lw : Nat} {c : ControlBlock}
    (hI : BlockInv E N ls lw c) (hls : 1 ≤ ls) :
    BlockInv E N (ls - 1) lw c.DecSharedCnt ∧ c.DestroyStep c.DecSharedCnt := by
  obtain ⟨h0, h1, h2, h3, h4, h5, h6, h7, h8, h9, h10, h11, h12⟩ := hI
  have hdec : decSize c.shared_counter = c.shared_counter - 1 := by
    unfold decSize; simp only [SIZE_MOD] at *; omega
  have hlw : c.shared_counter = 1 → c.weak_counter = 0 → lw = 0 := by
    intro a b; simp only [SIZE_MOD] at *; omega
  have hfr : c.freed = 0 := by
    have : c.freed ≠ 1 := fun hf => by have := h12.1 hf; omega
    omega
  have hde : c.shared_counter = 1 → c.destroyed = 0 := by
    intro a
    rcases Nat.eq_zero_or_pos c.destroyed with hz | hp
    · exact hz
    · have := h8 hp; omega
  have hz : c.shared_counter - 1 = 0 ↔ c.shared_counter = 1 := by omega
  refine ⟨⟨h0, ?_, ?_, h3, ?_, ?_, ?_, ?_, ?_, ?_, ?_, ?_, ?_⟩, ?_⟩
  all_goals
    try simp only [ControlBlock.DecSharedCnt_kind, ControlBlock.DecSharedCnt_shared,
      ControlBlock.DecSharedCnt_weak, ControlBlock.DecSharedCnt_destroyed,
      ControlBlock.DecSharedCnt_freed, ControlBlock.DecSharedCnt_ptr,
      ControlBlock.DestroyStep, hdec, hz]
  · omega
  · omega
  · exact h4
  · simp only [SIZE_MOD] at *; omega
  · intro e; have := h6 e; omega
  · split_ifs with hc
    · have := hde hc.1; omega
    · omega
  · intro hd
    by_cases hs1 : c.shared_counter = 1
    · left; omega
    · right
      have hd2 : 1 ≤ c.destroyed := by
        split_ifs at hd with hc
        · exact absurd hc.1 hs1
        · omega
      have := h8 hd2; omega
  · intro hk hp
    by_cases hs1 : c.shared_counter = 1
    · simp [hs1, hk] at hp
    · have hp2 : c.ptr ≠ .null := by simpa [hs1] using hp
      simp [hs1, h9 hk hp2]
  · intro hk hs
    simp [hs, hk]
  · split_ifs <;> omega
  · constructor
    · intro hf
      split_ifs at hf with hc
      · exact hc
      · omega
    · intro hc
      rw [if_pos hc]; omega
  · by_cases hs1 : c.shared_counter = 1 <;> simp [hs1]

theorem BlockInv.weakRelease {E : Prop} {N ls lw : Nat} {c : ControlBlock}
    (hI : BlockInv E N ls lw c) (hlw : 1 ≤ lw) :
    BlockInv E N ls (lw - 1) c.weakRelease ∧ c.DestroyStep c.weakRelease := by
  obtain ⟨h0, h1, h2, h3, h4, h5, h6, h7, h8, h9, h10, h11, h12⟩ := hI
  have hfr : c.freed = 0 := by
    have : c.freed ≠ 1 := fun hf => by
      have := h12.1 hf; simp only [SIZE_MOD] at *; omega
    omega
  have hwz : c.shared_counter = 0 → c.weak_counter = lw := by
    intro a; simp only [SIZE_MOD] at *; omega
  have hdz : c.shared_counter = 0 → decSize c.weak_counter = lw - 1 := by
    intro a; have := hwz a; unfold decSize; simp only [SIZE_MOD] at *; omega
  have hnd : ¬ (c.shared_counter = 0 ∧ decSize c.weak_counter = 0 ∧ c.kind = .Ptr ∧
      c.ptr ≠ .null) := by
    rintro ⟨a, _, k, p⟩; exact p (h10 k a)
  have hlt : decSize c.weak_counter < SIZE_MOD := by
    unfold decSize; simp only [SIZE_MOD]; omega
  refine ⟨⟨h0, ?_, ?_, ?_, ?_, ?_, ?_, ?_, ?_, ?_, ?_, ?_, ?_⟩, ?_⟩
  all_goals
    try simp only [ControlBlock.weakRelease_kind, ControlBlock.weakRelease_shared,
      ControlBlock.weakRelease_weak, ControlBlock.weakRelease_destroyed,
      ControlBlock.weakRelease_freed, ControlBlock.weakRelease_ptr,
      ControlBlock.DestroyStep, if_neg hnd]
  · exact h1
  · exact h2
  · omega
  · exact hlt
  · unfold decSize; simp only [SIZE_MOD] at *; omega
  · exact h6
  · exact h7
  · exact h8
  · intro hk hp
    have hp2 : c.ptr ≠ .null := by
      intro hq; apply hp; split_ifs <;> simp [hq]
    exact h9 hk hp2
  · intro hk hs
    simp [h10 hk hs]
  · split_ifs <;> omega
  · constructor
    · intro hf
      split_ifs at hf with hc
      · exact hc
      · omega
    · intro hc
      rw [if_pos hc]; omega
  · have : ¬ (c.shared_counter = 1 ∧ c.shared_counter = 0 ∧ c.hasObject) := by
      rintro ⟨a, b, _⟩; omega
    simp [this]

theorem BlockInv.incSharedForWeak {E : Prop} {N ls lw : Nat} {c : ControlBlock}
    (hI : BlockInv E N ls lw c) (hN : N + 1 < SIZE_MOD) (hlw : 1 ≤ lw) :
    BlockInv False (N + 1) ls (lw + 1) c.IncSharedCnt ∧ c.DestroyStep c.IncSharedCnt := by
  obtain ⟨h0, h1, h2, h3, h4, h5, h6, h7, h8, h9, h10, h11, h12⟩ := hI
  have hinc : incSize c.shared_counter = c.shared_counter + 1 := by
    unfold incSize; simp only [SIZE_MOD] at *; omega
  have hfr : c.freed ≠ 1 := fun hf => by
    have := h12.1 hf; simp only [SIZE_MOD] at *; omega
  refine ⟨⟨hN, ?_, ?_, ?_, ?_, ?_, ?_, ?_, ?_, ?_, ?_, ?_, ?_⟩, ?_⟩
  all_goals try simp only [ControlBlock.IncSharedCnt, ControlBlock.DestroyStep, hinc]
  · omega
  · omega
  · omega
  · exact h4
  · simp only [SIZE_MOD] at *; omega
  · intro e; exact e.elim
  · exact h7
  · intro _; right; omega
  · exact h9
  · intro _ hz; omega
  · exact h11
  · constructor
    · intro hf; exact absurd hf hfr
    · intro hz; omega
  · have : ¬ (c.shared_counter = 1 ∧ c.shared_counter + 1 = 0 ∧ c.hasObject) := by
      rintro ⟨_, h, _⟩; omega
    simp [this]

theorem BlockInv.incWeak {E : Prop} {N ls lw : Nat} {c : ControlBlock}
    (hI : BlockInv E N ls lw c) (hN : N + 1 < SIZE_MOD) (hl : 1 ≤ ls ∨ 1 ≤ lw) :
    BlockInv E (N + 1) ls (lw + 1) c.IncWeakCnt ∧ c.DestroyStep c.IncWeakCnt := by
  obtain ⟨h0, h1, h2, h3, h4, h5, h6, h7, h8, h9, h10, h11, h12⟩ := hI
  have hfr : c.freed ≠ 1 := fun hf => by
    have := h12.1 hf; simp only [SIZE_MOD] at *; omega
  have hlt : incSize c.weak_counter < SIZE_MOD := by
    unfold incSize; simp only [SIZE_MOD]; omega
  have hwz : c.shared_counter = 0 → incSize c.weak_counter ≠ 0 := by
    intro a; unfold incSize; simp only [SIZE_MOD] at *; omega
  refine ⟨⟨hN, ?_, ?_, ?_, ?_, ?_, ?_, ?_, ?_, ?_, ?_, ?_, ?_⟩, ?_⟩
  all_goals try simp only [ControlBlock.IncWeakCnt, ControlBlock.DestroyStep]
  · exact h1
  · omega
  · omega
  · exact hlt
  · unfold incSize; simp only [SIZE_MOD] at *; omega
  · exact h6
  · exact h7
  · exact h8
  · exact h9
  · exact h10
  · exact h11
  · constructor
    · intro hf; exact absurd hf hfr
    · rintro ⟨a, b⟩; exact absurd b (hwz a)
  · have : ¬ (c.shared_counter = 1 ∧ c.shared_counter = 0 ∧ c.hasObject) := by
      rintro ⟨a, b, _⟩; omega
    simp [this]

/-! ### Counting references in a list of pointer objects -/

theorem countP_set_refers {α : Type} (f : α → Option Nat) (x : Nat) :
    ∀ (l : List α) (i : Nat) (old new : α), l[i]? = some old →
      (l.set i new).countP (fun p => decide (f p = some x)) + refersTo (f old) x =
        l.countP (fun p => decide (f p = some x)) + refersTo (f new) x := by
  intro l
  induction l with
  | nil => intro i old new h; simp at h
  | cons a t ih =>
    intro i old new h
    cases i with
    | zero =>
      simp only [List.getElem?_cons_zero, Option.some.injEq] at h
      subst h
      simp only [List.set_cons_zero, List.countP_cons, refersTo, decide_eq_true_eq]
      omega
    | succ n =>
      simp only [List.getElem?_cons_succ] at h
      have := ih n old new h
      simp only [List.set_cons_succ, List.countP_cons]
      omega

theorem countP_eraseIdx_refers {α : Type} (f : α → Option Nat) (x : Nat) :
    ∀ (l : List α) (i : Nat) (old : α), l[i]? = some old →
      (l.eraseIdx i).countP (fun p => decide (f p = some x)) + refersTo (f old) x =
        l.countP (fun p => decide (f p = some x)) := by
  intro l
  induction l with
  | nil => intro i old h; simp at h
  | cons a t ih =>
    intro i old h
    cases i with
    | zero =>
      simp only [List.getElem?_cons_zero, Option.some.injEq] at h
      subst h
      simp only [List.eraseIdx_cons_zero, List.countP_cons, refersTo, decide_eq_true_eq]
    | succ n =>
      simp only [List.getElem?_cons_succ] at h
      have := ih n old h
      simp only [List.eraseIdx_cons_succ, List.countP_cons]
      omega

theorem countP_push_refers {α : Type} (f : α → Option Nat) (x : Nat) (l : List α) (new : α) :
    (l ++ [new]).countP (fun p => decide (f p = some x)) =
      l.countP (fun p => decide (f p = some x)) + refersTo (f new) x := by
  simp [List.countP_append, List.countP_cons, refersTo]

theorem countP_pos_of_getElem {α : Type} (f : α → Option Nat) (x : Nat)
    (l : List α) (i : Nat) (p : α) (h : l[i]? = some p) (hp : f p = some x) :
    1 ≤ l.countP (fun p => decide (f p = some x)) := by
  obtain ⟨hi, he⟩ := List.getElem?_eq_some.1 h
  have hm : p ∈ l := he ▸ List.getElem_mem hi
  exact List.countP_pos_iff.2 ⟨p, hm, by simpa using hp⟩

theorem countP_le_length_refers {α : Type} (f : α → Option Nat) (x : Nat) (l : List α) :
    l.countP (fun p => decide (f p = some x)) ≤ l.length :=
  List.countP_le_length _

/-! ### The heap invariant under the counter operations -/

theorem Heap.call_getElem?_ne (h : Heap) (b x : Nat) (f : ControlBlock → ControlBlock)
    (hx : x ≠ b) : (h.call b f)[x]? = h[x]? := by
  unfold Heap.call
  cases hc : h[b]? with
  | none => rfl
  | some c => simp [List.getElem?_set, Ne.symm hx]

theorem Heap.call_length (h : Heap) (b : Nat) (f : ControlBlock → ControlBlock) :
    (h.call b f).length = h.length := by
  unfold Heap.call
  cases hc : h[b]? <;> simp

theorem Heap.DestroyStep.heap_refl (h : Heap) : Heap.DestroyStep h h := by
  refine ⟨fun _ c hc => ⟨c, hc, ControlBlock.DestroyStep.refl c⟩, ?_⟩
  intro b d hb hd
  have := (List.getElem?_eq_some.1 hd).1
  omega

theorem Heap.DestroyStep.set {h : Heap} {b : Nat} {c d : ControlBlock}
    (hc : h[b]? = some c) (hd : c.DestroyStep d) : Heap.DestroyStep h (h.set b d) := by
  have hlt : b < h.length := (List.getElem?_eq_some.1 hc).1
  constructor
  · intro x cx hx
    by_cases hxb : x = b
    · subst hxb
      rw [hc] at hx
      cases hx
      exact ⟨d, by simp [List.getElem?_set, hlt], hd⟩
    · exact ⟨cx, by simp [List.getElem?_set, Ne.symm hxb, hx],
        ControlBlock.DestroyStep.refl cx⟩
  · intro x e hx he
    have := (List.getElem?_eq_some.1 he).1
    simp only [List.length_set] at this
    omega

theorem Heap.DestroyStep.push (h : Heap) (d : ControlBlock)
    (hd : d.destroyed = 0 ∧ d.freed = 0) :
    Heap.DestroyStep h (h ++ [d]) := by
  constructor
  · intro x cx hx
    have hlt : x < h.length := (List.getElem?_eq_some.1 hx).1
    exact ⟨cx, by rw [List.getElem?_append_left hlt]; exact hx,
      ControlBlock.DestroyStep.refl cx⟩
  · intro x e hx he
    have hl := (List.getElem?_eq_some.1 he).1
    simp only [List.length_append, List.length_singleton] at hl
    have hxe : x = h.length := by omega
    subst hxe
    simp at he
    subst he
    exact hd

/-- Two consecutive steps that do not change the same block compose. -/
theorem Heap.DestroyStep.comp {h h1 h2 : Heap} (s1 : Heap.DestroyStep h h1)
    (s2 : Heap.DestroyStep h1 h2)
    (hd : ∀ x : Nat, h1[x]? = h[x]? ∨ h2[x]? = h1[x]?) :
    Heap.DestroyStep h h2 := by
  constructor
  · intro x c hc
    rcases hd x with e | e
    · exact s2.1 x c (by rw [e]; exact hc)
    · obtain ⟨d, hd1, hcd⟩ := s1.1 x c hc
      exact ⟨d, by rw [e]; exact hd1, hcd⟩
  · intro x d hx he
    rcases hd x with e | e
    · have h1 : h1[x]? = none := by rw [e]; exact List.getElem?_eq_none hx
      exact s2.2 x d (List.getElem?_eq_none_iff.1 h1) he
    · exact s1.2 x d hx (by rw [← e]; exact he)

theorem HeapInv.heap_mono {E E2 : Prop} {N N2 : Nat} {h : Heap} {ls lw : Nat → Nat}
    (hI : HeapInv E N h ls lw) (hN : N ≤ N2) (hN2 : N2 < SIZE_MOD) (hE : E2 → E) :
    HeapInv E2 N2 h ls lw :=
  ⟨hN2, fun b c hc => (hI.block b c hc).mono hN hN2 hE, hI.fresh⟩

theorem HeapInv.congr {E : Prop} {N : Nat} {h : Heap} {ls lw ls2 lw2 : Nat → Nat}
    (hI : HeapInv E N h ls lw) (hls : ∀ x, ls2 x = ls x) (hlw : ∀ x, lw2 x = lw x) :
    HeapInv E N h ls2 lw2 := by
  have e1 : ls2 = ls := funext hls
  have e2 : lw2 = lw := funext hlw
  rw [e1, e2]; exact hI

theorem HeapInv.update {E E2 : Prop} {N N2 : Nat} {h : Heap} {ls lw ls2 lw2 : Nat → Nat}
    {b : Nat} {c d : ControlBlock}
    (hI : HeapInv E N h ls lw) (hc : h[b]? = some c) (hN : N ≤ N2) (hN2 : N2 < SIZE_MOD)
    (hE : E2 → E) (hd : BlockInv E2 N2 (ls2 b) (lw2 b) d)
    (hls : ∀ x, x ≠ b → ls2 x = ls x) (hlw : ∀ x, x ≠ b → lw2 x = lw x) :
    HeapInv E2 N2 (h.set b d) ls2 lw2 := by
  have hlt : b < h.length := (List.getElem?_eq_some.1 hc).1
  refine ⟨hN2, ?_, ?_⟩
  · intro x cx hx
    by_cases hxb : x = b
    · subst hxb
      simp [List.getElem?_set, hlt] at hx
      subst hx
      exact hd
    · simp [List.getElem?_set, Ne.symm hxb] at hx
      rw [hls x hxb, hlw x hxb]
      exact (hI.block x cx hx).mono hN hN2 hE
  · intro x hx
    simp only [List.length_set] at hx
    have hxb : x ≠ b := by omega
    rw [hls x hxb, hlw x hxb]
    exact hI.fresh x hx

/-- A referenced block is in the heap. -/
theorem HeapInv.exists_block {E : Prop} {N : Nat} {h : Heap} {ls lw : Nat → Nat}
    (hI : HeapInv E N h ls lw) {b : Nat} (hb : 1 ≤ ls b ∨ 1 ≤ lw b) :
    ∃ c, h[b]? = some c := by
  by_cases hlt : b < h.length
  · exact ⟨h[b], List.getElem?_eq_getElem hlt⟩
  · have := hI.fresh b (by omega)
    omega

theorem refersTo_self (b : Nat) : refersTo (some b) b = 1 := by simp [refersTo]

theorem refersTo_ne {b x : Nat} (h : x ≠ b) : refersTo (some b) x = 0 := by
  simp [refersTo, Ne.symm h]

theorem refersTo_none (x : Nat) : refersTo none x = 0 := by simp [refersTo]

/-- The effect of `SharedPtr::Reset` of a pointer that holds block `b`. -/
theorem HeapInv.release {E : Prop} {N : Nat} {h : Heap} {ls lw ls2 : Nat → Nat} {b : Nat}
    (hI : HeapInv E N h ls lw) (hb : 1 ≤ ls b)
    (hls : ∀ x, ls2 x + refersTo (some b) x = ls x) :
    HeapInv E N (h.call b ControlBlock.DecSharedCnt) ls2 lw ∧
      Heap.DestroyStep h (h.call b ControlBlock.DecSharedCnt) := by
  obtain ⟨c, hc⟩ := hI.exists_block (Or.inl hb)
  rw [Heap.call_of_some _ hc]
  have hB := (hI.block b c hc).decShared hb
  have e : ls2 b = ls b - 1 := by have := hls b; rw [refersTo_self] at this; omega
  refine ⟨hI.update hc (Nat.le_refl N) hI.bound id (by rw [e]; exact hB.1) ?_ (fun _ _ => rfl),
    Heap.DestroyStep.set hc hB.2⟩
  intro x hx
  have := hls x; rw [refersTo_ne hx] at this; omega

/-- The effect of a new `SharedPtr` on block `b`, whose strong counter is not
zero. -/
theorem HeapInv.acquire {E : Prop} {N : Nat} {h : Heap} {ls lw ls2 : Nat → Nat} {b : Nat}
    {c : ControlBlock}
    (hI : HeapInv E N h ls lw) (hN : N + 1 < SIZE_MOD) (hc : h[b]? = some c)
    (hs : 1 ≤ c.shared_counter) (hls : ∀ x, ls2 x = ls x + refersTo (some b) x) :
    HeapInv E (N + 1) (h.call b ControlBlock.IncSharedCnt) ls2 lw ∧
      Heap.DestroyStep h (h.call b ControlBlock.IncSharedCnt) := by
  rw [Heap.call_of_some _ hc]
  have hB := (hI.block b c hc).incShared hN hs
  have e : ls2 b = ls b + 1 := by have := hls b; rw [refersTo_self] at this; omega
  refine ⟨hI.update hc (Nat.le_succ N) hN id (by rw [e]; exact hB.1) ?_ (fun _ _ => rfl),
    Heap.DestroyStep.set hc hB.2⟩
  intro x hx
  have := hls x; rw [refersTo_ne hx] at this; omega

/-- The effect of `WeakPtr::Reset` of a pointer that holds block `b`. -/
theorem HeapInv.releaseWeak {E : Prop} {N : Nat} {h : Heap} {ls lw lw2 : Nat → Nat} {b : Nat}
    {c : ControlBlock}
    (hI : HeapInv E N h ls lw) (hc : h[b]? = some c) (hb : 1 ≤ lw b)
    (hlw : ∀ x, lw2 x + refersTo (some b) x = lw x) :
    HeapInv E N (h.set b c.weakRelease) ls lw2 ∧
      Heap.DestroyStep h (h.set b c.weakRelease) := by
  have hB := (hI.block b c hc).weakRelease hb
  have e : lw2 b = lw b - 1 := by have := hlw b; rw [refersTo_self] at this; omega
  refine ⟨hI.update hc (Nat.le_refl N) hI.bound id (by rw [e]; exact hB.1) (fun _ _ => rfl) ?_,
    Heap.DestroyStep.set hc hB.2⟩
  intro x hx
  have := hlw x; rw [refersTo_ne hx] at this; omega

/-- The effect of a new `WeakPtr` on a referenced block `b`. -/
theorem HeapInv.acquireWeak {E : Prop} {N : Nat} {h : Heap} {ls lw lw2 : Nat → Nat} {b : Nat}
    (hI : HeapInv E N h ls lw) (hN : N + 1 < SIZE_MOD) (hb : 1 ≤ ls b ∨ 1 ≤ lw b)
    (hlw : ∀ x, lw2 x = lw x + refersTo (some b) x) :
    HeapInv E (N + 1) (h.call b ControlBlock.IncWeakCnt) ls lw2 ∧
      Heap.DestroyStep h (h.call b ControlBlock.IncWeakCnt) := by
  obtain ⟨c, hc⟩ := hI.exists_block hb
  rw [Heap.call_of_some _ hc]
  have hB := (hI.block b c hc).incWeak hN hb
  have e : lw2 b = lw b + 1 := by have := hlw b; rw [refersTo_self] at this; omega
  refine ⟨hI.update hc (Nat.le_succ N) hN id (by rw [e]; exact hB.1) (fun _ _ => rfl) ?_,
    Heap.DestroyStep.set hc hB.2⟩
  intro x hx
  have := hlw x; rw [refersTo_ne hx] at this; omega

/-- The effect of the weak copy assignment on the block `b` of its argument:
one more `WeakPtr` on `b`, counted in the strong counter. -/
theorem HeapInv.acquireWeakMiscounted {E : Prop} {N : Nat} {h : Heap} {ls lw lw2 : Nat → Nat}
    {b : Nat}
    (hI : HeapInv E N h ls lw) (hN : N + 1 < SIZE_MOD) (hb : 1 ≤ lw b)
    (hlw : ∀ x, lw2 x = lw x + refersTo (some b) x) :
    HeapInv False (N + 1) (h.call b ControlBlock.IncSharedCnt) ls lw2 ∧
      Heap.DestroyStep h (h.call b ControlBlock.IncSharedCnt) := by
  obtain ⟨c, hc⟩ := hI.exists_block (Or.inr hb)
  rw [Heap.call_of_some _ hc]
  have hB := (hI.block b c hc).incSharedForWeak hN hb
  have e : lw2 b = lw b + 1 := by have := hlw b; rw [refersTo_self] at this; omega
  refine ⟨hI.update hc (Nat.le_succ N) hN False.elim (by rw [e]; exact hB.1)
    (fun _ _ => rfl) ?_, Heap.DestroyStep.set hc hB.2⟩
  intro x hx
  have := hlw x; rw [refersTo_ne hx] at this; omega

/-- The effect of `new ControlBlock...` together with the first pointer. -/
theorem HeapInv.alloc {E : Prop} {N : Nat} {h : Heap} {ls lw ls2 : Nat → Nat}
    {d : ControlBlock}
    (hI : HeapInv E N h ls lw) (hN : N + 1 < SIZE_MOD) (hd : BlockInv E (N + 1) 1 0 d)
    (hz : d.destroyed = 0 ∧ d.freed = 0)
    (hls : ∀ x, ls2 x = ls x + refersTo (some h.length) x) :
    HeapInv E (N + 1) (h ++ [d]) ls2 lw ∧ Heap.DestroyStep h (h ++ [d]) := by
  refine ⟨⟨hN, ?_, ?_⟩, Heap.DestroyStep.push h d hz⟩
  · intro x cx hx
    by_cases hlt : x < h.length
    · rw [List.getElem?_append_left hlt] at hx
      have := hls x; rw [refersTo_ne (by omega)] at this
      rw [this]
      exact (hI.block x cx hx).mono (Nat.le_succ N) hN id
    · have hxe : x = h.length := by
        have := (List.getElem?_eq_some.1 hx).1
        simp at this; omega
      subst hxe
      simp at hx
      subst hx
      have h0 := hI.fresh h.length (Nat.le_refl _)
      have := hls h.length; rw [refersTo_self] at this
      rw [this, h0.1, h0.2]
      exact hd
  · intro x hx
    simp at hx
    have h0 := hI.fresh x (by omega)
    have := hls x; rw [refersTo_ne (by omega)] at this
    rw [this]; exact h0

/-! ### Reference counts of the pointer lists -/

theorem SharedPtr.refCount_set {sp : List SharedPtr} {i : Nat} {old : SharedPtr}
    (h : sp[i]? = some old) (new : SharedPtr) (x : Nat) :
    SharedPtr.refCount (sp.set i new) x + refersTo old.block_ x =
      SharedPtr.refCount sp x + refersTo new.block_ x :=
  countP_set_refers SharedPtr.block_ x sp i old new h

theorem SharedPtr.refCount_eraseIdx {sp : List SharedPtr} {i : Nat} {old : SharedPtr}
    (h : sp[i]? = some old) (x : Nat) :
    SharedPtr.refCount (sp.eraseIdx i) x + refersTo old.block_ x = SharedPtr.refCount sp x :=
  countP_eraseIdx_refers SharedPtr.block_ x sp i old h

theorem SharedPtr.refCount_push (sp : List SharedPtr) (new : SharedPtr) (x : Nat) :
    SharedPtr.refCount (sp ++ [new]) x = SharedPtr.refCount sp x + refersTo new.block_ x :=
  countP_push_refers SharedPtr.block_ x sp new

theorem SharedPtr.refCount_pos {sp : List SharedPtr} {i : Nat} {p : SharedPtr} {b : Nat}
    (h : sp[i]? = some p) (hb : p.block_ = some b) : 1 ≤ SharedPtr.refCount sp b :=
  countP_pos_of_getElem SharedPtr.block_ b sp i p h hb

theorem WeakPtr.weakRefCount_set {wp : List WeakPtr} {i : Nat} {old : WeakPtr}
    (h : wp[i]? = some old) (new : WeakPtr) (x : Nat) :
    WeakPtr.refCount (wp.set i new) x + refersTo old.block_ x =
      WeakPtr.refCount wp x + refersTo new.block_ x :=
  countP_set_refers WeakPtr.block_ x wp i old new h

theorem WeakPtr.weakRefCount_eraseIdx {wp : List WeakPtr} {i : Nat} {old : WeakPtr}
    (h : wp[i]? = some old) (x : Nat) :
    WeakPtr.refCount (wp.eraseIdx i) x + refersTo old.block_ x = WeakPtr.refCount wp x :=
  countP_eraseIdx_refers WeakPtr.block_ x wp i old h

theorem WeakPtr.weakRefCount_push (wp : List WeakPtr) (new : WeakPtr) (x : Nat) :
    WeakPtr.refCount (wp ++ [new]) x = WeakPtr.refCount wp x + refersTo new.block_ x :=
  countP_push_refers WeakPtr.block_ x wp new

theorem WeakPtr.weakRefCount_pos {wp : List WeakPtr} {i : Nat} {p : WeakPtr} {b : Nat}
    (h : wp[i]? = some p) (hb : p.block_ = some b) : 1 ≤ WeakPtr.refCount wp b :=
  countP_pos_of_getElem WeakPtr.block_ b wp i p h hb

/-- Writing two objects back (the argument first, `*this` last) when the two
values are exchanged or kept keeps every reference count. -/
theorem SharedPtr.refCount_set_set {sp : List SharedPtr} {i j : Nat} {a b a2 b2 : SharedPtr}
    (hi : sp[i]? = some a) (hj : sp[j]? = some b) (x : Nat)
    (hne : i ≠ j → refersTo a2.block_ x + refersTo b2.block_ x =
      refersTo a.block_ x + refersTo b.block_ x)
    (heq : i = j → a = b → refersTo a2.block_ x = refersTo a.block_ x) :
    SharedPtr.refCount ((sp.set j b2).set i a2) x = SharedPtr.refCount sp x := by
  have h1 := SharedPtr.refCount_set hj b2 x
  have hlt : i < sp.length := (List.getElem?_eq_some.1 hi).1
  by_cases hij : i = j
  · subst hij
    have h2 : (sp.set i b2)[i]? = some b2 := by simp [List.getElem?_set, hlt]
    have h3 := SharedPtr.refCount_set h2 a2 x
    rw [hi] at hj; cases hj
    have := heq rfl rfl
    omega
  · have h2 : (sp.set j b2)[i]? = some a := by
      simp [List.getElem?_set, Ne.symm hij, hi]
    have h3 := SharedPtr.refCount_set h2 a2 x
    have := hne hij
    omega

theorem WeakPtr.weakRefCount_set_set {wp : List WeakPtr} {i j : Nat} {a b a2 b2 : WeakPtr}
    (hi : wp[i]? = some a) (hj : wp[j]? = some b) (x : Nat)
    (hne : i ≠ j → refersTo a2.block_ x + refersTo b2.block_ x =
      refersTo a.block_ x + refersTo b.block_ x)
    (heq : i = j → a = b → refersTo a2.block_ x = refersTo a.block_ x) :
    WeakPtr.refCount ((wp.set j b2).set i a2) x = WeakPtr.refCount wp x := by
  have h1 := WeakPtr.weakRefCount_set hj b2 x
  have hlt : i < wp.length := (List.getElem?_eq_some.1 hi).1
  by_cases hij : i = j
  · subst hij
    have h2 : (wp.set i b2)[i]? = some b2 := by simp [List.getElem?_set, hlt]
    have h3 := WeakPtr.weakRefCount_set h2 a2 x
    rw [hi] at hj; cases hj
    have := heq rfl rfl
    omega
  · have h2 : (wp.set j b2)[i]? = some a := by
      simp [List.getElem?_set, Ne.symm hij, hi]
    have h3 := WeakPtr.weakRefCount_set h2 a2 x
    have := hne hij
    omega

/-! ### The state invariant under the building blocks of the operations -/

theorem State.good_of_counts {E : Prop} {N : Nat} {s : State} (hI : s.Inv E N)
    (sp2 : List SharedPtr) (wp2 : List WeakPtr)
    (hs : ∀ x, SharedPtr.refCount sp2 x = SharedPtr.refCount s.sp x)
    (hw : ∀ x, WeakPtr.refCount wp2 x = WeakPtr.refCount s.wp x) :
    State.Inv E N { heap := s.heap, sp := sp2, wp := wp2 } ∧
      Heap.DestroyStep s.heap s.heap :=
  ⟨HeapInv.congr hI hs hw, Heap.DestroyStep.heap_refl _⟩

theorem SharedPtr.Reset_heap_ne (h : Heap) (p : SharedPtr) (x : Nat)
    (hx : p.block_ ≠ some x) : (p.Reset h).1[x]? = h[x]? := by
  unfold SharedPtr.Reset
  cases hb : p.block_ with
  | none => rfl
  | some b =>
    have : x ≠ b := fun e => hx (by rw [hb, e])
    exact Heap.call_getElem?_ne h b x _ this

theorem State.good_release {E : Prop} {N : Nat} {s : State} (hI : s.Inv E N)
    (p : SharedPtr) (sp2 : List SharedPtr)
    (hs : ∀ x, SharedPtr.refCount sp2 x + refersTo p.block_ x = SharedPtr.refCount s.sp x) :
    State.Inv E N { heap := (p.Reset s.heap).1, sp := sp2, wp := s.wp } ∧
      Heap.DestroyStep s.heap (p.Reset s.heap).1 := by
  unfold SharedPtr.Reset
  cases hb : p.block_ with
  | none =>
    refine ⟨HeapInv.congr hI ?_ (fun _ => rfl), Heap.DestroyStep.heap_refl _⟩
    intro x; have := hs x; rw [hb, refersTo_none] at this; exact this
  | some b =>
    have h1 : 1 ≤ s.liveShared b := by
      have := hs b; rw [hb, refersTo_self] at this
      show 1 ≤ SharedPtr.refCount s.sp b
      omega
    exact HeapInv.release hI h1 (fun x => by have := hs x; rw [hb] at this; exact this)

/-- A live `SharedPtr` on block `b` shows that `b` is in the heap with a
strong counter that is not zero. -/
theorem State.Inv.block_of_shared {E : Prop} {N : Nat} {s : State} (hI : s.Inv E N)
    {j : Nat} {p : SharedPtr} {b : Nat} (hj : s.sp[j]? = some p) (hb : p.block_ = some b) :
    ∃ c, s.heap[b]? = some c ∧ 1 ≤ c.shared_counter := by
  have h1 : 1 ≤ s.liveShared b := SharedPtr.refCount_pos hj hb
  obtain ⟨c, hc⟩ := HeapInv.exists_block hI (Or.inl h1)
  have := (hI.block b c hc).shared_ge
  exact ⟨c, hc, by omega⟩

theorem State.good_acquire {E : Prop} {N : Nat} {s : State} (hI : s.Inv E N)
    (hN : N + 1 < SIZE_MOD) {b : Nat} {c : ControlBlock} (hc : s.heap[b]? = some c)
    (hsc : 1 ≤ c.shared_counter) (sp2 : List SharedPtr)
    (hs : ∀ x, SharedPtr.refCount sp2 x = SharedPtr.refCount s.sp x + refersTo (some b) x) :
    State.Inv E (N + 1)
        { heap := s.heap.call b ControlBlock.IncSharedCnt, sp := sp2, wp := s.wp } ∧
      Heap.DestroyStep s.heap (s.heap.call b ControlBlock.IncSharedCnt) :=
  HeapInv.acquire hI hN hc hsc hs

theorem State.good_alloc {E : Prop} {N : Nat} {s : State} (hI : s.Inv E N)
    (hN : N + 1 < SIZE_MOD) {d : ControlBlock} (hd : BlockInv E (N + 1) 1 0 d)
    (hz : d.destroyed = 0 ∧ d.freed = 0) (sp2 : List SharedPtr)
    (hs : ∀ x, SharedPtr.refCount sp2 x =
      SharedPtr.refCount s.sp x + refersTo (some s.heap.length) x) :
    State.Inv E (N + 1) { heap := s.heap ++ [d], sp := sp2, wp := s.wp } ∧
      Heap.DestroyStep s.heap (s.heap ++ [d]) :=
  HeapInv.alloc hI hN hd hz hs

theorem WeakPtr.Reset_heap {h : Heap} {w : WeakPtr} {b : Nat} {c : ControlBlock}
    (hb : w.block_ = some b) (hc : h[b]? = some c) :
    (w.Reset h).1 = h.set b c.weakRelease := by
  have hlt : b < h.length := (List.getElem?_eq_some.1 hc).1
  have h1 : (h.set b c.DecWeakCnt)[b]? = some c.DecWeakCnt := by
    simp [List.getElem?_set, hlt]
  unfold WeakPtr.Reset ControlBlock.weakRelease
  simp only [hb, Heap.call_of_some _ hc, Heap.GetSharedCnt_of_some h1,
    Heap.GetWeakCnt_of_some h1]
  split_ifs
  · rfl
  · rw [Heap.call_of_some _ h1, List.set_set]

theorem WeakPtr.weakReset_heap_ne (h : Heap) (w : WeakPtr) (x : Nat)
    (hx : w.block_ ≠ some x) : (w.Reset h).1[x]? = h[x]? := by
  unfold WeakPtr.Reset
  cases hb : w.block_ with
  | none => rfl
  | some b =>
    have hxb : x ≠ b := fun e => hx (by rw [hb, e])
    simp only
    split_ifs
    · rw [Heap.call_getElem?_ne _ b x _ hxb]
    · rw [Heap.call_getElem?_ne _ b x _ hxb, Heap.call_getElem?_ne _ b x _ hxb]

theorem State.good_releaseWeak {E : Prop} {N : Nat} {s : State} (hI : s.Inv E N)
    (w : WeakPtr) (wp2 : List WeakPtr)
    (hw : ∀ x, WeakPtr.refCount wp2 x + refersTo w.block_ x = WeakPtr.refCount s.wp x) :
    State.Inv E N { heap := (w.Reset s.heap).1, sp := s.sp, wp := wp2 } ∧
      Heap.DestroyStep s.heap (w.Reset s.heap).1 := by
  cases hb : w.block_ with
  | none =>
    have e : (w.Reset s.heap).1 = s.heap := by simp [WeakPtr.Reset, hb]
    rw [e]
    refine ⟨HeapInv.congr hI (fun _ => rfl) ?_, Heap.DestroyStep.heap_refl _⟩
    intro x; have := hw x; rw [hb, refersTo_none] at this; exact this
  | some b =>
    have h1 : 1 ≤ s.liveWeak b := by
      have := hw b; rw [hb, refersTo_self] at this
      show 1 ≤ WeakPtr.refCount s.wp b
      omega
    obtain ⟨c, hc⟩ := HeapInv.exists_block hI (Or.inr h1)
    rw [WeakPtr.Reset_heap hb hc]
    exact HeapInv.releaseWeak hI hc h1 (fun x => by have := hw x; rw [hb] at this; exact this)

theorem State.good_acquireWeak {E : Prop} {N : Nat} {s : State} (hI : s.Inv E N)
    (hN : N + 1 < SIZE_MOD) {b : Nat} (hb : 1 ≤ s.liveShared b ∨ 1 ≤ s.liveWeak b)
    (wp2 : List WeakPtr)
    (hw : ∀ x, WeakPtr.refCount wp2 x = WeakPtr.refCount s.wp x + refersTo (some b) x) :
    State.Inv E (N + 1)
        { heap := s.heap.call b ControlBlock.IncWeakCnt, sp := s.sp, wp := wp2 } ∧
      Heap.DestroyStep s.heap (s.heap.call b ControlBlock.IncWeakCnt) :=
  HeapInv.acquireWeak hI hN hb hw

theorem State.good_acquireWeakMiscounted {E : Prop} {N : Nat} {s : State} (hI : s.Inv E N)
    (hN : N + 1 < SIZE_MOD) {b : Nat} (hb : 1 ≤ s.liveWeak b) (wp2 : List WeakPtr)
    (hw : ∀ x, WeakPtr.refCount wp2 x = WeakPtr.refCount s.wp x + refersTo (some b) x) :
    State.Inv False (N + 1)
        { heap := s.heap.call b ControlBlock.IncSharedCnt, sp := s.sp, wp := wp2 } ∧
      Heap.DestroyStep s.heap (s.heap.call b ControlBlock.IncSharedCnt) :=
  HeapInv.acquireWeakMiscounted hI hN hb hw

/-! ### Every operation keeps the invariant -/

theorem State.good_refl {E : Prop} {N : Nat} {s : State} (hI : s.Inv E N)
    (hN : N + 1 < SIZE_MOD) :
    s.Inv E (N + 1) ∧ Heap.DestroyStep s.heap s.heap :=
  ⟨HeapInv.heap_mono hI (Nat.le_succ N) hN id, Heap.DestroyStep.heap_refl _⟩

theorem State.good_up {E : Prop} {N : Nat} {s2 : State} {h1 h2 : Heap}
    (h : s2.Inv E N ∧ Heap.DestroyStep h1 h2) (hN : N + 1 < SIZE_MOD) :
    s2.Inv E (N + 1) ∧ Heap.DestroyStep h1 h2 :=
  ⟨HeapInv.heap_mono h.1 (Nat.le_succ N) hN id, h.2⟩

theorem State.good_sDefault {E : Prop} {N : Nat} {s : State} (hI : s.Inv E N)
    (hN : N + 1 < SIZE_MOD) :
    (s.step .sDefault).Inv E (N + 1) ∧ Heap.DestroyStep s.heap (s.step .sDefault).heap := by
  refine State.good_up (State.good_of_counts hI (s.sp ++ [SharedPtr.empty]) s.wp ?_
    (fun _ => rfl)) hN
  intro x
  rw [SharedPtr.refCount_push]
  simp [SharedPtr.empty, refersTo]

theorem State.good_sFromRaw {E : Prop} {N : Nat} {s : State} (hI : s.Inv E N)
    (hN : N + 1 < SIZE_MOD) (ptr : Addr) :
    (s.step (.sFromRaw ptr)).Inv E (N + 1) ∧
      Heap.DestroyStep s.heap (s.step (.sFromRaw ptr)).heap :=
  State.good_alloc hI hN (BlockInv.newPtr E hN ptr) ⟨rfl, rfl⟩ _ (fun x => SharedPtr.refCount_push _ _ x)

theorem State.good_sMake {E : Prop} {N : Nat} {s : State} (hI : s.Inv E N)
    (hN : N + 1 < SIZE_MOD) :
    (s.step .sMake).Inv E (N + 1) ∧ Heap.DestroyStep s.heap (s.step .sMake).heap :=
  State.good_alloc hI hN (BlockInv.newObj E hN) ⟨rfl, rfl⟩ _ (fun x => SharedPtr.refCount_push _ _ x)

theorem State.good_sCopy {E : Prop} {N : Nat} {s : State} (hI : s.Inv E N)
    (hN : N + 1 < SIZE_MOD) (j : Nat) :
    (s.step (.sCopy j)).Inv E (N + 1) ∧
      Heap.DestroyStep s.heap (s.step (.sCopy j)).heap := by
  cases hj : s.sp[j]? with
  | none => simp only [State.step, hj]; exact State.good_refl hI hN
  | some other =>
    cases hb : other.block_ with
    | none =>
      simp only [State.step, hj, SharedPtr.copy, hb]
      refine State.good_up (State.good_of_counts hI _ s.wp ?_ (fun _ => rfl)) hN
      intro x
      rw [SharedPtr.refCount_push]
      simp [refersTo]
    | some b =>
      simp only [State.step, hj, SharedPtr.copy, hb]
      obtain ⟨c, hc, hs⟩ := hI.block_of_shared hj hb
      exact State.good_acquire hI hN hc hs _ (fun x => SharedPtr.refCount_push _ _ x)

theorem State.good_sAlias {E : Prop} {N : Nat} {s : State} (hI : s.Inv E N)
    (hN : N + 1 < SIZE_MOD) (j : Nat) (ptr : Addr) :
    (s.step (.sAlias j ptr)).Inv E (N + 1) ∧
      Heap.DestroyStep s.heap (s.step (.sAlias j ptr)).heap := by
  cases hj : s.sp[j]? with
  | none => simp only [State.step, hj]; exact State.good_refl hI hN
  | some other =>
    cases hb : other.block_ with
    | none =>
      simp only [State.step, hj, SharedPtr.aliasing, hb]
      refine State.good_up (State.good_of_counts hI _ s.wp ?_ (fun _ => rfl)) hN
      intro x
      rw [SharedPtr.refCount_push]
      simp [refersTo]
    | some b =>
      simp only [State.step, hj, SharedPtr.aliasing, hb]
      obtain ⟨c, hc, hs⟩ := hI.block_of_shared hj hb
      exact State.good_acquire hI hN hc hs _ (fun x => SharedPtr.refCount_push _ _ x)

theorem State.good_sMove {E : Prop} {N : Nat} {s : State} (hI : s.Inv E N)
    (hN : N + 1 < SIZE_MOD) (j : Nat) :
    (s.step (.sMove j)).Inv E (N + 1) ∧
      Heap.DestroyStep s.heap (s.step (.sMove j)).heap := by
  cases hj : s.sp[j]? with
  | none => simp only [State.step, hj]; exact State.good_refl hI hN
  | some other =>
    simp only [State.step, hj, SharedPtr.move]
    refine State.good_up (State.good_of_counts hI _ s.wp ?_ (fun _ => rfl)) hN
    intro x
    rw [SharedPtr.refCount_push]
    have := SharedPtr.refCount_set hj { block_ := none, ptr_ := Addr.null } x
    simp only [refersTo_none] at this
    dsimp only
    omega

theorem State.good_sPromote {E : Prop} {N : Nat} {s : State} (hI : s.Inv E N)
    (hN : N + 1 < SIZE_MOD) (k : Nat) :
    (s.step (.sPromote k)).Inv E (N + 1) ∧
      Heap.DestroyStep s.heap (s.step (.sPromote k)).heap := by
  cases hk : s.wp[k]? with
  | none => simp only [State.step, hk]; exact State.good_refl hI hN
  | some other =>
    cases he : other.Expired s.heap with
    | true =>
      simp only [State.step, hk, SharedPtr.ofWeak, he, if_true]
      exact State.good_refl hI hN
    | false =>
      obtain ⟨b, c, hb, hc, hs⟩ := (WeakPtr.not_expired_iff s.heap other).1 he
      simp only [State.step, hk, SharedPtr.ofWeak, he, hb]
      exact State.good_acquire hI hN hc (by omega) _ (fun x => SharedPtr.refCount_push _ _ x)

theorem State.good_wLock {E : Prop} {N : Nat} {s : State} (hI : s.Inv E N)
    (hN : N + 1 < SIZE_MOD) (k : Nat) :
    (s.step (.wLock k)).Inv E (N + 1) ∧
      Heap.DestroyStep s.heap (s.step (.wLock k)).heap := by
  cases hk : s.wp[k]? with
  | none => simp only [State.step, hk]; exact State.good_refl hI hN
  | some other =>
    cases he : other.Expired s.heap with
    | true =>
      simp only [State.step, hk, WeakPtr.Lock, he, if_true]
      refine State.good_up (State.good_of_counts hI _ s.wp ?_ (fun _ => rfl)) hN
      intro x
      rw [SharedPtr.refCount_push]
      simp [SharedPtr.empty, refersTo]
    | false =>
      obtain ⟨b, c, hb, hc, hs⟩ := (WeakPtr.not_expired_iff s.heap other).1 he
      simp only [State.step, hk, WeakPtr.Lock, he, hb]
      exact State.good_acquire hI hN hc (by omega) _ (fun x => SharedPtr.refCount_push _ _ x)

theorem SharedPtr.Reset_snd (h : Heap) (p : SharedPtr) :
    (p.Reset h).2 = { block_ := none, ptr_ := .null } := by
  unfold SharedPtr.Reset
  cases p.block_ <;> rfl

theorem Heap.DestroyStep.then_push {h h1 : Heap} (s1 : Heap.DestroyStep h h1)
    (d : ControlBlock) (hd : d.destroyed = 0 ∧ d.freed = 0) :
    Heap.DestroyStep h (h1 ++ [d]) := by
  constructor
  · intro x c hc
    obtain ⟨e, he, hce⟩ := s1.1 x c hc
    have hlt : x < h1.length := (List.getElem?_eq_some.1 he).1
    exact ⟨e, by rw [List.getElem?_append_left hlt]; exact he, hce⟩
  · intro x e hx he
    by_cases hlt : x < h1.length
    · rw [List.getElem?_append_left hlt] at he
      exact s1.2 x e hx he
    · have hl := (List.getElem?_eq_some.1 he).1
      simp only [List.length_append, List.length_singleton] at hl
      have hxe : x = h1.length := by omega
      subst hxe
      simp at he
      subst he
      exact hd

theorem ControlBlock.Dec_Inc (c : ControlBlock) (hs : 1 ≤ c.shared_counter)
    (hlt : c.shared_counter + 1 < SIZE_MOD) : c.IncSharedCnt.DecSharedCnt = c := by
  have h1 : decSize (incSize c.shared_counter) = c.shared_counter := by
    unfold decSize incSize; simp only [SIZE_MOD] at *; omega
  have h2 : c.shared_counter ≠ 0 := by omega
  unfold ControlBlock.DecSharedCnt ControlBlock.IncSharedCnt
  rcases c.kind_cases with hk | hk <;> simp [hk, h1, h2] <;> rw [← hk]

theorem State.good_sReset {E : Prop} {N : Nat} {s : State} (hI : s.Inv E N)
    (hN : N + 1 < SIZE_MOD) (i : Nat) :
    (s.step (.sReset i)).Inv E (N + 1) ∧
      Heap.DestroyStep s.heap (s.step (.sReset i)).heap := by
  cases hi : s.sp[i]? with
  | none => simp only [State.step, hi]; exact State.good_refl hI hN
  | some self =>
    simp only [State.step, hi, SharedPtr.Reset_snd]
    refine State.good_up (State.good_release hI self _ ?_) hN
    intro x
    have := SharedPtr.refCount_set hi { block_ := none, ptr_ := Addr.null } x
    simp only [refersTo_none] at this
    omega

theorem State.good_sDestroy {E : Prop} {N : Nat} {s : State} (hI : s.Inv E N)
    (hN : N + 1 < SIZE_MOD) (i : Nat) :
    (s.step (.sDestroy i)).Inv E (N + 1) ∧
      Heap.DestroyStep s.heap (s.step (.sDestroy i)).heap := by
  cases hi : s.sp[i]? with
  | none => simp only [State.step, hi]; exact State.good_refl hI hN
  | some self =>
    simp only [State.step, hi]
    exact State.good_up (State.good_release hI self _
      (fun x => SharedPtr.refCount_eraseIdx hi x)) hN

theorem State.good_sSwap {E : Prop} {N : Nat} {s : State} (hI : s.Inv E N)
    (hN : N + 1 < SIZE_MOD) (i j : Nat) :
    (s.step (.sSwap i j)).Inv E (N + 1) ∧
      Heap.DestroyStep s.heap (s.step (.sSwap i j)).heap := by
  cases hi : s.sp[i]? with
  | none => simp only [State.step, hi]; exact State.good_refl hI hN
  | some self =>
    cases hj : s.sp[j]? with
    | none => simp only [State.step, hi, hj]; exact State.good_refl hI hN
    | some other =>
      simp only [State.step, hi, hj, SharedPtr.Swap]
      refine State.good_up (State.good_of_counts hI _ s.wp ?_ (fun _ => rfl)) hN
      intro x
      refine SharedPtr.refCount_set_set hi hj x (fun _ => ?_) (fun _ e => ?_)
      · dsimp only; omega
      · subst e; rfl

theorem State.good_sMoveAssign {E : Prop} {N : Nat} {s : State} (hI : s.Inv E N)
    (hN : N + 1 < SIZE_MOD) (i j : Nat) :
    (s.step (.sMoveAssign i j)).Inv E (N + 1) ∧
      Heap.DestroyStep s.heap (s.step (.sMoveAssign i j)).heap := by
  cases hi : s.sp[i]? with
  | none => simp only [State.step, hi]; exact State.good_refl hI hN
  | some self =>
    cases hj : s.sp[j]? with
    | none => simp only [State.step, hi, hj]; exact State.good_refl hI hN
    | some other =>
      simp only [State.step, hi, hj, SharedPtr.moveAssign]
      refine State.good_up (State.good_of_counts hI _ s.wp ?_ (fun _ => rfl)) hN
      intro x
      refine SharedPtr.refCount_set_set hi hj x (fun _ => ?_) (fun _ e => ?_)
      · dsimp only; omega
      · subst e; rfl

/-- Release of the block of `self` followed by a new reference to another
block `b`. -/
theorem State.good_release_acquire {E : Prop} {N : Nat} {s : State} (hI : s.Inv E N)
    (hN : N + 1 < SIZE_MOD) (self : SharedPtr) {b : Nat} {c : ControlBlock}
    (hne : self.block_ ≠ some b) (hc : s.heap[b]? = some c) (hs : 1 ≤ c.shared_counter)
    (sp1 sp2 : List SharedPtr)
    (h1 : ∀ x, SharedPtr.refCount sp1 x + refersTo self.block_ x = SharedPtr.refCount s.sp x)
    (h2 : ∀ x, SharedPtr.refCount sp2 x = SharedPtr.refCount sp1 x + refersTo (some b) x) :
    State.Inv E (N + 1)
        { heap := (self.Reset s.heap).1.call b ControlBlock.IncSharedCnt,
          sp := sp2, wp := s.wp } ∧
      Heap.DestroyStep s.heap ((self.Reset s.heap).1.call b ControlBlock.IncSharedCnt) := by
  have r := State.good_release hI self sp1 h1
  have hc1 : (self.Reset s.heap).1[b]? = some c := by
    rw [SharedPtr.Reset_heap_ne _ _ _ hne]; exact hc
  have a := State.good_acquire r.1 hN hc1 hs sp2 h2
  refine ⟨a.1, Heap.DestroyStep.comp r.2 a.2 ?_⟩
  intro x
  by_cases hx : x = b
  · left; subst hx; exact SharedPtr.Reset_heap_ne _ _ _ hne
  · right; exact Heap.call_getElem?_ne _ _ _ _ hx

theorem State.good_sCopyAssign {E : Prop} {N : Nat} {s : State} (hI : s.Inv E N)
    (hN : N + 1 < SIZE_MOD) (i j : Nat) :
    (s.step (.sCopyAssign i j)).Inv E (N + 1) ∧
      Heap.DestroyStep s.heap (s.step (.sCopyAssign i j)).heap := by
  cases hi : s.sp[i]? with
  | none => simp only [State.step, hi]; exact State.good_refl hI hN
  | some self =>
    cases hj : s.sp[j]? with
    | none => simp only [State.step, hi, hj]; exact State.good_refl hI hN
    | some other =>
      cases hb : other.block_ with
      | none =>
        simp only [State.step, hi, hj, SharedPtr.copyAssign, hb, SharedPtr.Reset_snd]
        refine State.good_up (State.good_release hI self _ ?_) hN
        intro x
        have := SharedPtr.refCount_set hi { block_ := none, ptr_ := Addr.null } x
        simp only [refersTo_none] at this
        omega
      | some b =>
        by_cases he : self.block_ = some b
        · simp only [State.step, hi, hj, SharedPtr.copyAssign, hb, he, ne_eq,
            not_true_eq_false, if_false]
          refine State.good_up (State.good_of_counts hI _ s.wp ?_ (fun _ => rfl)) hN
          intro x
          have := SharedPtr.refCount_set hi self x
          omega
        · simp only [State.step, hi, hj, SharedPtr.copyAssign, hb, ne_eq, he,
            not_false_eq_true, if_true]
          obtain ⟨c, hc, hs⟩ := hI.block_of_shared hj hb
          refine State.good_release_acquire hI hN self he hc hs
            (s.sp.set i { block_ := none, ptr_ := Addr.null }) _ ?_ ?_
          · intro x
            have := SharedPtr.refCount_set hi { block_ := none, ptr_ := Addr.null } x
            simp only [refersTo_none] at this
            omega
          · intro x
            have h1 := SharedPtr.refCount_set hi { block_ := none, ptr_ := Addr.null } x
            have h2 := SharedPtr.refCount_set hi { block_ := some b, ptr_ := other.ptr_ } x
            simp only [refersTo_none] at h1
            dsimp only at h2
            omega

theorem Heap.set_self {h : Heap} {b : Nat} {c : ControlBlock} (hc : h[b]? = some c) :
    h.set b c = h := by
  have hlt : b < h.length := (List.getElem?_eq_some.1 hc).1
  apply List.ext_getElem?
  intro n
  by_cases hn : b = n
  · subst hn; simp [List.getElem?_set, hlt, hc]
  · simp [List.getElem?_set, hn]

theorem SharedPtr.Reset_call_inc {h : Heap} {other : SharedPtr} {b : Nat} {c : ControlBlock}
    (hb : other.block_ = some b) (hc : h[b]? = some c) (hs : 1 ≤ c.shared_counter)
    (hlt : c.shared_counter + 1 < SIZE_MOD) :
    (other.Reset (h.call b ControlBlock.IncSharedCnt)).1 = h := by
  have hl : b < h.length := (List.getElem?_eq_some.1 hc).1
  have h2 : (h.set b c.IncSharedCnt)[b]? = some c.IncSharedCnt := by
    simp [List.getElem?_set, hl]
  simp only [SharedPtr.Reset, hb, Heap.call_of_some _ hc, Heap.call_of_some _ h2,
    List.set_set, ControlBlock.Dec_Inc c hs hlt]
  exact Heap.set_self hc

theorem SharedPtr.ResetPtr_eq (h : Heap) (self : SharedPtr) (ptr : Addr) :
    self.ResetPtr h ptr =
      ((self.Reset h).1 ++ [ControlBlock.newPtr ptr],
        { block_ := some (self.Reset h).1.length, ptr_ := ptr }) := by
  unfold SharedPtr.ResetPtr SharedPtr.Reset
  cases self.block_ <;> rfl

theorem State.good_sResetPtr {E : Prop} {N : Nat} {s : State} (hI : s.Inv E N)
    (hN : N + 1 < SIZE_MOD) (i : Nat) (ptr : Addr) :
    (s.step (.sResetPtr i ptr)).Inv E (N + 1) ∧
      Heap.DestroyStep s.heap (s.step (.sResetPtr i ptr)).heap := by
  cases hi : s.sp[i]? with
  | none => simp only [State.step, hi]; exact State.good_refl hI hN
  | some self =>
    simp only [State.step, hi, SharedPtr.ResetPtr_eq]
    have r := State.good_release hI self (s.sp.set i { block_ := none, ptr_ := Addr.null })
      (fun x => by
        have := SharedPtr.refCount_set hi { block_ := none, ptr_ := Addr.null } x
        simp only [refersTo_none] at this
        omega)
    have a := State.good_alloc r.1 hN (BlockInv.newPtr E hN ptr) ⟨rfl, rfl⟩
      (s.sp.set i { block_ := some (self.Reset s.heap).1.length, ptr_ := ptr })
      (fun x => by
        have h1 := SharedPtr.refCount_set hi { block_ := none, ptr_ := Addr.null } x
        have h2 := SharedPtr.refCount_set hi
          { block_ := some (self.Reset s.heap).1.length, ptr_ := ptr } x
        simp only [refersTo_none] at h1
        dsimp only at h2 ⊢
        omega)
    exact ⟨a.1, Heap.DestroyStep.then_push r.2 _ ⟨rfl, rfl⟩⟩

theorem State.good_sMoveAssignConv {E : Prop} {N : Nat} {s : State} (hI : s.Inv E N)
    (hN : N + 1 < SIZE_MOD) (i j : Nat) :
    (s.step (.sMoveAssignConv i j)).Inv E (N + 1) ∧
      Heap.DestroyStep s.heap (s.step (.sMoveAssignConv i j)).heap := by
  cases hi : s.sp[i]? with
  | none => simp only [State.step, hi]; exact State.good_refl hI hN
  | some self =>
    cases hj : s.sp[j]? with
    | none => simp only [State.step, hi, hj]; exact State.good_refl hI hN
    | some other =>
      cases hb : other.block_ with
      | none =>
        simp only [State.step, hi, hj, SharedPtr.moveAssignConv, hb, SharedPtr.Reset_snd]
        refine State.good_up (State.good_release hI self _ ?_) hN
        intro x
        have h1 := SharedPtr.refCount_set hj other x
        by_cases hij : i = j
        · subst hij
          rw [hi] at hj; cases hj
          have hlt : i < s.sp.length := (List.getElem?_eq_some.1 hi).1
          have h2 : (s.sp.set i self)[i]? = some self := by simp [List.getElem?_set, hlt]
          have h3 := SharedPtr.refCount_set h2 { block_ := none, ptr_ := Addr.null } x
          simp only [refersTo_none] at h3
          omega
        · have h2 : (s.sp.set j other)[i]? = some self := by
            simp [List.getElem?_set, Ne.symm hij, hi]
          have h3 := SharedPtr.refCount_set h2 { block_ := none, ptr_ := Addr.null } x
          simp only [refersTo_none] at h3
          omega
      | some b =>
        by_cases he : self.block_ = some b
        · simp only [State.step, hi, hj, SharedPtr.moveAssignConv, hb, he, ne_eq,
            not_true_eq_false, if_false]
          refine State.good_up (State.good_of_counts hI _ s.wp ?_ (fun _ => rfl)) hN
          intro x
          exact SharedPtr.refCount_set_set hi hj x (fun _ => rfl) (fun _ _ => rfl)
        · obtain ⟨c, hc, hs⟩ := hI.block_of_shared hj hb
          have hc1 : (self.Reset s.heap).1[b]? = some c := by
            rw [SharedPtr.Reset_heap_ne _ _ _ he]; exact hc
          have hb2 := (hI.block b c hc).shared_le
          have hheap : (other.Reset
              ((self.Reset s.heap).1.call b ControlBlock.IncSharedCnt)).1 =
              (self.Reset s.heap).1 :=
            SharedPtr.Reset_call_inc hb hc1 hs (by omega)
          have hij : i ≠ j := by
            intro e; subst e
            rw [hi] at hj; cases hj
            exact he hb
          simp only [State.step, hi, hj, SharedPtr.moveAssignConv, hb, ne_eq, he,
            not_false_eq_true, if_true, hheap, SharedPtr.Reset_snd]
          refine State.good_up (State.good_release hI self _ ?_) hN
          intro x
          have h1 := SharedPtr.refCount_set hj { block_ := none, ptr_ := Addr.null } x
          have h2 : (s.sp.set j { block_ := none, ptr_ := Addr.null })[i]? = some self := by
            simp [List.getElem?_set, Ne.symm hij, hi]
          have h3 := SharedPtr.refCount_set h2 { block_ := some b, ptr_ := other.ptr_ } x
          simp only [refersTo_none, hb] at h1
          dsimp only at h3
          omega

theorem WeakPtr.Reset_snd_block (h : Heap) (w : WeakPtr) : (w.Reset h).2.block_ = none := by
  unfold WeakPtr.Reset
  cases hb : w.block_ with
  | none => exact hb
  | some b => rfl

theorem State.good_wDefault {E : Prop} {N : Nat} {s : State} (hI : s.Inv E N)
    (hN : N + 1 < SIZE_MOD) :
    (s.step .wDefault).Inv E (N + 1) ∧ Heap.DestroyStep s.heap (s.step .wDefault).heap := by
  refine State.good_up (State.good_of_counts hI s.sp (s.wp ++ [WeakPtr.empty])
    (fun _ => rfl) ?_) hN
  intro x
  rw [WeakPtr.weakRefCount_push]
  simp [WeakPtr.empty, refersTo]

theorem State.good_wCopy {E : Prop} {N : Nat} {s : State} (hI : s.Inv E N)
    (hN : N + 1 < SIZE_MOD) (k : Nat) :
    (s.step (.wCopy k)).Inv E (N + 1) ∧
      Heap.DestroyStep s.heap (s.step (.wCopy k)).heap := by
  cases hk : s.wp[k]? with
  | none => simp only [State.step, hk]; exact State.good_refl hI hN
  | some other =>
    cases hb : other.block_ with
    | none =>
      simp only [State.step, hk, WeakPtr.copy, hb]
      refine State.good_up (State.good_of_counts hI s.sp _ (fun _ => rfl) ?_) hN
      intro x
      rw [WeakPtr.weakRefCount_push]
      simp [refersTo]
    | some b =>
      simp only [State.step, hk, WeakPtr.copy, hb]
      exact State.good_acquireWeak hI hN (Or.inr (WeakPtr.weakRefCount_pos hk hb)) _
        (fun x => WeakPtr.weakRefCount_push _ _ x)

theorem State.good_wOfShared {E : Prop} {N : Nat} {s : State} (hI : s.Inv E N)
    (hN : N + 1 < SIZE_MOD) (j : Nat) :
    (s.step (.wOfShared j)).Inv E (N + 1) ∧
      Heap.DestroyStep s.heap (s.step (.wOfShared j)).heap := by
  cases hj : s.sp[j]? with
  | none => simp only [State.step, hj]; exact State.good_refl hI hN
  | some other =>
    cases hb : other.block_ with
    | none =>
      simp only [State.step, hj, WeakPtr.ofShared, hb]
      refine State.good_up (State.good_of_counts hI s.sp _ (fun _ => rfl) ?_) hN
      intro x
      rw [WeakPtr.weakRefCount_push]
      simp [refersTo]
    | some b =>
      simp only [State.step, hj, WeakPtr.ofShared, hb]
      exact State.good_acquireWeak hI hN (Or.inl (SharedPtr.refCount_pos hj hb)) _
        (fun x => WeakPtr.weakRefCount_push _ _ x)

theorem State.good_wMove {E : Prop} {N : Nat} {s : State} (hI : s.Inv E N)
    (hN : N + 1 < SIZE_MOD) (k : Nat) :
    (s.step (.wMove k)).Inv E (N + 1) ∧
      Heap.DestroyStep s.heap (s.step (.wMove k)).heap := by
  cases hk : s.wp[k]? with
  | none => simp only [State.step, hk]; exact State.good_refl hI hN
  | some other =>
    simp only [State.step, hk, WeakPtr.move]
    refine State.good_up (State.good_of_counts hI s.sp _ (fun _ => rfl) ?_) hN
    intro x
    rw [WeakPtr.weakRefCount_push]
    have := WeakPtr.weakRefCount_set hk { block_ := none, ptr_ := Addr.null } x
    simp only [refersTo_none] at this
    dsimp only
    omega

theorem State.good_wSwap {E : Prop} {N : Nat} {s : State} (hI : s.Inv E N)
    (hN : N + 1 < SIZE_MOD) (i k : Nat) :
    (s.step (.wSwap i k)).Inv E (N + 1) ∧
      Heap.DestroyStep s.heap (s.step (.wSwap i k)).heap := by
  cases hi : s.wp[i]? with
  | none => simp only [State.step, hi]; exact State.good_refl hI hN
  | some self =>
    cases hk : s.wp[k]? with
    | none => simp only [State.step, hi, hk]; exact State.good_refl hI hN
    | some other =>
      simp only [State.step, hi, hk, WeakPtr.Swap]
      refine State.good_up (State.good_of_counts hI s.sp _ (fun _ => rfl) ?_) hN
      intro x
      refine WeakPtr.weakRefCount_set_set hi hk x (fun _ => ?_) (fun _ e => ?_)
      · dsimp only; omega
      · subst e; rfl

theorem State.good_wMoveAssign {E : Prop} {N : Nat} {s : State} (hI : s.Inv E N)
    (hN : N + 1 < SIZE_MOD) (i k : Nat) :
    (s.step (.wMoveAssign i k)).Inv E (N + 1) ∧
      Heap.DestroyStep s.heap (s.step (.wMoveAssign i k)).heap := by
  cases hi : s.wp[i]? with
  | none => simp only [State.step, hi]; exact State.good_refl hI hN
  | some self =>
    cases hk : s.wp[k]? with
    | none => simp only [State.step, hi, hk]; exact State.good_refl hI hN
    | some other =>
      simp only [State.step, hi, hk, WeakPtr.moveAssign]
      refine State.good_up (State.good_of_counts hI s.sp _ (fun _ => rfl) ?_) hN
      intro x
      refine WeakPtr.weakRefCount_set_set hi hk x (fun _ => ?_) (fun _ e => ?_)
      · dsimp only; omega
      · subst e; rfl

theorem State.good_wReset {E : Prop} {N : Nat} {s : State} (hI : s.Inv E N)
    (hN : N + 1 < SIZE_MOD) (i : Nat) :
    (s.step (.wReset i)).Inv E (N + 1) ∧
      Heap.DestroyStep s.heap (s.step (.wReset i)).heap := by
  cases hi : s.wp[i]? with
  | none => simp only [State.step, hi]; exact State.good_refl hI hN
  | some self =>
    simp only [State.step, hi]
    refine State.good_up (State.good_releaseWeak hI self _ ?_) hN
    intro x
    have := WeakPtr.weakRefCount_set hi (self.Reset s.heap).2 x
    rw [WeakPtr.Reset_snd_block, refersTo_none] at this
    omega

theorem State.good_wDestroy {E : Prop} {N : Nat} {s : State} (hI : s.Inv E N)
    (hN : N + 1 < SIZE_MOD) (i : Nat) :
    (s.step (.wDestroy i)).Inv E (N + 1) ∧
      Heap.DestroyStep s.heap (s.step (.wDestroy i)).heap := by
  cases hi : s.wp[i]? with
  | none => simp only [State.step, hi]; exact State.good_refl hI hN
  | some self =>
    simp only [State.step, hi]
    exact State.good_up (State.good_releaseWeak hI self _
      (fun x => WeakPtr.weakRefCount_eraseIdx hi x)) hN

/-- The weak copy assignment keeps the invariant without its exactness part:
the new weak reference is counted in the strong counter. -/
theorem State.good_wCopyAssign {E : Prop} {N : Nat} {s : State} (hI : s.Inv E N)
    (hN : N + 1 < SIZE_MOD) (i k : Nat) :
    (s.step (.wCopyAssign i k)).Inv False (N + 1) ∧
      Heap.DestroyStep s.heap (s.step (.wCopyAssign i k)).heap := by
  have weaken : ∀ {s2 : State} {h1 h2 : Heap},
      (s2.Inv E (N + 1) ∧ Heap.DestroyStep h1 h2) →
      (s2.Inv False (N + 1) ∧ Heap.DestroyStep h1 h2) :=
    fun h => ⟨HeapInv.heap_mono h.1 (Nat.le_refl _) hN False.elim, h.2⟩
  cases hi : s.wp[i]? with
  | none => simp only [State.step, hi]; exact weaken (State.good_refl hI hN)
  | some self =>
    cases hk : s.wp[k]? with
    | none => simp only [State.step, hi, hk]; exact weaken (State.good_refl hI hN)
    | some other =>
      cases hb : other.block_ with
      | none =>
        simp only [State.step, hi, hk, WeakPtr.copyAssign, hb]
        refine weaken (State.good_up (State.good_releaseWeak hI self _ ?_) hN)
        intro x
        have := WeakPtr.weakRefCount_set hi (self.Reset s.heap).2 x
        rw [WeakPtr.Reset_snd_block, refersTo_none] at this
        omega
      | some b =>
        by_cases he : self.block_ = some b
        · simp only [State.step, hi, hk, WeakPtr.copyAssign, hb, he, ne_eq,
            not_true_eq_false, if_false]
          refine weaken (State.good_up (State.good_of_counts hI s.sp _ (fun _ => rfl) ?_) hN)
          intro x
          have := WeakPtr.weakRefCount_set hi self x
          omega
        · simp only [State.step, hi, hk, WeakPtr.copyAssign, hb, ne_eq, he,
            not_false_eq_true, if_true]
          have hik : i ≠ k := by
            intro e; subst e
            rw [hi] at hk; cases hk
            exact he hb
          have r := State.good_releaseWeak hI self
            (s.wp.set i { block_ := none, ptr_ := Addr.null })
            (fun x => by
              have := WeakPtr.weakRefCount_set hi { block_ := none, ptr_ := Addr.null } x
              simp only [refersTo_none] at this
              omega)
          have hk1 : (s.wp.set i { block_ := none, ptr_ := Addr.null })[k]? = some other := by
            simp [List.getElem?_set, hik, hk]
          have a := State.good_acquireWeakMiscounted r.1 hN (b := b)
            (WeakPtr.weakRefCount_pos hk1 hb)
            (s.wp.set i { block_ := some b, ptr_ := other.ptr_ })
            (fun x => by
              have h1 := WeakPtr.weakRefCount_set hi { block_ := none, ptr_ := Addr.null } x
              have h2 := WeakPtr.weakRefCount_set hi { block_ := some b, ptr_ := other.ptr_ } x
              simp only [refersTo_none] at h1
              dsimp only at h2 ⊢
              omega)
          refine ⟨a.1, Heap.DestroyStep.comp r.2 a.2 ?_⟩
          intro x
          by_cases hx : x = b
          · left; subst hx; exact WeakPtr.weakReset_heap_ne _ _ _ he
          · right; exact Heap.call_getElem?_ne _ _ _ _ hx

/-- Every operation keeps the invariant; the bound on the number of operations
grows by one, and the exactness part survives every operation except the weak
copy assignment. In the same step, the managed object of a block is destroyed
exactly when its strong counter goes from 1 to 0. -/
theorem State.step_good {E : Prop} {N : Nat} {s : State} (hI : s.Inv E N)
    (hN : N + 1 < SIZE_MOD) (o : Op) :
    (s.step o).Inv (E ∧ o.exact = true) (N + 1) ∧
      Heap.DestroyStep s.heap (s.step o).heap := by
  have keep : ∀ {s2 : State} {h1 h2 : Heap}, o.exact = true →
      (s2.Inv E (N + 1) ∧ Heap.DestroyStep h1 h2) →
      (s2.Inv (E ∧ o.exact = true) (N + 1) ∧ Heap.DestroyStep h1 h2) :=
    fun _ h => ⟨HeapInv.heap_mono h.1 (Nat.le_refl _) hN (fun e => e.1), h.2⟩
  cases o with
  | sDefault => exact keep rfl (State.good_sDefault hI hN)
  | sFromRaw ptr => exact keep rfl (State.good_sFromRaw hI hN ptr)
  | sMake => exact keep rfl (State.good_sMake hI hN)
  | sCopy j => exact keep rfl (State.good_sCopy hI hN j)
  | sMove j => exact keep rfl (State.good_sMove hI hN j)
  | sAlias j ptr => exact keep rfl (State.good_sAlias hI hN j ptr)
  | sPromote k => exact keep rfl (State.good_sPromote hI hN k)
  | sCopyAssign i j => exact keep rfl (State.good_sCopyAssign hI hN i j)
  | sMoveAssign i j => exact keep rfl (State.good_sMoveAssign hI hN i j)
  | sMoveAssignConv i j => exact keep rfl (State.good_sMoveAssignConv hI hN i j)
  | sReset i => exact keep rfl (State.good_sReset hI hN i)
  | sResetPtr i ptr => exact keep rfl (State.good_sResetPtr hI hN i ptr)
  | sSwap i j => exact keep rfl (State.good_sSwap hI hN i j)
  | sDestroy i => exact keep rfl (State.good_sDestroy hI hN i)
  | wDefault => exact keep rfl (State.good_wDefault hI hN)
  | wCopy k => exact keep rfl (State.good_wCopy hI hN k)
  | wMove k => exact keep rfl (State.good_wMove hI hN k)
  | wOfShared j => exact keep rfl (State.good_wOfShared hI hN j)
  | wCopyAssign i k =>
    have h := State.good_wCopyAssign hI hN i k
    exact ⟨HeapInv.heap_mono h.1 (Nat.le_refl _) hN (fun e => by simp [Op.exact] at e), h.2⟩
  | wMoveAssign i k => exact keep rfl (State.good_wMoveAssign hI hN i k)
  | wReset i => exact keep rfl (State.good_wReset hI hN i)
  | wSwap i k => exact keep rfl (State.good_wSwap hI hN i k)
  | wDestroy i => exact keep rfl (State.good_wDestroy hI hN i)
  | wLock k => exact keep rfl (State.good_wLock hI hN k)

/-! ## Reachable states -/

theorem State.init_inv : State.init.Inv True 0 := by
  refine ⟨by decide, ?_, ?_⟩
  · intro b c hc
    simp [State.init] at hc
  · intro b _
    exact ⟨rfl, rfl⟩

theorem State.run_append (s : State) (ops : List Op) (o : Op) :
    s.run (ops ++ [o]) = (s.run ops).step o := by
  induction ops generalizing s with
  | nil => rfl
  | cons a t ih => exact ih (s.step a)

/-- The invariant holds after every program of fewer than `2 ^ 64` operations;
its exactness part holds when no weak copy assignment was executed. -/
theorem State.run_inv {E : Prop} {N : Nat} {s : State} (hI : s.Inv E N) (ops : List Op)
    (hN : N + ops.length < SIZE_MOD) :
    (s.run ops).Inv (E ∧ ∀ o ∈ ops, o.exact = true) (N + ops.length) := by
  induction ops generalizing s E N with
  | nil =>
    exact HeapInv.heap_mono hI (Nat.le_refl _) hN (fun e => e.1)
  | cons a t ih =>
    simp only [List.length_cons] at hN
    have h1 := (State.step_good hI (by omega) a).1
    have h2 := ih h1 (by omega)
    have e : N + (a :: t).length = N + 1 + t.length := by
      simp only [List.length_cons]; omega
    rw [e]
    refine HeapInv.heap_mono h2 (Nat.le_refl _) (by omega) ?_
    intro hE
    exact ⟨⟨hE.1, hE.2 a (List.mem_cons_self a t)⟩,
      fun o ho => hE.2 o (List.mem_cons_of_mem a ho)⟩

theorem State.reachable_inv (ops : List Op) (hN : ops.length < SIZE_MOD) :
    (State.init.run ops).Inv (∀ o ∈ ops, o.exact = true) ops.length := by
  have h := State.run_inv State.init_inv ops (by omega)
  rw [Nat.zero_add] at h
  exact HeapInv.heap_mono h (Nat.le_refl _) hN (fun e => ⟨trivial, e⟩)

theorem Op.exact_of_strongOnly {o : Op} (h : o.strongOnly = true) : o.exact = true := by
  cases o <;> first | rfl | simp [Op.strongOnly] at h

/-- For managed objects without smart-pointer members (the programs of
`State.run`): after every program of strong-pointer operations only (fewer than
`2 ^ 64` of them), `UseCount()` of every live `SharedPtr` that holds a block
is the number of live `SharedPtr` objects that reference the same block. -/
theorem SharedPtr.useCount_eq_liveShared (ops : List Op)
    (hs : ∀ o ∈ ops, o.strongOnly = true) (hlen : ops.length < SIZE_MOD)
    (i : Nat) (p : SharedPtr) (b : Nat)
    (hp : (State.init.run ops).sp[i]? = some p) (hb : p.block_ = some b) :
    p.UseCount (State.init.run ops).heap = (State.init.run ops).liveShared b := by
  have hI := State.reachable_inv ops hlen
  have h1 : 1 ≤ (State.init.run ops).liveShared b := SharedPtr.refCount_pos hp hb
  obtain ⟨c, hc⟩ := HeapInv.exists_block hI (Or.inl h1)
  have := (hI.block b c hc).exact_s (fun o ho => Op.exact_of_strongOnly (hs o ho))
  simp only [SharedPtr.UseCount, hb, Heap.GetSharedCnt_of_some hc]
  exact this

/-- Witness for `SharedPtr.useCount_eq_liveShared`: a pointer made from a raw
pointer and its copy both report 2; after the first is destroyed the other
reports 1. -/
theorem SharedPtr.useCount_eq_liveShared_witness :
    SharedPtr.UseCount (State.init.run [.sFromRaw (.raw 1), .sCopy 0]).heap
        { block_ := some 0, ptr_ := .raw 1 } =
      (State.init.run [.sFromRaw (.raw 1), .sCopy 0]).liveShared 0 ∧
    (State.init.run [.sFromRaw (.raw 1), .sCopy 0]).liveShared 0 = 2 ∧
    SharedPtr.UseCount (State.init.run [.sFromRaw (.raw 1), .sCopy 0, .sDestroy 0]).heap
        { block_ := some 0, ptr_ := .raw 1 } = 1 :=
  ⟨SharedPtr.useCount_eq_liveShared [.sFromRaw (.raw 1), .sCopy 0] (by decide) (by decide)
      1 { block_ := some 0, ptr_ := .raw 1 } 0 (by decide) rfl,
    by decide, by decide⟩

/-- For managed objects without smart-pointer members (the programs of
`State.run`): in every state reached by fewer than `2 ^ 64` public operations, and
for the operation `o` executed next: the storage of every block has been
released at most once, and it has been released exactly when both counters are
zero; a block that some live pointer references before `o` has not been
released before `o`, so it is released by `o` itself when `o` leaves both of
its counters at zero; a block allocated by `o` is not released. -/
theorem State.freed_once (ops : List Op) (o : Op) (hlen : ops.length + 1 < SIZE_MOD) :
    (∀ (b : Nat) (c : ControlBlock), (State.init.run ops).heap[b]? = some c →
      c.freed ≤ 1 ∧ (c.freed = 1 ↔ c.shared_counter = 0 ∧ c.weak_counter = 0)) ∧
    (∀ (b : Nat) (d : ControlBlock), ((State.init.run ops).step o).heap[b]? = some d →
      d.freed ≤ 1 ∧ (d.freed = 1 ↔ d.shared_counter = 0 ∧ d.weak_counter = 0)) ∧
    (∀ (b : Nat) (c d : ControlBlock), (State.init.run ops).heap[b]? = some c →
      ((State.init.run ops).step o).heap[b]? = some d →
      1 ≤ (State.init.run ops).liveShared b + (State.init.run ops).liveWeak b →
      c.freed = 0 ∧ (d.shared_counter = 0 ∧ d.weak_counter = 0 → d.freed = 1)) ∧
    (∀ (b : Nat) (d : ControlBlock), (State.init.run ops).heap[b]? = none →
      ((State.init.run ops).step o).heap[b]? = some d → d.freed = 0) := by
  have hI := State.reachable_inv ops (by omega)
  have hG := State.step_good hI hlen o
  refine ⟨?_, ?_, ?_, ?_⟩
  · intro b c hc
    exact ⟨(hI.block b c hc).freed_le, (hI.block b c hc).freed_iff⟩
  · intro b d hd
    exact ⟨(hG.1.block b d hd).freed_le, (hG.1.block b d hd).freed_iff⟩
  · intro b c d hc hd hl
    have hB := hI.block b c hc
    obtain ⟨h0, h1, h2, h3, h4, h5, h6, h7, h8, h9, h10, h11, h12⟩ := hB
    refine ⟨?_, (hG.1.block b d hd).freed_iff.2⟩
    have : c.freed ≠ 1 := by
      intro hf
      have hz := h12.1 hf
      simp only [SIZE_MOD, State.liveShared, State.liveWeak] at *
      omega
    omega
  · intro b d hn hd
    exact (hG.2.2 b d (List.getElem?_eq_none_iff.1 hn) hd).2

/-- Witness for `State.freed_once`: a block made by `MakeShared`, observed by
one weak pointer, is not released when the strong pointer is destroyed and is
released when the weak pointer is destroyed. -/
theorem State.freed_once_witness :
    (State.init.run [.sMake, .wOfShared 0, .sDestroy 0]).heap.map ControlBlock.freed = [0] ∧
    ((State.init.run [.sMake, .wOfShared 0, .sDestroy 0]).step (.wDestroy 0)).heap.map
      ControlBlock.freed = [1] ∧
    (∀ (b : Nat) (d : ControlBlock), ((State.init.run [.sMake, .wOfShared 0, .sDestroy 0]).step
        (.wDestroy 0)).heap[b]? = some d →
      d.freed ≤ 1 ∧ (d.freed = 1 ↔ d.shared_counter = 0 ∧ d.weak_counter = 0)) :=
  ⟨by decide, by decide,
    (State.freed_once [.sMake, .wOfShared 0, .sDestroy 0] (.wDestroy 0) (by decide)).2.1⟩

/-- For managed objects without smart-pointer members (the programs of
`State.run`): in every state reached by fewer than `2 ^ 64` public operations, and
for the operation `o` executed next: the managed object of every block has
been destroyed at most once; during `o` the managed object of a block is
destroyed (once) exactly when `o` takes the block's strong counter from 1 to 0
and the block has an object, whatever happens to the block's storage, and in
no other case; a block allocated by `o` has its object alive. -/
theorem State.destroyed_once (ops : List Op) (o : Op) (hlen : ops.length + 1 < SIZE_MOD) :
    (∀ (b : Nat) (c : ControlBlock), (State.init.run ops).heap[b]? = some c → c.destroyed ≤ 1) ∧
    (∀ (b : Nat) (d : ControlBlock), ((State.init.run ops).step o).heap[b]? = some d → d.destroyed ≤ 1) ∧
    (∀ (b : Nat) (c : ControlBlock), (State.init.run ops).heap[b]? = some c →
      ∃ d : ControlBlock, ((State.init.run ops).step o).heap[b]? = some d ∧
        d.destroyed = c.destroyed +
          (if c.shared_counter = 1 ∧ d.shared_counter = 0 ∧ c.hasObject then 1 else 0)) ∧
    (∀ (b : Nat) (d : ControlBlock), (State.init.run ops).heap[b]? = none →
      ((State.init.run ops).step o).heap[b]? = some d → d.destroyed = 0) := by
  have hI := State.reachable_inv ops (by omega)
  have hG := State.step_good hI hlen o
  refine ⟨?_, ?_, ?_, ?_⟩
  · intro b c hc
    exact (hI.block b c hc).destroyed_le
  · intro b d hd
    exact (hG.1.block b d hd).destroyed_le
  · intro b c hc
    exact hG.2.1 b c hc
  · intro b d hn hd
    exact (hG.2.2 b d (List.getElem?_eq_none_iff.1 hn) hd).1

/-- Witness for `State.destroyed_once`: the last strong pointer of an external
block with a weak observer is destroyed; the object is destroyed in that
operation and not again when the weak pointer releases the block. -/
theorem State.destroyed_once_witness :
    (State.init.run [.sFromRaw (.raw 1), .wOfShared 0]).heap.map ControlBlock.destroyed = [0] ∧
    ((State.init.run [.sFromRaw (.raw 1), .wOfShared 0]).step (.sDestroy 0)).heap.map
      ControlBlock.destroyed = [1] ∧
    (State.init.run [.sFromRaw (.raw 1), .wOfShared 0, .sDestroy 0, .wDestroy 0]).heap.map
      (fun c => (c.destroyed, c.freed)) = [(1, 1)] ∧
    (∀ (b : Nat) (d : ControlBlock), ((State.init.run [.sFromRaw (.raw 1), .wOfShared 0]).step
        (.sDestroy 0)).heap[b]? = some d → d.destroyed ≤ 1) :=
  ⟨by decide, by decide, by decide,
    (State.destroyed_once [.sFromRaw (.raw 1), .wOfShared 0] (.sDestroy 0) (by decide)).2.1⟩

/-! ## Moves, weak construction, `Reset`, creation and observers -/

/-- C11: move construction of a `SharedPtr` (resp. `WeakPtr`) from the object
at position `j` (resp. `k`): the new object holds exactly the block and access
pointer of the source, the source is left without block and with a null access
pointer (`UseCount() == 0`), and the heap is unchanged, so no strong or weak
counter of any block changes. -/
theorem State.step_move_spec (s : State) :
    (∀ (j : Nat) (src : SharedPtr), s.sp[j]? = some src →
      (s.step (.sMove j)).sp = s.sp.set j SharedPtr.empty ++ [src] ∧
      (s.step (.sMove j)).heap = s.heap ∧ (s.step (.sMove j)).wp = s.wp ∧
      (s.step (.sMove j)).sp[j]? = some { block_ := none, ptr_ := .null } ∧
      SharedPtr.empty.UseCount (s.step (.sMove j)).heap = 0) ∧
    (∀ (k : Nat) (src : WeakPtr), s.wp[k]? = some src →
      (s.step (.wMove k)).wp = s.wp.set k WeakPtr.empty ++ [src] ∧
      (s.step (.wMove k)).heap = s.heap ∧ (s.step (.wMove k)).sp = s.sp ∧
      (s.step (.wMove k)).wp[k]? = some { block_ := none, ptr_ := .null } ∧
      WeakPtr.empty.UseCount (s.step (.wMove k)).heap = 0) := by
  constructor
  · intro j src hj
    have hlt : j < s.sp.length := (List.getElem?_eq_some.1 hj).1
    refine ⟨?_, ?_, ?_, ?_, rfl⟩
    · simp [State.step, hj, SharedPtr.move, SharedPtr.empty]
    · simp [State.step, hj]
    · simp [State.step, hj]
    · simp [State.step, hj, SharedPtr.move, List.getElem?_append_left, hlt,
        List.getElem?_set]
  · intro k src hk
    have hlt : k < s.wp.length := (List.getElem?_eq_some.1 hk).1
    refine ⟨?_, ?_, ?_, ?_, rfl⟩
    · simp [State.step, hk, WeakPtr.move, WeakPtr.empty]
    · simp [State.step, hk]
    · simp [State.step, hk]
    · simp [State.step, hk, WeakPtr.move, List.getElem?_append_left, hlt,
        List.getElem?_set]

/-- Witness for `State.step_move_spec`: a pointer made from a raw pointer is
moved into a new object. -/
theorem State.step_move_spec_witness :
    ((State.init.step (.sFromRaw (.raw 1))).step (.sMove 0)).sp =
      [SharedPtr.empty, { block_ := some 0, ptr_ := .raw 1 }] ∧
    ((State.init.step (.sFromRaw (.raw 1))).step (.sMove 0)).heap =
      (State.init.step (.sFromRaw (.raw 1))).heap := by
  obtain ⟨e1, e2, _⟩ :=
    (State.step_move_spec (State.init.step (.sFromRaw (.raw 1)))).1 0
      { block_ := some 0, ptr_ := .raw 1 } rfl
  exact ⟨e1, e2⟩

/-- C12: after the move assignment `a = std::move(b)` between two `SharedPtr`
objects that own different objects, `b` is not empty: it holds the block and
the access pointer that `a` had, with `UseCount() == 1`; the same happens
between two `WeakPtr` objects. No counter changes. -/
theorem SharedPtr.moveAssign_leaves_source_nonempty :
    (State.run State.init [.sFromRaw (.raw 1), .sFromRaw (.raw 2), .sMoveAssign 0 1]).sp =
      [{ block_ := some 1, ptr_ := .raw 2 }, { block_ := some 0, ptr_ := .raw 1 }] ∧
    ((State.run State.init
        [.sFromRaw (.raw 1), .sFromRaw (.raw 2), .sMoveAssign 0 1]).sp[1]?.map
      (SharedPtr.UseCount (State.run State.init
        [.sFromRaw (.raw 1), .sFromRaw (.raw 2), .sMoveAssign 0 1]).heap)) = some 1 ∧
    (State.run State.init [.sFromRaw (.raw 1), .sFromRaw (.raw 2), .sMoveAssign 0 1]).heap =
      (State.run State.init [.sFromRaw (.raw 1), .sFromRaw (.raw 2)]).heap ∧
    (State.run State.init [.sFromRaw (.raw 1), .sFromRaw (.raw 2), .wOfShared 0,
        .wOfShared 1, .wMoveAssign 0 1]).wp =
      [{ block_ := some 1, ptr_ := .raw 2 }, { block_ := some 0, ptr_ := .raw 1 }] := by
  decide

/-- C15: a weak copy assignment `a = b` between weak pointers on different
blocks: `a` takes the block and access pointer of `b` and the weak counter of
the former block of `a` goes down by one, but the weak counter of the block of
`b` stays 1 with two weak pointers on it, and its strong counter goes from 1
to 2 with one `SharedPtr` on it. -/
theorem WeakPtr.copyAssign_counts_strong :
    (State.run State.init [.sMake, .sMake, .wOfShared 0, .wOfShared 1]).heap.map
      (fun c => (c.shared_counter, c.weak_counter)) = [(1, 1), (1, 1)] ∧
    (State.run State.init
      [.sMake, .sMake, .wOfShared 0, .wOfShared 1, .wCopyAssign 0 1]).heap.map
      (fun c => (c.shared_counter, c.weak_counter)) = [(1, 0), (2, 1)] ∧
    (State.run State.init
      [.sMake, .sMake, .wOfShared 0, .wOfShared 1, .wCopyAssign 0 1]).wp =
      [{ block_ := some 1, ptr_ := .obj 1 }, { block_ := some 1, ptr_ := .obj 1 }] ∧
    (State.run State.init
      [.sMake, .sMake, .wOfShared 0, .wOfShared 1, .wCopyAssign 0 1]).liveShared 1 = 1 := by
  decide

theorem Heap.GetSharedCnt_set_weak (h : Heap) (b : Nat) (c : ControlBlock) (w : Nat)
    (hc : h[b]? = some c) (x : Nat) :
    Heap.GetSharedCnt (h.set b { c with weak_counter := w }) x = Heap.GetSharedCnt h x := by
  have hlt : b < h.length := (List.getElem?_eq_some.1 hc).1
  by_cases hx : b = x
  · subst hx
    simp [Heap.GetSharedCnt, List.getElem?_set, hlt, hc, ControlBlock.GetSharedCnt]
  · simp [Heap.GetSharedCnt, List.getElem?_set, hx]

/-- In a state where the weak counter is below `2 ^ 64 - 1` (see
`State.weak_counter_eq_liveWeak`): construction of a `WeakPtr` from the
`SharedPtr` at position `j`, and
copy construction from the `WeakPtr` at position `k`. From a source with a
block, the new object has the block and access pointer of the source, the only
change in the heap is one increment of that block's weak counter, so its strong
counter, and `UseCount()` of every `SharedPtr`, are as before. From a source
without block the new object has no block and the heap is unchanged. -/
theorem State.step_weak_construct_spec (s : State) :
    (∀ (j : Nat) (src : SharedPtr) (b : Nat) (c : ControlBlock),
      s.sp[j]? = some src → src.block_ = some b → s.heap[b]? = some c →
      (s.step (.wOfShared j)).wp = s.wp ++ [{ block_ := some b, ptr_ := src.ptr_ }] ∧
      (s.step (.wOfShared j)).sp = s.sp ∧
      (s.step (.wOfShared j)).heap =
        s.heap.set b { c with weak_counter := incSize c.weak_counter } ∧
      (c.weak_counter + 1 < SIZE_MOD → incSize c.weak_counter = c.weak_counter + 1) ∧
      (∀ q : SharedPtr, q.UseCount (s.step (.wOfShared j)).heap = q.UseCount s.heap)) ∧
    (∀ (k : Nat) (src : WeakPtr) (b : Nat) (c : ControlBlock),
      s.wp[k]? = some src → src.block_ = some b → s.heap[b]? = some c →
      (s.step (.wCopy k)).wp = s.wp ++ [{ block_ := some b, ptr_ := src.ptr_ }] ∧
      (s.step (.wCopy k)).sp = s.sp ∧
      (s.step (.wCopy k)).heap =
        s.heap.set b { c with weak_counter := incSize c.weak_counter } ∧
      (c.weak_counter + 1 < SIZE_MOD → incSize c.weak_counter = c.weak_counter + 1) ∧
      (∀ q : SharedPtr, q.UseCount (s.step (.wCopy k)).heap = q.UseCount s.heap)) ∧
    (∀ (j : Nat) (src : SharedPtr), s.sp[j]? = some src → src.block_ = none →
      (s.step (.wOfShared j)).wp = s.wp ++ [{ block_ := none, ptr_ := src.ptr_ }] ∧
      (s.step (.wOfShared j)).sp = s.sp ∧ (s.step (.wOfShared j)).heap = s.heap) ∧
    (∀ (k : Nat) (src : WeakPtr), s.wp[k]? = some src → src.block_ = none →
      (s.step (.wCopy k)).wp = s.wp ++ [{ block_ := none, ptr_ := src.ptr_ }] ∧
      (s.step (.wCopy k)).sp = s.sp ∧ (s.step (.wCopy k)).heap = s.heap) := by
  refine ⟨?_, ?_, ?_, ?_⟩
  · intro j src b c hj hb hc
    have hh : (s.step (.wOfShared j)).heap =
        s.heap.set b { c with weak_counter := incSize c.weak_counter } := by
      simp [State.step, hj, WeakPtr.ofShared, hb, Heap.call_of_some _ hc,
        ControlBlock.IncWeakCnt]
    refine ⟨?_, ?_, hh, fun hlt => incSize_of_lt hlt, ?_⟩
    · simp [State.step, hj, WeakPtr.ofShared, hb]
    · simp [State.step, hj, WeakPtr.ofShared, hb]
    · intro q
      rw [hh]
      unfold SharedPtr.UseCount
      cases q.block_ with
      | none => rfl
      | some x => exact Heap.GetSharedCnt_set_weak s.heap b c _ hc x
  · intro k src b c hk hb hc
    have hh : (s.step (.wCopy k)).heap =
        s.heap.set b { c with weak_counter := incSize c.weak_counter } := by
      simp [State.step, hk, WeakPtr.copy, hb, Heap.call_of_some _ hc,
        ControlBlock.IncWeakCnt]
    refine ⟨?_, ?_, hh, fun hlt => incSize_of_lt hlt, ?_⟩
    · simp [State.step, hk, WeakPtr.copy, hb]
    · simp [State.step, hk, WeakPtr.copy, hb]
    · intro q
      rw [hh]
      unfold SharedPtr.UseCount
      cases q.block_ with
      | none => rfl
      | some x => exact Heap.GetSharedCnt_set_weak s.heap b c _ hc x
  · intro j src hj hb
    simp [State.step, hj, WeakPtr.ofShared, hb]
  · intro k src hk hb
    simp [State.step, hk, WeakPtr.copy, hb]

/-- Witness for `State.step_weak_construct_spec`: a weak pointer is made from
the result of `MakeShared`; the block then has strong counter 1 and weak
counter 1. -/
theorem State.step_weak_construct_spec_witness :
    ((State.init.step .sMake).step (.wOfShared 0)).wp =
      [{ block_ := some 0, ptr_ := .obj 0 }] ∧
    ((State.init.step .sMake).step (.wOfShared 0)).heap =
      [ControlBlock.mk .Obj 1 1 .null 0 0] := by
  obtain ⟨e1, _, e2, _⟩ :=
    (State.step_weak_construct_spec (State.init.step .sMake)).1 0
      { block_ := some 0, ptr_ := .obj 0 } 0 ControlBlock.newObj rfl rfl rfl
  exact ⟨e1, e2⟩

/-- C19: `Expired()` of a `WeakPtr` is true exactly when the pointer has no
block or the strong counter of its block is 0, that is, exactly when its
`UseCount()` is 0; `UseCount()` of a `WeakPtr` and of a `SharedPtr` is the
strong counter of the block, and 0 without a block. -/
theorem WeakPtr.Expired_iff_useCount_zero (h : Heap) (w : WeakPtr) (p : SharedPtr) :
    (w.Expired h = true ↔
      (w.block_ = none ∨ ∃ b : Nat, w.block_ = some b ∧ h.GetSharedCnt b = 0)) ∧
    w.Expired h = decide (w.UseCount h = 0) ∧
    (w.block_ = none → w.UseCount h = 0) ∧
    (∀ b : Nat, w.block_ = some b → w.UseCount h = h.GetSharedCnt b) ∧
    (p.block_ = none → p.UseCount h = 0) ∧
    (∀ b : Nat, p.block_ = some b → p.UseCount h = h.GetSharedCnt b) ∧
    (∀ (b : Nat) (c : ControlBlock), h[b]? = some c → h.GetSharedCnt b = c.shared_counter) := by
  refine ⟨?_, ?_, ?_, ?_, ?_, ?_, ?_⟩
  · unfold WeakPtr.Expired
    cases w.block_ <;> simp
  · unfold WeakPtr.Expired WeakPtr.UseCount
    cases w.block_ with
    | none => simp
    | some b => by_cases hz : h.GetSharedCnt b = 0 <;> simp [hz]
  · intro hb; simp [WeakPtr.UseCount, hb]
  · intro b hb; simp [WeakPtr.UseCount, hb]
  · intro hb; simp [SharedPtr.UseCount, hb]
  · intro b hb; simp [SharedPtr.UseCount, hb]
  · intro b c hc; exact Heap.GetSharedCnt_of_some hc

/-- Witness for `WeakPtr.Expired_iff_useCount_zero`: a weak pointer on a block
whose strong counter is 0 is expired. -/
theorem WeakPtr.Expired_iff_useCount_zero_witness :
    WeakPtr.Expired [ControlBlock.mk .Obj 0 1 .null 1 0] (WeakPtr.mk (some 0) (.obj 0)) = true :=
  (WeakPtr.Expired_iff_useCount_zero [ControlBlock.mk .Obj 0 1 .null 1 0]
    (WeakPtr.mk (some 0) (.obj 0)) SharedPtr.empty).1.2 (Or.inr ⟨0, rfl, rfl⟩)

/-- C20: the claim fails for `DecWeakCnt` itself. For a block of either kind
with strong counter 0 and weak counter 1, `DecWeakCnt` brings the weak counter
to 0 and does not release the storage. -/
theorem ControlBlock.DecWeakCnt_does_not_free :
    (ControlBlock.DecWeakCnt (ControlBlock.mk .Obj 0 1 .null 1 0)).weak_counter = 0 ∧
    (ControlBlock.DecWeakCnt (ControlBlock.mk .Obj 0 1 .null 1 0)).shared_counter = 0 ∧
    (ControlBlock.DecWeakCnt (ControlBlock.mk .Obj 0 1 .null 1 0)).freed = 0 ∧
    (ControlBlock.DecWeakCnt (ControlBlock.mk .Ptr 0 1 .null 1 0)).weak_counter = 0 ∧
    (ControlBlock.DecWeakCnt (ControlBlock.mk .Ptr 0 1 .null 1 0)).shared_counter = 0 ∧
    (ControlBlock.DecWeakCnt (ControlBlock.mk .Ptr 0 1 .null 1 0)).freed = 0 ∧
    ¬ ∀ c : ControlBlock, c.shared_counter = 0 → c.DecWeakCnt.weak_counter = 0 →
      c.DecWeakCnt.freed = c.freed + 1 := by
  refine ⟨by decide, by decide, by decide, by decide, by decide, by decide, ?_⟩
  intro hall
  have h := hall (ControlBlock.mk .Obj 0 1 .null 1 0) rfl (by decide)
  simp [ControlBlock.DecWeakCnt] at h

/-- C20, as amended: for both kinds of block `DecWeakCnt` changes the weak
counter only (it releases nothing); the storage is released by
`WeakPtr::Reset()` (the body of `~WeakPtr`), which after `DecWeakCnt` deletes
the block exactly when both counters are 0, in particular when it takes the
weak counter from 1 to 0 while the strong counter is 0. -/
theorem WeakPtr.Reset_frees_block (h : Heap) (w : WeakPtr) (b : Nat) (c : ControlBlock)
    (hb : w.block_ = some b) (hc : h[b]? = some c) :
    c.DecWeakCnt = { c with weak_counter := decSize c.weak_counter } ∧
    c.DecWeakCnt.freed = c.freed ∧
    ∃ c2 : ControlBlock, (w.Reset h).1 = h.set b c2 ∧
      c2.kind = c.kind ∧ c2.shared_counter = c.shared_counter ∧
      c2.weak_counter = decSize c.weak_counter ∧
      c2.freed = c.freed +
        (if c.shared_counter = 0 ∧ decSize c.weak_counter = 0 then 1 else 0) ∧
      (c.shared_counter = 0 → c.weak_counter = 1 →
        c2.weak_counter = 0 ∧ c2.freed = c.freed + 1) := by
  have e0 : c.DecWeakCnt = { c with weak_counter := decSize c.weak_counter } := by
    unfold ControlBlock.DecWeakCnt
    exact Eq.refl _
  have e1 : c.DecWeakCnt.freed = c.freed := by
    unfold ControlBlock.DecWeakCnt
    exact Eq.refl _
  refine ⟨e0, e1, c.weakRelease, WeakPtr.Reset_heap hb hc, c.weakRelease_kind,
    c.weakRelease_shared, c.weakRelease_weak, c.weakRelease_freed, ?_⟩
  intro hs hw
  rw [c.weakRelease_weak, c.weakRelease_freed, hw, decSize_one]
  simp [hs]

/-- Witness for `WeakPtr.Reset_frees_block`: the last weak pointer of an
external block whose object is gone. -/
theorem WeakPtr.Reset_frees_block_witness :
    ∃ c2 : ControlBlock,
      (WeakPtr.Reset [ControlBlock.mk .Ptr 0 1 .null 1 0]
        (WeakPtr.mk (some 0) (.raw 3))).1 =
        [ControlBlock.mk .Ptr 0 1 .null 1 0].set 0 c2 ∧
      c2.weak_counter = 0 ∧ c2.freed = 1 := by
  have hw : (WeakPtr.mk (some 0) (.raw 3)).block_ = some 0 := rfl
  have hc : [ControlBlock.mk .Ptr 0 1 .null 1 0][0]? =
      some (ControlBlock.mk .Ptr 0 1 .null 1 0) := rfl
  obtain ⟨_, _, c2, e1, _, _, _, _, e2⟩ :=
    WeakPtr.Reset_frees_block [ControlBlock.mk .Ptr 0 1 .null 1 0]
      (WeakPtr.mk (some 0) (.raw 3)) 0 (ControlBlock.mk .Ptr 0 1 .null 1 0) hw hc
  have e3 := e2 rfl rfl
  exact ⟨c2, e1, e3.1, e3.2⟩

theorem State.step_sDestroy_eq (s : State) (i : Nat) (q : SharedPtr)
    (hi : s.sp[i]? = some q) :
    s.step (.sDestroy i) =
      { heap := (q.Reset s.heap).1, sp := s.sp.eraseIdx i, wp := s.wp } := by
  simp [State.step, hi]

/-- C17: the scenario `A = MakeShared(v)`, `W = WeakPtr(A)`, destroy `A`,
promote and lock `W`, destroy `W`. After the first two steps `*A` is `v`,
`A.UseCount()` is 1 and `W` is not expired. After `A` is destroyed `W` is
expired, the promotion throws `BadWeakPtr`, and `Lock` returns the empty
pointer. After `W` is destroyed the block has been released once and its
object destroyed once. -/
theorem SharedPtr.MakeShared_weak_scenario {α : Type} (v : α) (m : Memory α) :
    (SharedPtr.MakeSharedOf State.init.heap m v).1 = (State.init.step .sMake).heap ∧
    (State.init.step .sMake).sp = [(SharedPtr.MakeSharedOf State.init.heap m v).2.2] ∧
    (SharedPtr.MakeSharedOf State.init.heap m v).2.2.deref
      (SharedPtr.MakeSharedOf State.init.heap m v).2.1 = some v ∧
    (State.init.run [.sMake, .wOfShared 0]).sp.map
      (SharedPtr.UseCount (State.init.run [.sMake, .wOfShared 0]).heap) = [1] ∧
    (State.init.run [.sMake, .wOfShared 0]).wp.map
      (WeakPtr.Expired (State.init.run [.sMake, .wOfShared 0]).heap) = [false] ∧
    (State.init.run [.sMake, .wOfShared 0, .sDestroy 0]).wp =
      [{ block_ := some 0, ptr_ := .obj 0 }] ∧
    WeakPtr.Expired (State.init.run [.sMake, .wOfShared 0, .sDestroy 0]).heap
      { block_ := some 0, ptr_ := .obj 0 } = true ∧
    SharedPtr.ofWeak (State.init.run [.sMake, .wOfShared 0, .sDestroy 0]).heap
        { block_ := some 0, ptr_ := .obj 0 } =
      ((State.init.run [.sMake, .wOfShared 0, .sDestroy 0]).heap, .error .mk) ∧
    WeakPtr.Lock (State.init.run [.sMake, .wOfShared 0, .sDestroy 0]).heap
        { block_ := some 0, ptr_ := .obj 0 } =
      ((State.init.run [.sMake, .wOfShared 0, .sDestroy 0]).heap, SharedPtr.empty) ∧
    (State.init.run [.sMake, .wOfShared 0, .sDestroy 0]).heap.map
      (fun c => (c.destroyed, c.freed)) = [(1, 0)] ∧
    (State.init.run [.sMake, .wOfShared 0, .sDestroy 0, .sPromote 0, .wLock 0,
      .wDestroy 0]).heap.map (fun c => (c.destroyed, c.freed)) = [(1, 1)] ∧
    (State.init.run [.sMake, .wOfShared 0, .sDestroy 0, .sPromote 0, .wLock 0,
      .wDestroy 0]).wp = [] := by
  refine ⟨rfl, rfl, ?_, by decide, by decide, by decide, by decide, rfl, rfl,
    by decide, by decide, by decide⟩
  simp [SharedPtr.deref, SharedPtr.MakeSharedOf, SharedPtr.MakeShared, State.init]

/-- The scenario of `SharedPtr.MakeShared_weak_scenario` for the value 42. -/
theorem SharedPtr.MakeShared_weak_scenario_witness :
    (SharedPtr.MakeSharedOf State.init.heap (fun _ => none) 42).2.2.deref
      (SharedPtr.MakeSharedOf State.init.heap (fun _ => none) 42).2.1 = some 42 :=
  (SharedPtr.MakeShared_weak_scenario 42 (fun _ => none)).2.2.1

/-! ## Safety of the counters in reachable states -/

/-- A released block has no references (a consequence of the block
invariant). -/
theorem BlockInv.no_refs_of_freed {E : Prop} {N ls lw : Nat} {c : ControlBlock}
    (hI : BlockInv E N ls lw c) (hf : 1 ≤ c.freed) : ls = 0 ∧ lw = 0 := by
  obtain ⟨h0, h1, h2, h3, h4, h5, h6, h7, h8, h9, h10, h11, h12⟩ := hI
  have hz := h12.1 (by omega)
  simp only [SIZE_MOD] at *
  omega

/-- For managed objects without smart-pointer members (the programs of
`State.run`): in every state reached by fewer than `2 ^ 64` public operations, a
block whose storage has been released is referenced by no live `SharedPtr` and
by no live `WeakPtr`; the block of every live pointer is in the heap and has
not been released. -/
theorem State.no_pointer_to_freed (ops : List Op) (hlen : ops.length < SIZE_MOD) :
    (∀ (b : Nat) (c : ControlBlock), (State.init.run ops).heap[b]? = some c →
      1 ≤ c.freed →
      (State.init.run ops).liveShared b = 0 ∧ (State.init.run ops).liveWeak b = 0) ∧
    (∀ (i : Nat) (p : SharedPtr) (b : Nat), (State.init.run ops).sp[i]? = some p →
      p.block_ = some b →
      ∃ c : ControlBlock, (State.init.run ops).heap[b]? = some c ∧ c.freed = 0) ∧
    (∀ (i : Nat) (w : WeakPtr) (b : Nat), (State.init.run ops).wp[i]? = some w →
      w.block_ = some b →
      ∃ c : ControlBlock, (State.init.run ops).heap[b]? = some c ∧ c.freed = 0) := by
  have hI := State.reachable_inv ops hlen
  refine ⟨fun b c hc hf => (hI.block b c hc).no_refs_of_freed hf, ?_, ?_⟩
  · intro i p b hp hb
    have h1 : 1 ≤ (State.init.run ops).liveShared b := SharedPtr.refCount_pos hp hb
    obtain ⟨c, hc⟩ := HeapInv.exists_block hI (Or.inl h1)
    refine ⟨c, hc, ?_⟩
    rcases Nat.eq_zero_or_pos c.freed with hz | hpos
    · exact hz
    · have := (hI.block b c hc).no_refs_of_freed hpos
      omega
  · intro i w b hw hb
    have h1 : 1 ≤ (State.init.run ops).liveWeak b := WeakPtr.weakRefCount_pos hw hb
    obtain ⟨c, hc⟩ := HeapInv.exists_block hI (Or.inr h1)
    refine ⟨c, hc, ?_⟩
    rcases Nat.eq_zero_or_pos c.freed with hz | hpos
    · exact hz
    · have := (hI.block b c hc).no_refs_of_freed hpos
      omega

/-- Witness for `State.no_pointer_to_freed`: a block is released by the
destructor of its last weak pointer, and nothing references it afterwards. -/
theorem State.no_pointer_to_freed_witness :
    (State.init.run [.sMake, .wOfShared 0, .sDestroy 0, .wDestroy 0]).heap.map
      ControlBlock.freed = [1] ∧
    (∀ (b : Nat) (c : ControlBlock),
      (State.init.run [.sMake, .wOfShared 0, .sDestroy 0, .wDestroy 0]).heap[b]? = some c →
      1 ≤ c.freed →
      (State.init.run [.sMake, .wOfShared 0, .sDestroy 0, .wDestroy 0]).liveShared b = 0 ∧
      (State.init.run [.sMake, .wOfShared 0, .sDestroy 0, .wDestroy 0]).liveWeak b = 0) :=
  ⟨by decide,
    (State.no_pointer_to_freed [.sMake, .wOfShared 0, .sDestroy 0, .wDestroy 0]
      (by decide)).1⟩

/-! ## The boolean conversion -/

theorem SharedPtr.copy_snd (h : Heap) (o : SharedPtr) : (SharedPtr.copy h o).2 = o := by
  unfold SharedPtr.copy
  cases hb : o.block_ <;> cases o <;> simp_all

theorem SharedPtr.copyAssign_snd (h : Heap) (a o : SharedPtr) :
    (SharedPtr.copyAssign h a o).2 = a ∨ (SharedPtr.copyAssign h a o).2 = o ∨
      (SharedPtr.copyAssign h a o).2 = { block_ := none, ptr_ := .null } := by
  unfold SharedPtr.copyAssign
  cases hb : o.block_ with
  | none => right; right; exact SharedPtr.Reset_snd h a
  | some b =>
    simp only
    split_ifs
    · right; left; cases o; simp_all
    · left; rfl

theorem SharedPtr.moveAssignConv_snd (h : Heap) (a o : SharedPtr) :
    ((SharedPtr.moveAssignConv h a o).2.1 = a ∨ (SharedPtr.moveAssignConv h a o).2.1 = o ∨
      (SharedPtr.moveAssignConv h a o).2.1 = { block_ := none, ptr_ := .null }) ∧
    ((SharedPtr.moveAssignConv h a o).2.2 = o ∨
      (SharedPtr.moveAssignConv h a o).2.2 = { block_ := none, ptr_ := .null }) := by
  unfold SharedPtr.moveAssignConv
  cases hb : o.block_ with
  | none => exact ⟨Or.inr (Or.inr (SharedPtr.Reset_snd h a)), Or.inl rfl⟩
  | some b =>
    simp only
    split_ifs
    · refine ⟨Or.inr (Or.inl ?_), Or.inr (SharedPtr.Reset_snd _ _)⟩
      cases o; simp_all
    · exact ⟨Or.inl rfl, Or.inl rfl⟩

theorem WeakPtr.copy_snd_fields (h : Heap) (o : WeakPtr) : (WeakPtr.copy h o).2 = o := by
  unfold WeakPtr.copy
  cases hb : o.block_ <;> cases o <;> simp_all

theorem WeakPtr.ofShared_snd (h : Heap) (o : SharedPtr) :
    (WeakPtr.ofShared h o).2 = { block_ := o.block_, ptr_ := o.ptr_ } := by
  unfold WeakPtr.ofShared
  cases hb : o.block_ <;> simp_all

theorem WeakPtr.Reset_snd_cases (h : Heap) (w : WeakPtr) :
    (w.Reset h).2 = w ∨ (w.Reset h).2 = { block_ := none, ptr_ := .null } := by
  unfold WeakPtr.Reset
  cases hb : w.block_ with
  | none => left; rfl
  | some b => right; rfl

theorem WeakPtr.copyAssign_snd_cases (h : Heap) (a o : WeakPtr) :
    (WeakPtr.copyAssign h a o).2 = a ∨ (WeakPtr.copyAssign h a o).2 = o ∨
      (WeakPtr.copyAssign h a o).2 = { block_ := none, ptr_ := .null } := by
  unfold WeakPtr.copyAssign
  cases hb : o.block_ with
  | none =>
    rcases WeakPtr.Reset_snd_cases h a with e | e
    · left; exact e
    · right; right; exact e
  | some b =>
    simp only
    split_ifs
    · right; left; cases o; simp_all
    · left; rfl

theorem SharedPtr.ofWeak_ok_fields (h : Heap) (w : WeakPtr) (p : SharedPtr)
    (hp : (SharedPtr.ofWeak h w).2 = .ok p) : p.block_ = w.block_ ∧ p.ptr_ = w.ptr_ := by
  cases he : w.Expired h with
  | true => simp [SharedPtr.ofWeak, he] at hp
  | false =>
    cases hb : w.block_ <;> simp [SharedPtr.ofWeak, he, hb] at hp <;> subst hp <;> simp

theorem WeakPtr.Lock_snd (h : Heap) (w : WeakPtr) :
    (w.Lock h).2 = { block_ := none, ptr_ := .null } ∨
      (w.Lock h).2 = { block_ := w.block_, ptr_ := w.ptr_ } := by
  unfold WeakPtr.Lock
  split_ifs
  · left; rfl
  · right; cases hb : w.block_ <;> simp

theorem List.forall_mem_push {α : Type} {P : α → Prop} {l : List α} {x : α}
    (hl : ∀ a ∈ l, P a) (hx : P x) : ∀ a ∈ l ++ [x], P a := by
  intro a ha
  rcases List.mem_append.1 ha with h | h
  · exact hl a h
  · rw [List.mem_singleton.1 h]; exact hx

theorem List.forall_mem_set_of {α : Type} {P : α → Prop} {l : List α} {x : α} (i : Nat)
    (hl : ∀ a ∈ l, P a) (hx : P x) : ∀ a ∈ l.set i x, P a := by
  intro a ha
  rcases List.mem_or_eq_of_mem_set ha with h | h
  · exact hl a h
  · rw [h]; exact hx

theorem List.forall_mem_eraseIdx_of {α : Type} {P : α → Prop} {l : List α} (i : Nat)
    (hl : ∀ a ∈ l, P a) : ∀ a ∈ l.eraseIdx i, P a :=
  fun a ha => hl a (List.mem_of_mem_eraseIdx ha)

theorem List.mem_of_getElem?_eq_some {α : Type} {l : List α} {i : Nat} {a : α}
    (h : l[i]? = some a) : a ∈ l := by
  obtain ⟨hi, he⟩ := List.getElem?_eq_some.1 h
  exact he ▸ List.getElem_mem hi

theorem SharedPtr.aliasing_snd (h : Heap) (other : SharedPtr) (ptr : Addr) :
    (SharedPtr.aliasing h other ptr).2 = { block_ := other.block_, ptr_ := ptr } := by
  unfold SharedPtr.aliasing
  cases hb : other.block_ <;> rfl

theorem State.plain_step (s : State) (o : Op) (ho : s.plainOp o = true) (hs : s.PlainPtrs) :
    (s.step o).PlainPtrs := by
  obtain ⟨hS, hW⟩ := hs
  have hE : ((SharedPtr.mk none Addr.null).block_ = none ↔
      (SharedPtr.mk none Addr.null).ptr_ = Addr.null) := by simp
  have hEw : ((WeakPtr.mk none Addr.null).block_ = none ↔
      (WeakPtr.mk none Addr.null).ptr_ = Addr.null) := by simp
  cases o with
  | sDefault => exact ⟨List.forall_mem_push hS hE, hW⟩
  | sFromRaw ptr =>
    have hp : ptr ≠ Addr.null := by simpa [State.plainOp] using ho
    refine ⟨List.forall_mem_push hS ?_, hW⟩
    simp [SharedPtr.fromRaw, hp]
  | sMake =>
    refine ⟨List.forall_mem_push hS ?_, hW⟩
    simp [SharedPtr.MakeShared]
  | sCopy j =>
    cases hj : s.sp[j]? with
    | none => simp only [State.step, hj]; exact ⟨hS, hW⟩
    | some other =>
      simp only [State.step, hj, SharedPtr.copy_snd]
      exact ⟨List.forall_mem_push hS (hS other (List.mem_of_getElem?_eq_some hj)), hW⟩
  | sMove j =>
    cases hj : s.sp[j]? with
    | none => simp only [State.step, hj]; exact ⟨hS, hW⟩
    | some other =>
      simp only [State.step, hj, SharedPtr.move]
      exact ⟨List.forall_mem_push (List.forall_mem_set_of j hS hE)
        (hS other (List.mem_of_getElem?_eq_some hj)), hW⟩
  | sAlias j ptr =>
    cases hj : s.sp[j]? with
    | none => simp only [State.step, hj]; exact ⟨hS, hW⟩
    | some other =>
      have hp : other.block_ = none ↔ ptr = Addr.null := by
        simpa [State.plainOp, hj] using ho
      simp only [State.step, hj, SharedPtr.aliasing_snd]
      exact ⟨List.forall_mem_push hS hp, hW⟩
  | sPromote k =>
    cases hk : s.wp[k]? with
    | none => simp only [State.step, hk]; exact ⟨hS, hW⟩
    | some other =>
      simp only [State.step, hk]
      cases hr : SharedPtr.ofWeak s.heap other with
      | mk h2 r =>
        cases r with
        | error e => exact ⟨hS, hW⟩
        | ok p =>
          have hf := SharedPtr.ofWeak_ok_fields s.heap other p (by rw [hr])
          have hq := hW other (List.mem_of_getElem?_eq_some hk)
          refine ⟨List.forall_mem_push hS ?_, hW⟩
          rw [hf.1, hf.2]; exact hq
  | sCopyAssign i j =>
    cases hi : s.sp[i]? with
    | none => simp only [State.step, hi]; exact ⟨hS, hW⟩
    | some self =>
      cases hj : s.sp[j]? with
      | none => simp only [State.step, hi, hj]; exact ⟨hS, hW⟩
      | some other =>
        simp only [State.step, hi, hj]
        refine ⟨List.forall_mem_set_of i hS ?_, hW⟩
        rcases SharedPtr.copyAssign_snd s.heap self other with e | e | e <;> rw [e]
        · exact hS self (List.mem_of_getElem?_eq_some hi)
        · exact hS other (List.mem_of_getElem?_eq_some hj)
        · exact hE
  | sMoveAssign i j =>
    cases hi : s.sp[i]? with
    | none => simp only [State.step, hi]; exact ⟨hS, hW⟩
    | some self =>
      cases hj : s.sp[j]? with
      | none => simp only [State.step, hi, hj]; exact ⟨hS, hW⟩
      | some other =>
        simp only [State.step, hi, hj, SharedPtr.moveAssign]
        exact ⟨List.forall_mem_set_of i
          (List.forall_mem_set_of j hS (hS self (List.mem_of_getElem?_eq_some hi)))
          (hS other (List.mem_of_getElem?_eq_some hj)), hW⟩
  | sMoveAssignConv i j =>
    cases hi : s.sp[i]? with
    | none => simp only [State.step, hi]; exact ⟨hS, hW⟩
    | some self =>
      cases hj : s.sp[j]? with
      | none => simp only [State.step, hi, hj]; exact ⟨hS, hW⟩
      | some other =>
        simp only [State.step, hi, hj]
        have hc := SharedPtr.moveAssignConv_snd s.heap self other
        have ha := hS self (List.mem_of_getElem?_eq_some hi)
        have hb := hS other (List.mem_of_getElem?_eq_some hj)
        refine ⟨List.forall_mem_set_of i (List.forall_mem_set_of j hS ?_) ?_, hW⟩
        · rcases hc.2 with e | e <;> rw [e]
          · exact hb
          · exact hE
        · rcases hc.1 with e | e | e <;> rw [e]
          · exact ha
          · exact hb
          · exact hE
  | sReset i =>
    cases hi : s.sp[i]? with
    | none => simp only [State.step, hi]; exact ⟨hS, hW⟩
    | some self =>
      simp only [State.step, hi, SharedPtr.Reset_snd]
      exact ⟨List.forall_mem_set_of i hS hE, hW⟩
  | sResetPtr i ptr =>
    cases hi : s.sp[i]? with
    | none => simp only [State.step, hi]; exact ⟨hS, hW⟩
    | some self =>
      have hp : ptr ≠ Addr.null := by simpa [State.plainOp, hi] using ho
      simp only [State.step, hi, SharedPtr.ResetPtr_eq]
      refine ⟨List.forall_mem_set_of i hS ?_, hW⟩
      simp [hp]
  | sSwap i j =>
    cases hi : s.sp[i]? with
    | none => simp only [State.step, hi]; exact ⟨hS, hW⟩
    | some self =>
      cases hj : s.sp[j]? with
      | none => simp only [State.step, hi, hj]; exact ⟨hS, hW⟩
      | some other =>
        simp only [State.step, hi, hj, SharedPtr.Swap]
        exact ⟨List.forall_mem_set_of i
          (List.forall_mem_set_of j hS (hS self (List.mem_of_getElem?_eq_some hi)))
          (hS other (List.mem_of_getElem?_eq_some hj)), hW⟩
  | sDestroy i =>
    cases hi : s.sp[i]? with
    | none => simp only [State.step, hi]; exact ⟨hS, hW⟩
    | some self =>
      simp only [State.step, hi]
      exact ⟨List.forall_mem_eraseIdx_of i hS, hW⟩
  | wDefault => exact ⟨hS, List.forall_mem_push hW hEw⟩
  | wCopy k =>
    cases hk : s.wp[k]? with
    | none => simp only [State.step, hk]; exact ⟨hS, hW⟩
    | some other =>
      simp only [State.step, hk, WeakPtr.copy_snd_fields]
      exact ⟨hS, List.forall_mem_push hW (hW other (List.mem_of_getElem?_eq_some hk))⟩
  | wMove k =>
    cases hk : s.wp[k]? with
    | none => simp only [State.step, hk]; exact ⟨hS, hW⟩
    | some other =>
      simp only [State.step, hk, WeakPtr.move]
      exact ⟨hS, List.forall_mem_push (List.forall_mem_set_of k hW hEw)
        (hW other (List.mem_of_getElem?_eq_some hk))⟩
  | wOfShared j =>
    cases hj : s.sp[j]? with
    | none => simp only [State.step, hj]; exact ⟨hS, hW⟩
    | some other =>
      simp only [State.step, hj, WeakPtr.ofShared_snd]
      exact ⟨hS, List.forall_mem_push hW (hS other (List.mem_of_getElem?_eq_some hj))⟩
  | wCopyAssign i k =>
    cases hi : s.wp[i]? with
    | none => simp only [State.step, hi]; exact ⟨hS, hW⟩
    | some self =>
      cases hk : s.wp[k]? with
      | none => simp only [State.step, hi, hk]; exact ⟨hS, hW⟩
      | some other =>
        simp only [State.step, hi, hk]
        refine ⟨hS, List.forall_mem_set_of i hW ?_⟩
        rcases WeakPtr.copyAssign_snd_cases s.heap self other with e | e | e <;> rw [e]
        · exact hW self (List.mem_of_getElem?_eq_some hi)
        · exact hW other (List.mem_of_getElem?_eq_some hk)
        · exact hEw
  | wMoveAssign i k =>
    cases hi : s.wp[i]? with
    | none => simp only [State.step, hi]; exact ⟨hS, hW⟩
    | some self =>
      cases hk : s.wp[k]? with
      | none => simp only [State.step, hi, hk]; exact ⟨hS, hW⟩
      | some other =>
        simp only [State.step, hi, hk, WeakPtr.moveAssign]
        exact ⟨hS, List.forall_mem_set_of i
          (List.forall_mem_set_of k hW (hW self (List.mem_of_getElem?_eq_some hi)))
          (hW other (List.mem_of_getElem?_eq_some hk))⟩
  | wReset i =>
    cases hi : s.wp[i]? with
    | none => simp only [State.step, hi]; exact ⟨hS, hW⟩
    | some self =>
      simp only [State.step, hi]
      refine ⟨hS, List.forall_mem_set_of i hW ?_⟩
      rcases WeakPtr.Reset_snd_cases s.heap self with e | e <;> rw [e]
      · exact hW self (List.mem_of_getElem?_eq_some hi)
      · exact hEw
  | wSwap i k =>
    cases hi : s.wp[i]? with
    | none => simp only [State.step, hi]; exact ⟨hS, hW⟩
    | some self =>
      cases hk : s.wp[k]? with
      | none => simp only [State.step, hi, hk]; exact ⟨hS, hW⟩
      | some other =>
        simp only [State.step, hi, hk, WeakPtr.Swap]
        exact ⟨hS, List.forall_mem_set_of i
          (List.forall_mem_set_of k hW (hW self (List.mem_of_getElem?_eq_some hi)))
          (hW other (List.mem_of_getElem?_eq_some hk))⟩
  | wDestroy i =>
    cases hi : s.wp[i]? with
    | none => simp only [State.step, hi]; exact ⟨hS, hW⟩
    | some self =>
      simp only [State.step, hi]
      exact ⟨hS, List.forall_mem_eraseIdx_of i hW⟩
  | wLock k =>
    cases hk : s.wp[k]? with
    | none => simp only [State.step, hk]; exact ⟨hS, hW⟩
    | some other =>
      simp only [State.step, hk]
      refine ⟨List.forall_mem_push hS ?_, hW⟩
      rcases WeakPtr.Lock_snd s.heap other with e | e <;> rw [e]
      · exact hE
      · exact hW other (List.mem_of_getElem?_eq_some hk)

theorem State.plain_run (s : State) (ops : List Op) (ho : s.plainRun ops = true)
    (hs : s.PlainPtrs) : (s.run ops).PlainPtrs := by
  induction ops generalizing s with
  | nil => exact hs
  | cons a t ih =>
    simp only [State.plainRun, Bool.and_eq_true] at ho
    exact ih (s.step a) ho.2 (State.plain_step s a ho.1 hs)

theorem State.run_append_list (s : State) (ops1 ops2 : List Op) :
    s.run (ops1 ++ ops2) = (s.run ops1).run ops2 := by
  induction ops1 generalizing s with
  | nil => rfl
  | cons a t ih => exact ih (s.step a)

/-- C24: the two classes are not equivalent. With `SharedPtr<T> e;
SharedPtr<T> a(e, q); a.Reset();` for a non-null `q`, the pointer `a` has no
block and the access pointer `q`; after `Reset()` the class of
`src/weak/shared.h` reports `Get() == nullptr`, the class of
`src/shared/shared.h` still reports `Get() == q`, its `Reset()` being a no-op
on a pointer without a block. Before the `Reset()` both classes agree on
`Get()`, after it they agree on `UseCount()`, and they agree on `Get()` after
the same program with a copy in place of the aliasing construction. -/
theorem SharedPtr.strongOnly_Reset_keeps_ptr :
    (State.init.run [.sDefault, .sAlias 0 (.raw 5)]).sp.map SharedPtr.Get =
      (StrongOnly.State.init.run [.sDefault, .sAlias 0 (.raw 5)]).sp.map SharedPtr.Get ∧
    (State.init.run [.sDefault, .sAlias 0 (.raw 5), .sReset 1]).sp.map SharedPtr.Get =
      [Addr.null, Addr.null] ∧
    (StrongOnly.State.init.run [.sDefault, .sAlias 0 (.raw 5), .sReset 1]).sp.map SharedPtr.Get =
      [Addr.null, Addr.raw 5] ∧
    (State.init.run [.sDefault, .sAlias 0 (.raw 5), .sReset 1]).sp.map
        (fun p => p.UseCount (State.init.run [.sDefault, .sAlias 0 (.raw 5), .sReset 1]).heap) =
      (StrongOnly.State.init.run [.sDefault, .sAlias 0 (.raw 5), .sReset 1]).sp.map
        (fun p => StrongOnly.UseCount
          (StrongOnly.State.init.run [.sDefault, .sAlias 0 (.raw 5), .sReset 1]).heap p) ∧
    (State.init.run [.sDefault, .sCopy 0, .sReset 1]).sp.map SharedPtr.Get =
      (StrongOnly.State.init.run [.sDefault, .sCopy 0, .sReset 1]).sp.map SharedPtr.Get := by
  refine ⟨by decide, by decide, by decide, by decide, by decide⟩

/-! ## Intrusive pointers: the reference counter and the destruction -/

namespace Intrusive

theorem Objects.objs_call_length (m : Objects) (b : Nat) (f : Counted → Counted) :
    (m.call b f).length = m.length := by
  unfold Objects.call
  cases m[b]? <;> simp

theorem Objects.callAt_length (m : Objects) (o : Option Nat) (f : Counted → Counted) :
    (m.callAt o f).length = m.length := by
  cases o <;> simp [Objects.callAt, Objects.objs_call_length]

theorem Objects.call_getElem? (m : Objects) (b x : Nat) (f : Counted → Counted) :
    (m.call b f)[x]? = if b = x then m[x]?.map f else m[x]? := by
  unfold Objects.call
  by_cases h : b = x
  · subst h
    cases hb : m[b]? with
    | none => simp [hb]
    | some c =>
      have hlt : b < m.length := (List.getElem?_eq_some.1 hb).1
      simp [List.getElem?_set, hlt]
  · cases hb : m[b]? with
    | none => simp [h]
    | some c => simp [h, List.getElem?_set]

theorem Objects.callAt_getElem? (m : Objects) (o : Option Nat) (x : Nat)
    (f : Counted → Counted) :
    (m.callAt o f)[x]? = if o = some x then m[x]?.map f else m[x]? := by
  cases o with
  | none => simp [Objects.callAt]
  | some b => simp [Objects.callAt, Objects.call_getElem?]

theorem Counted.DecRef_count (c : Counted) : c.DecRef.count_ = decSize c.count_ := by
  simp only [Counted.DecRef]
  split_ifs <;> rfl

theorem Counted.DecRef_destroyed (c : Counted) :
    c.DecRef.destroyed = c.destroyed + (if decSize c.count_ = 0 then 1 else 0) := by
  simp only [Counted.DecRef]
  split_ifs <;> rfl

theorem Counted.DecRef_spec (c : Counted) (h1 : 1 ≤ c.count_) (h2 : c.count_ < SIZE_MOD) :
    c.DecRef.count_ + 1 = c.count_ ∧
    c.DecRef.destroyed = c.destroyed + (if c.count_ = 1 then 1 else 0) := by
  have hd : decSize c.count_ = c.count_ - 1 := by
    unfold decSize
    simp only [SIZE_MOD] at *
    omega
  rw [Counted.DecRef_count, Counted.DecRef_destroyed, hd]
  clear h2
  constructor
  · omega
  · by_cases h : c.count_ = 1
    · have h3 : c.count_ - 1 = 0 := by omega
      rw [if_pos h, if_pos h3]
    · have h3 : ¬ (c.count_ - 1 = 0) := by omega
      rw [if_neg h, if_neg h3]

theorem Counted.IncRef_spec (c : Counted) (h : c.count_ + 1 < SIZE_MOD) :
    c.IncRef.count_ = c.count_ + 1 ∧ c.IncRef.destroyed = c.destroyed := by
  constructor
  · show incSize c.count_ = c.count_ + 1
    exact incSize_of_lt h
  · unfold Counted.IncRef
    exact Eq.refl _

/-- The objects after `DecRef` through `oa` and `IncRef` through `ob`, when the
number of live pointers changes accordingly. -/
theorem ObjsInv.update_objs {m : Objects} {L L2 : Nat → Nat} (oa ob : Option Nat)
    (hI : ObjsInv m L) (hne : oa = none ∨ oa ≠ ob)
    (hL : ∀ x, L2 x + refersTo oa x = L x + refersTo ob x)
    (hb : ∀ b, ob = some b → ∃ c : Counted, m[b]? = some c ∧ c.destroyed = 0)
    (hlt : ∀ x, L x + 1 < SIZE_MOD) :
    ObjsInv ((m.callAt oa Counted.DecRef).callAt ob Counted.IncRef) L2 ∧
    Objects.DestroyStep m ((m.callAt oa Counted.DecRef).callAt ob Counted.IncRef) := by
  have key : ∀ (x : Nat) (c : Counted), m[x]? = some c →
      ∃ d : Counted, ((m.callAt oa Counted.DecRef).callAt ob Counted.IncRef)[x]? = some d ∧
        ObjInv (L2 x) d ∧
        d.destroyed = c.destroyed + (if c.count_ = 1 ∧ d.count_ = 0 then 1 else 0) := by
    intro x c hc
    have hci := hI.1 x c hc
    have hLx := hL x
    have hltx := hlt x
    have hcnt := hci.count_eq
    have hdz := hci.destroyed_zero
    have hdl := hci.destroyed_le
    rw [Objects.callAt_getElem?, Objects.callAt_getElem?, hc]
    by_cases ha : oa = some x
    · have hbx : ob ≠ some x := by
        rcases hne with h | h
        · rw [ha] at h; cases h
        · intro e; exact h (ha.trans e.symm)
      have r1 : refersTo oa x = 1 := by rw [ha]; exact refersTo_self x
      have r2 : refersTo ob x = 0 := by simp [refersTo, hbx]
      have h1 : 1 ≤ c.count_ := by omega
      have hd0 : c.destroyed = 0 := by
        rcases Nat.eq_zero_or_pos c.destroyed with h | h
        · exact h
        · have := hdz h; omega
      obtain ⟨e1, e2⟩ := Counted.DecRef_spec c h1 (by omega)
      refine ⟨c.DecRef, by simp [ha, hbx], ⟨by omega, ?_, ?_⟩, ?_⟩
      · rw [e2, hd0]; split_ifs <;> omega
      · intro hd
        rw [e2, hd0] at hd
        split_ifs at hd <;> omega
      · rw [e2]
        by_cases h : c.count_ = 1
        · have h0 : c.DecRef.count_ = 0 := by omega
          simp [h, h0]
        · simp [h]
    · have r1 : refersTo oa x = 0 := by simp [refersTo, ha]
      by_cases hbx : ob = some x
      · have r2 : refersTo ob x = 1 := by rw [hbx]; exact refersTo_self x
        obtain ⟨c2, hc2, hd0⟩ := hb x hbx
        rw [hc] at hc2; cases hc2
        obtain ⟨e1, e2⟩ := Counted.IncRef_spec c (by omega)
        refine ⟨c.IncRef, by simp [ha, hbx], ⟨by omega, by omega, ?_⟩, ?_⟩
        · intro hd; omega
        · have h0 : c.IncRef.count_ ≠ 0 := by omega
          simp [h0, e2]
      · have r2 : refersTo ob x = 0 := by simp [refersTo, hbx]
        refine ⟨c, by simp [ha, hbx], ⟨by omega, hdl, hdz⟩, ?_⟩
        have h0 : ¬ (c.count_ = 1 ∧ c.count_ = 0) := by omega
        simp [h0]
  have hlen : ((m.callAt oa Counted.DecRef).callAt ob Counted.IncRef).length = m.length := by
    rw [Objects.callAt_length, Objects.callAt_length]
  refine ⟨⟨?_, ?_⟩, ?_, ?_⟩
  · intro x d hd
    have hx : x < m.length := by
      have := (List.getElem?_eq_some.1 hd).1
      omega
    obtain ⟨d2, hd2, hi2, _⟩ := key x (m[x]) (List.getElem?_eq_getElem hx)
    rw [hd] at hd2; cases hd2
    exact hi2
  · intro x hx
    rw [hlen] at hx
    have h0 := hI.2 x hx
    have hLx := hL x
    have r2 : refersTo ob x = 0 := by
      unfold refersTo
      split_ifs with h
      · obtain ⟨c, hc, _⟩ := hb x h
        have := (List.getElem?_eq_some.1 hc).1
        omega
      · rfl
    omega
  · intro x c hc
    obtain ⟨d, hd, _, he⟩ := key x c hc
    exact ⟨d, hd, he⟩
  · intro x d hx hd
    have := (List.getElem?_eq_some.1 hd).1
    omega

end Intrusive

namespace Intrusive

theorem ObjsInv.exists_of_pos {m : Objects} {L : Nat → Nat} (hI : ObjsInv m L) {b : Nat}
    (h : 1 ≤ L b) : ∃ c : Counted, m[b]? = some c ∧ c.destroyed = 0 := by
  have hlt : b < m.length := by
    by_contra hn
    have := hI.2 b (by omega)
    omega
  refine ⟨m[b], List.getElem?_eq_getElem hlt, ?_⟩
  have hi := hI.1 b m[b] (List.getElem?_eq_getElem hlt)
  rcases Nat.eq_zero_or_pos (m[b]).destroyed with h0 | h0
  · exact h0
  · have h1 := hi.destroyed_zero h0
    have h2 := hi.count_eq
    omega

theorem ObjsInv.push_new {m : Objects} {L : Nat → Nat} (hI : ObjsInv m L) :
    ObjsInv (m ++ [Counted.new]) L := by
  constructor
  · intro b c hc
    by_cases hlt : b < m.length
    · rw [List.getElem?_append_left hlt] at hc
      exact hI.1 b c hc
    · have hb : b = m.length := by
        have := (List.getElem?_eq_some.1 hc).1
        simp only [List.length_append, List.length_singleton] at this
        omega
      subst hb
      have hn : (m ++ [Counted.new])[m.length]? = some Counted.new := by simp
      rw [hn] at hc
      cases hc
      have h0 := hI.2 m.length (Nat.le_refl _)
      exact ⟨h0.symm, Nat.zero_le 1, fun _ => rfl⟩
  · intro b hb
    simp only [List.length_append, List.length_singleton] at hb
    exact hI.2 b (by omega)

theorem Objects.DestroyStep.of_push {m m2 : Objects}
    (h : Objects.DestroyStep (m ++ [Counted.new]) m2) : Objects.DestroyStep m m2 := by
  constructor
  · intro b c hc
    have hlt := (List.getElem?_eq_some.1 hc).1
    exact h.1 b c (by rw [List.getElem?_append_left hlt]; exact hc)
  · intro b d hb hd
    by_cases he : b = m.length
    · subst he
      obtain ⟨d2, hd2, e⟩ := h.1 m.length Counted.new (by simp)
      rw [hd] at hd2
      cases hd2
      have h0 : ¬ (Counted.new.count_ = 1 ∧ d.count_ = 0) := by
        intro hh
        have := hh.1
        simp [Counted.new] at this
      rw [if_neg h0] at e
      exact e
    · refine h.2 b d ?_ hd
      simp only [List.length_append, List.length_singleton]
      omega

theorem live_set_set {l : List IntrusivePtr} {i j : Nat} {a b a2 b2 : IntrusivePtr}
    (hi : l[i]? = some a) (hj : l[j]? = some b) (x k k2 : Nat)
    (hne : i ≠ j → refersTo a2.counted_ x + refersTo b2.counted_ x + k =
      refersTo a.counted_ x + refersTo b.counted_ x + k2)
    (heq : i = j → a = b → refersTo a2.counted_ x + k = refersTo a.counted_ x + k2) :
    ((l.set j b2).set i a2).countP (fun p => decide (p.counted_ = some x)) + k =
      l.countP (fun p => decide (p.counted_ = some x)) + k2 := by
  have h1 := countP_set_refers IntrusivePtr.counted_ x l j b b2 hj
  have hlt : i < l.length := (List.getElem?_eq_some.1 hi).1
  by_cases hij : i = j
  · subst hij
    have h2 : (l.set i b2)[i]? = some b2 := by simp [List.getElem?_set, hlt]
    have h3 := countP_set_refers IntrusivePtr.counted_ x (l.set i b2) i b2 a2 h2
    rw [hi] at hj
    cases hj
    have := heq rfl rfl
    omega
  · have h2 : (l.set j b2)[i]? = some a := by
      simp [List.getElem?_set, Ne.symm hij, hi]
    have h3 := countP_set_refers IntrusivePtr.counted_ x (l.set j b2) i a a2 h2
    have := hne hij
    omega

theorem IntrusivePtr.copy_eq (m : Objects) (other : IntrusivePtr) :
    IntrusivePtr.copy m other =
      (m.callAt other.counted_ Counted.IncRef, { counted_ := other.counted_ }) := by
  unfold IntrusivePtr.copy Objects.callAt
  cases other.counted_ <;> rfl

theorem IntrusivePtr.Reset_eq (m : Objects) (self : IntrusivePtr) :
    IntrusivePtr.Reset m self =
      (m.callAt self.counted_ Counted.DecRef, { counted_ := none }) := by
  obtain ⟨o⟩ := self
  unfold IntrusivePtr.Reset Objects.callAt
  cases o <;> rfl

theorem State.live_le (s : State) (x : Nat) : s.live x ≤ s.ip.length :=
  List.countP_le_length _

/-- The invariant after an operation that calls `DecRef` through `oa` and
`IncRef` through `ob`. -/
theorem State.Inv.update_state {N : Nat} {s s2 : State} (hI : s.Inv N) (hN : N + 1 < SIZE_MOD)
    (oa ob : Option Nat)
    (hobjs : s2.objs = (s.objs.callAt oa Counted.DecRef).callAt ob Counted.IncRef)
    (hlen : s2.ip.length ≤ N + 1) (hne : oa = none ∨ oa ≠ ob)
    (hL : ∀ x, s2.live x + refersTo oa x = s.live x + refersTo ob x)
    (hb : ∀ b, ob = some b → ∃ c : Counted, s.objs[b]? = some c ∧ c.destroyed = 0) :
    s2.Inv (N + 1) ∧ Objects.DestroyStep s.objs s2.objs := by
  have h := ObjsInv.update_objs oa ob hI.objs hne hL hb (fun x => by
    have h1 := s.live_le x
    have h2 := hI.len
    omega)
  rw [← hobjs] at h
  exact ⟨⟨hlen, h.1⟩, h.2⟩

theorem State.Inv.push_object {N : Nat} {s : State} (hI : s.Inv N) :
    (State.mk (s.objs ++ [Counted.new]) s.ip).Inv N :=
  ⟨hI.len, ObjsInv.push_new hI.objs⟩

theorem State.Inv.exists_of_getElem {N : Nat} {s : State} (hI : s.Inv N) {j : Nat}
    {p : IntrusivePtr} (hj : s.ip[j]? = some p) :
    ∀ b, p.counted_ = some b → ∃ c : Counted, s.objs[b]? = some c ∧ c.destroyed = 0 := by
  intro b hb
  exact hI.objs.exists_of_pos (countP_pos_of_getElem IntrusivePtr.counted_ b s.ip j p hj hb)

end Intrusive

namespace Intrusive

theorem Objects.callAt_none (m : Objects) (f : Counted → Counted) : m.callAt none f = m :=
  rfl

/-- Every defined operation keeps the invariant, and destroys an object
exactly when it takes the object's counter from 1 to 0. -/
theorem State.step_inv {N : Nat} {s : State} (hI : s.Inv N) (hN : N + 1 < SIZE_MOD) (o : Op)
    (hp : s.pre o = true) :
    (s.step o).Inv (N + 1) ∧ Objects.DestroyStep s.objs (s.step o).objs := by
  have hl := hI.len
  have hsame : s.Inv (N + 1) ∧ Objects.DestroyStep s.objs s.objs :=
    hI.update_state hN none none rfl (by omega) (Or.inl rfl) (fun x => rfl)
      (fun b hb => by cases hb)
  cases o with
  | oNew =>
    have h2 : (s.step .oNew).Inv (N + 1) ∧
        Objects.DestroyStep (s.objs ++ [Counted.new]) (s.step .oNew).objs :=
      State.Inv.update_state hI.push_object hN none none rfl
      (by simp only [State.step]; omega) (Or.inl rfl) (fun x => rfl) (fun b hb => by cases hb)
    exact ⟨h2.1, h2.2.of_push⟩
  | pDefault =>
    refine hI.update_state hN none none rfl ?_ (Or.inl rfl) ?_ (fun b hb => by cases hb)
    · simp only [State.step, List.length_append, List.length_singleton]; omega
    · intro x
      simp only [State.step, State.live]
      rw [countP_push_refers IntrusivePtr.counted_ x]
      rfl
  | pFromRaw b =>
    refine hI.update_state hN none (some b) rfl ?_ (Or.inl rfl) ?_ ?_
    · simp only [State.step, List.length_append, List.length_singleton]; omega
    · intro x
      simp only [State.step, State.live, IntrusivePtr.fromRaw]
      rw [countP_push_refers IntrusivePtr.counted_ x]
      simp [refersTo]
    · intro b2 hb2
      cases hb2
      simp only [State.pre] at hp
      cases hc : s.objs[b]? with
      | none => simp [hc] at hp
      | some c =>
        simp only [hc, decide_eq_true_eq] at hp
        exact ⟨c, rfl, hp⟩
  | pMake =>
    have h2 : (s.step .pMake).Inv (N + 1) ∧
        Objects.DestroyStep (s.objs ++ [Counted.new]) (s.step .pMake).objs :=
      State.Inv.update_state hI.push_object hN none (some s.objs.length) rfl
      (by simp only [State.step, List.length_append, List.length_singleton]; omega)
      (Or.inl rfl)
      (fun x => by
        simp only [State.step, State.live, MakeIntrusive, IntrusivePtr.fromRaw]
        rw [countP_push_refers IntrusivePtr.counted_ x]
        simp [refersTo])
      (fun b hb => by
        cases hb
        exact ⟨Counted.new, by simp, rfl⟩)
    exact ⟨h2.1, h2.2.of_push⟩
  | pCopy j =>
    cases hj : s.ip[j]? with
    | none => simpa only [State.step, hj] using hsame
    | some other =>
      refine hI.update_state hN none other.counted_ ?_ ?_ (Or.inl rfl) ?_ (hI.exists_of_getElem hj)
      · simp only [State.step, hj, IntrusivePtr.copy_eq]
        rfl
      · simp only [State.step, hj, List.length_append, List.length_singleton]; omega
      · intro x
        simp only [State.step, hj, State.live, IntrusivePtr.copy_eq]
        rw [countP_push_refers IntrusivePtr.counted_ x]
        simp [refersTo]
  | pMove j =>
    cases hj : s.ip[j]? with
    | none => simpa only [State.step, hj] using hsame
    | some other =>
      refine hI.update_state hN none none ?_ ?_ (Or.inl rfl) ?_ (fun b hb => by cases hb)
      · simp only [State.step, hj]
        rfl
      · simp only [State.step, hj, List.length_append, List.length_singleton, List.length_set]
        omega
      · intro x
        simp only [State.step, hj, State.live, IntrusivePtr.move]
        rw [countP_push_refers IntrusivePtr.counted_ x]
        have h1 := countP_set_refers IntrusivePtr.counted_ x s.ip j other
          { counted_ := none } hj
        simp only [refersTo_none] at h1 ⊢
        omega
  | pCopyAssign i j =>
    cases hi : s.ip[i]? with
    | none => simpa only [State.step, hi] using hsame
    | some self =>
      cases hj : s.ip[j]? with
      | none => simpa only [State.step, hi, hj] using hsame
      | some other =>
        by_cases hd : self.counted_ ≠ other.counted_
        · refine hI.update_state hN self.counted_ other.counted_ ?_ ?_ (Or.inr hd) ?_
            (hI.exists_of_getElem hj)
          · simp only [State.step, hi, hj, IntrusivePtr.copyAssign, if_pos hd,
              IntrusivePtr.Reset_eq]
          · simp only [State.step, hi, hj, List.length_set]; omega
          · intro x
            simp only [State.step, hi, hj, State.live, IntrusivePtr.copyAssign, if_pos hd]
            exact countP_set_refers IntrusivePtr.counted_ x s.ip i self
              { counted_ := other.counted_ } hi
        · refine hI.update_state hN none none ?_ ?_ (Or.inl rfl) ?_ (fun b hb => by cases hb)
          · simp only [State.step, hi, hj, IntrusivePtr.copyAssign, if_neg hd]
            rfl
          · simp only [State.step, hi, hj, List.length_set]; omega
          · intro x
            simp only [State.step, hi, hj, State.live, IntrusivePtr.copyAssign, if_neg hd]
            have h1 := countP_set_refers IntrusivePtr.counted_ x s.ip i self self hi
            omega
  | pMoveAssign i j =>
    cases hi : s.ip[i]? with
    | none => simpa only [State.step, hi] using hsame
    | some self =>
      cases hj : s.ip[j]? with
      | none => simpa only [State.step, hi, hj] using hsame
      | some other =>
        by_cases hd : self.counted_ ≠ other.counted_
        · have hne : self.counted_ = none ∨ self.counted_ ≠ none := by
            cases self.counted_ with
            | none => exact Or.inl rfl
            | some a => exact Or.inr (by simp)
          refine hI.update_state hN self.counted_ none ?_ ?_ hne ?_ (fun b hb => by cases hb)
          · rw [Objects.callAt_none]
            simp only [State.step, hi, hj, IntrusivePtr.moveAssign, if_pos hd,
              IntrusivePtr.Reset_eq]
          · simp only [State.step, hi, hj, List.length_set]; omega
          · intro x
            simp only [State.step, hi, hj, State.live, IntrusivePtr.moveAssign, if_pos hd]
            have h1 := @live_set_set s.ip i j self other { counted_ := other.counted_ }
              { counted_ := none } hi hj x (refersTo self.counted_ x) 0
              (fun _ => by simp only [refersTo_none]; omega)
              (fun _ e => absurd (congrArg IntrusivePtr.counted_ e) hd)
            simp only [refersTo_none]
            omega
        · refine hI.update_state hN none none ?_ ?_ (Or.inl rfl) ?_ (fun b hb => by cases hb)
          · simp only [State.step, hi, hj, IntrusivePtr.moveAssign, if_neg hd]
            rfl
          · simp only [State.step, hi, hj, List.length_set]; omega
          · intro x
            simp only [State.step, hi, hj, State.live, IntrusivePtr.moveAssign, if_neg hd]
            have h1 := @live_set_set s.ip i j self other self other hi hj x 0 0
              (fun _ => rfl) (fun _ _ => rfl)
            omega
  | pReset i =>
    cases hi : s.ip[i]? with
    | none => simpa only [State.step, hi] using hsame
    | some self =>
      have hne : self.counted_ = none ∨ self.counted_ ≠ none := by
        cases self.counted_ with
        | none => exact Or.inl rfl
        | some a => exact Or.inr (by simp)
      refine hI.update_state hN self.counted_ none ?_ ?_ hne ?_ (fun b hb => by cases hb)
      · rw [Objects.callAt_none]
        simp only [State.step, hi, IntrusivePtr.Reset_eq]
      · simp only [State.step, hi, List.length_set]; omega
      · intro x
        simp only [State.step, hi, State.live, IntrusivePtr.Reset_eq]
        exact countP_set_refers IntrusivePtr.counted_ x s.ip i self { counted_ := none } hi
  | pSwap i j =>
    cases hi : s.ip[i]? with
    | none => simpa only [State.step, hi] using hsame
    | some self =>
      cases hj : s.ip[j]? with
      | none => simpa only [State.step, hi, hj] using hsame
      | some other =>
        refine hI.update_state hN none none ?_ ?_ (Or.inl rfl) ?_ (fun b hb => by cases hb)
        · simp only [State.step, hi, hj]
          rfl
        · simp only [State.step, hi, hj, List.length_set]; omega
        · intro x
          simp only [State.step, hi, hj, State.live, IntrusivePtr.Swap]
          have h1 := @live_set_set s.ip i j self other { counted_ := other.counted_ }
            { counted_ := self.counted_ } hi hj x 0 0
            (fun _ => by
              show refersTo other.counted_ x + refersTo self.counted_ x + 0 =
                refersTo self.counted_ x + refersTo other.counted_ x + 0
              omega)
            (fun _ e => by rw [e])
          omega
  | pDestroy i =>
    cases hi : s.ip[i]? with
    | none => simpa only [State.step, hi] using hsame
    | some self =>
      have hne : self.counted_ = none ∨ self.counted_ ≠ none := by
        cases self.counted_ with
        | none => exact Or.inl rfl
        | some a => exact Or.inr (by simp)
      refine hI.update_state hN self.counted_ none ?_ ?_ hne ?_ (fun b hb => by cases hb)
      · rw [Objects.callAt_none]
        simp only [State.step, hi, IntrusivePtr.Reset_eq]
      · simp only [State.step, hi, List.length_eraseIdx]
        split_ifs <;> omega
      · intro x
        simp only [State.step, hi, State.live]
        have h1 := countP_eraseIdx_refers IntrusivePtr.counted_ x s.ip i self hi
        simp only [refersTo_none]
        omega

end Intrusive

namespace Intrusive

theorem State.intr_init_inv : State.init.Inv 0 :=
  ⟨Nat.le_refl _, ⟨fun b c hc => by simp [State.init] at hc, fun _ _ => rfl⟩⟩

theorem State.intr_run_inv : ∀ (ops : List Op) {N : Nat} {s : State}, s.Inv N →
    N + ops.length < SIZE_MOD → s.valid ops = true → (s.run ops).Inv (N + ops.length)
  | [], _, _, hI, _, _ => hI
  | o :: os, N, s, hI, hN, hv => by
    simp only [State.valid, Bool.and_eq_true] at hv
    simp only [List.length_cons] at hN
    have h1 := (State.step_inv hI (by omega) o hv.1).1
    have h2 := State.intr_run_inv os h1 (by omega) hv.2
    have e : N + (os.length + 1) = N + 1 + os.length := by omega
    simp only [State.run, List.length_cons]
    rw [e]
    exact h2

/-- The invariant holds in every state reached by a defined program of fewer
than `2 ^ 64` operations. -/
theorem State.intr_reachable_inv (ops : List Op) (hlen : ops.length < SIZE_MOD)
    (hv : State.init.valid ops = true) : (State.init.run ops).Inv ops.length := by
  have h := State.intr_run_inv ops State.intr_init_inv (by omega) hv
  rw [Nat.zero_add] at h
  exact h

theorem Objects.RefCount_of_some {m : Objects} {b : Nat} {c : Counted} (h : m[b]? = some c) :
    m.RefCount b = c.count_ := by
  simp only [Objects.RefCount, h, Counted.RefCount]

/-- For a non-empty `p` and a raw pointer `q` to another object, `p.Reset(q)`
makes `p` hold `q`, adds one to the counter of `q` and takes one from the
counter of the object held before. -/
theorem IntrusivePtr.ResetPtr_nonempty (m : Objects) (self : IntrusivePtr) (a q : Nat)
    (ca cq : Counted) (hs : self.counted_ = some a) (hne : q ≠ a) (ha : m[a]? = some ca)
    (hq : m[q]? = some cq) (h1 : 1 ≤ ca.count_) (h2 : ca.count_ < SIZE_MOD)
    (h3 : cq.count_ + 1 < SIZE_MOD) :
    (IntrusivePtr.ResetPtr m self (some q)).2.Get = some q ∧
    (IntrusivePtr.ResetPtr m self (some q)).1.RefCount q = cq.count_ + 1 ∧
    (IntrusivePtr.ResetPtr m self (some q)).1.RefCount a + 1 = ca.count_ := by
  have e : IntrusivePtr.ResetPtr m self (some q) =
      ((m.call a Counted.DecRef).call q Counted.IncRef, { counted_ := some q }) := by
    simp only [IntrusivePtr.ResetPtr, hs, Objects.callAt]
  have e1 : (m.call a Counted.DecRef)[q]? = some cq := by
    rw [Objects.call_getElem?, if_neg (Ne.symm hne)]
    exact hq
  have e2 : ((m.call a Counted.DecRef).call q Counted.IncRef)[q]? = some cq.IncRef := by
    rw [Objects.call_getElem?, if_pos rfl, e1, Option.map_some']
  have e3 : (m.call a Counted.DecRef)[a]? = some ca.DecRef := by
    rw [Objects.call_getElem?, if_pos rfl, ha, Option.map_some']
  have e4 : ((m.call a Counted.DecRef).call q Counted.IncRef)[a]? = some ca.DecRef := by
    rw [Objects.call_getElem?, if_neg hne, e3]
  rw [e]
  refine ⟨rfl, ?_, ?_⟩
  · rw [Objects.RefCount_of_some e2]
    exact (Counted.IncRef_spec cq h3).1
  · rw [Objects.RefCount_of_some e4]
    exact (Counted.DecRef_spec ca h1 h2).1

/-! ### Reference counts, destruction and `Reset(T*)` -/

/-- Without copy construction of a ref-counted object (`MakeIntrusiveCopy`):
in every state reached by a defined program of fewer than `2 ^ 64`
operations on `IntrusivePtr`s (`new`, construction from a raw pointer to a
live object, `MakeIntrusive`, copy and move construction, copy and move
assignment, `Reset()`, `Swap`, destruction), `RefCount()` of every object is
the number of live `IntrusivePtr` objects that hold it, `UseCount()` of a
pointer is that number for its object and 0 for an empty pointer, and the
object of a live pointer has not been destroyed; every object has been
destroyed through the `Deleter` at most once, and in the operation executed
next it is destroyed (once) exactly when the operation takes its counter from
1 to 0; an object created by the operation is not destroyed. -/
theorem State.refCount_eq_live (ops : List Op) (o : Op) (hv : State.init.valid ops = true)
    (hp : (State.init.run ops).pre o = true) (hlen : ops.length + 1 < SIZE_MOD) :
    (∀ (b : Nat) (c : Counted), (State.init.run ops).objs[b]? = some c →
      c.RefCount = (State.init.run ops).live b ∧ c.destroyed ≤ 1 ∧
      (1 ≤ c.destroyed → (State.init.run ops).live b = 0)) ∧
    (∀ (i : Nat) (p : IntrusivePtr), (State.init.run ops).ip[i]? = some p →
      (p.UseCount (State.init.run ops).objs =
        match p.counted_ with
        | none => 0
        | some b => (State.init.run ops).live b) ∧
      (∀ b : Nat, p.counted_ = some b →
        ∃ c : Counted, (State.init.run ops).objs[b]? = some c ∧ c.destroyed = 0)) ∧
    (∀ (b : Nat) (c : Counted), (State.init.run ops).objs[b]? = some c →
      ∃ d : Counted, ((State.init.run ops).step o).objs[b]? = some d ∧ d.destroyed ≤ 1 ∧
        d.destroyed = c.destroyed + (if c.RefCount = 1 ∧ d.RefCount = 0 then 1 else 0)) ∧
    (∀ (b : Nat) (d : Counted), (State.init.run ops).objs[b]? = none →
      ((State.init.run ops).step o).objs[b]? = some d → d.destroyed = 0) := by
  have hI := State.intr_reachable_inv ops (by omega) hv
  have hG := State.step_inv hI hlen o hp
  refine ⟨?_, ?_, ?_, ?_⟩
  · intro b c hc
    have h := hI.objs.1 b c hc
    refine ⟨h.count_eq, h.destroyed_le, fun hd => ?_⟩
    rw [← h.count_eq]
    exact h.destroyed_zero hd
  · intro i p hi
    refine ⟨?_, hI.exists_of_getElem hi⟩
    cases hb : p.counted_ with
    | none => simp only [IntrusivePtr.UseCount, hb]
    | some b =>
      obtain ⟨c, hc, _⟩ := hI.exists_of_getElem hi b hb
      simp only [IntrusivePtr.UseCount, hb, Objects.RefCount, hc]
      exact (hI.objs.1 b c hc).count_eq
  · intro b c hc
    obtain ⟨d, hd, he⟩ := hG.2.1 b c hc
    exact ⟨d, hd, (hG.1.objs.1 b d hd).destroyed_le, he⟩
  · intro b d hn hd
    exact hG.2.2 b d (List.getElem?_eq_none_iff.1 hn) hd

/-- Witness for `State.refCount_eq_live`: an object made by `MakeIntrusive`,
copied once; after one pointer is destroyed the counter is 1, and destroying
the other pointer destroys the object. -/
theorem State.refCount_eq_live_witness :
    (State.init.run [.pMake, .pCopy 0, .pDestroy 0]).objs.map
      (fun c => (c.count_, c.destroyed)) = [(1, 0)] ∧
    ((State.init.run [.pMake, .pCopy 0, .pDestroy 0]).step (.pDestroy 0)).objs.map
      (fun c => (c.count_, c.destroyed)) = [(0, 1)] ∧
    (∀ (b : Nat) (c : Counted),
      (State.init.run [.pMake, .pCopy 0, .pDestroy 0]).objs[b]? = some c →
      c.RefCount = (State.init.run [.pMake, .pCopy 0, .pDestroy 0]).live b ∧ c.destroyed ≤ 1 ∧
      (1 ≤ c.destroyed → (State.init.run [.pMake, .pCopy 0, .pDestroy 0]).live b = 0)) :=
  ⟨by decide, by decide,
    (State.refCount_eq_live [.pMake, .pCopy 0, .pDestroy 0] (.pDestroy 0) (by decide)
      (by decide) (by decide)).1⟩

/-- C26: for an empty `p`, `p.Reset(q)` changes nothing: `p.Get()` is
still null and the counter of `q` is what it was (here: `q` is a new object
with counter 0). For a non-empty `p` the same call makes `p` hold `q` with
counter 1 and releases the object held before. -/
theorem IntrusivePtr.ResetPtr_empty_does_nothing :
    (∀ (m : Objects) (q : Option Nat),
      IntrusivePtr.ResetPtr m IntrusivePtr.empty q = (m, IntrusivePtr.empty)) ∧
    (IntrusivePtr.ResetPtr [Counted.new] IntrusivePtr.empty (some 0)).2.Get = none ∧
    (IntrusivePtr.ResetPtr [Counted.new] IntrusivePtr.empty (some 0)).1.RefCount 0 = 0 ∧
    (IntrusivePtr.ResetPtr (MakeIntrusive []).1 (MakeIntrusive []).2 none).2.Get = none ∧
    (IntrusivePtr.ResetPtr ((MakeIntrusive []).1 ++ [Counted.new]) (MakeIntrusive []).2
        (some 1)).2.Get = some 1 ∧
    (IntrusivePtr.ResetPtr ((MakeIntrusive []).1 ++ [Counted.new]) (MakeIntrusive []).2
        (some 1)).1.map (fun c => (c.count_, c.destroyed)) = [(0, 1), (1, 0)] :=
  ⟨fun _ _ => rfl, by decide, by decide, by decide, by decide, by decide⟩

end Intrusive

/-- Without a weak copy assignment in the program (fewer than `2 ^ 64`
operations), the weak counter of every block is the number of live `WeakPtr`
objects that reference it, so the next increment does not wrap. -/
theorem State.weak_counter_eq_liveWeak (ops : List Op) (he : ∀ o ∈ ops, o.exact = true)
    (hlen : ops.length + 1 < SIZE_MOD) (b : Nat) (c : ControlBlock)
    (hc : (State.init.run ops).heap[b]? = some c) :
    c.weak_counter = (State.init.run ops).liveWeak b ∧ c.weak_counter + 1 < SIZE_MOD := by
  have hI := State.reachable_inv ops (by omega)
  have hB := hI.block b c hc
  have h1 := hB.exact_s he
  have h2 := hB.sum_mod
  have h3 := hB.weak_lt
  have h4 := hB.lw_le
  rw [h1] at h2
  simp only [SIZE_MOD] at *
  omega

/-! ## Managed objects that own smart pointers: re-entrant destruction -/

/-- C4: after `a = MakeShared<N>(); a->self = WeakPtr<N>(a); a.Reset();` with
`struct N { WeakPtr<N> self; }` the storage of the block has been released
twice: by `delete block_` in the `WeakPtr::Reset()` that `~N()` runs on `self`,
and by `delete this` in `ControlBlockObj::DecSharedCnt`, which tests
`weak_counter` after `~N()` returned. Both happen in the one `Reset()`. -/
theorem Owning.block_freed_twice :
    (Owning.State.init.run 20 [.sMake [.weak], .wOfShared (.var 0),
      .wMoveAssign (.field 0 0) (.var 0), .wDestroy 0]).map
        (fun s => s.heap.map (fun c => c.block.freed)) = some [0] ∧
    (Owning.State.init.run 20 [.sMake [.weak], .wOfShared (.var 0),
      .wMoveAssign (.field 0 0) (.var 0), .wDestroy 0, .sReset (.var 0)]).map
        (fun s => s.heap.map (fun c => c.block.freed)) = some [2] := by
  refine ⟨by decide, by decide⟩

/-- C5: after `a = SharedPtr<N>(new N); a->self = WeakPtr<N>(a); a.Reset();`
with `struct N { WeakPtr<N> self; }` the managed object has been destroyed
twice in the one `Reset()`: `ControlBlockPtr::DecSharedCnt` runs `delete ptr`,
`~N()` releases `self`, whose `Reset()` deletes the block, and
`~ControlBlockPtr` finds `ptr` still non-null and runs `delete ptr` again. -/
theorem Owning.object_destroyed_twice :
    (Owning.State.init.run 20 [.sFromRaw (.raw 1) [.weak], .wOfShared (.var 0),
      .wMoveAssign (.field 0 0) (.var 0), .wDestroy 0]).map
        (fun s => s.heap.map (fun c => (c.block.shared_counter, c.block.destroyed))) =
      some [(1, 0)] ∧
    (Owning.State.init.run 20 [.sFromRaw (.raw 1) [.weak], .wOfShared (.var 0),
      .wMoveAssign (.field 0 0) (.var 0), .wDestroy 0, .sReset (.var 0)]).map
        (fun s => s.heap.map (fun c => (c.block.shared_counter, c.block.destroyed))) =
      some [(0, 2)] := by
  refine ⟨by decide, by decide⟩

/-- C23: in `a.Reset()` after `a = MakeShared<N>(); a->self = WeakPtr<N>(a);`
the storage of the block is released while `a` still holds it: when `~N()`
returns into `ControlBlockObj::DecSharedCnt`, the block has been freed and
`a.block_` is still the block; `DecSharedCnt` then reads `weak_counter` of the
freed block and deletes it, two accesses to released storage. -/
theorem Owning.access_to_freed_block :
    ((Owning.State.init.run 20 [.sMake [.weak], .wOfShared (.var 0),
      .wMoveAssign (.field 0 0) (.var 0), .wDestroy 0]).bind
        (fun s => Owning.exec 20 (.dtorObject 0)
          (s.call (some 0) (fun c => { c with shared_counter := decSize c.shared_counter })))).map
        (fun s => (s.heap.map (fun c => c.block.freed), s.sp.map (fun p => p.block_), s.ub)) =
      some ([1], [some 0], 0) ∧
    (Owning.State.init.run 20 [.sMake [.weak], .wOfShared (.var 0),
      .wMoveAssign (.field 0 0) (.var 0), .wDestroy 0, .sReset (.var 0)]).map
        (fun s => (s.heap.map (fun c => c.block.freed), s.sp.map (fun p => p.block_), s.ub)) =
      some ([2], [none], 2) := by
  refine ⟨by decide, by decide⟩

/-- C1: `struct L { SharedPtr<L> next; }; cur = MakeShared<L>(); n =
MakeShared<L>(); cur->next = n; destroy n; cur = cur->next;` (no `WeakPtr`).
Before the last assignment `cur` and `cur->next` are the only pointers to their
blocks, both with `UseCount() == 1`, and nothing undefined has happened. The
assignment runs `Reset()` on `cur`, which destroys the first object and with it
its member `next`, the operand of the assignment, and the second object; the
operator then reads the destroyed operand and calls `IncSharedCnt` through the
null `block_` it finds there. Both objects are destroyed and `cur` is empty. -/
theorem Owning.copyAssign_reads_destroyed_operand :
    (Owning.State.init.run 20 [.sMake [.strong], .sMake [.strong],
      .sCopyAssign (.field 0 0) (.var 1), .sDestroy 1]).map
        (fun s => (s.heap.map Owning.Cell.view, s.sp, s.getS (.field 0 0), s.ub)) =
      some ([(1, 0, 0, 0), (1, 0, 0, 0)], [{ block_ := some 0, ptr_ := .obj 0 }],
        some { block_ := some 1, ptr_ := .obj 1 }, 0) ∧
    (Owning.State.init.run 20 [.sMake [.strong], .sMake [.strong],
      .sCopyAssign (.field 0 0) (.var 1), .sDestroy 1,
      .sCopyAssign (.var 0) (.field 0 0)]).map
        (fun s => (s.heap.map Owning.Cell.view, s.sp, s.getS (.field 0 0), s.ub)) =
      some ([(0, 0, 1, 1), (0, 0, 1, 1)], [{ block_ := none, ptr_ := .null }],
        some { block_ := none, ptr_ := .null }, 1) := by
  refine ⟨by decide, by decide⟩

/-- C14: `A = MakeShared(); W0 = WeakPtr(A); W1 = WeakPtr(); W1 = W0; destroy
W0; destroy W1`. The weak copy assignment counted `W1` in the strong counter,
so the two destructors take the weak counter from 1 to `2 ^ 64 - 1`, with `A`
alive. The construction `WeakPtr(A)` in this state shares block and access
pointer, leaves the strong counter as it is and takes the weak counter to 0,
not up by one. -/
theorem State.weak_construct_wraps :
    (State.init.run [.sMake, .wOfShared 0, .wDefault, .wCopyAssign 1 0, .wDestroy 0,
      .wDestroy 0]).heap.map (fun c => (c.shared_counter, c.weak_counter, c.freed)) =
      [(2, 18446744073709551615, 0)] ∧
    (State.init.run [.sMake, .wOfShared 0, .wDefault, .wCopyAssign 1 0, .wDestroy 0,
      .wDestroy 0]).sp = [{ block_ := some 0, ptr_ := .obj 0 }] ∧
    ((State.init.run [.sMake, .wOfShared 0, .wDefault, .wCopyAssign 1 0, .wDestroy 0,
      .wDestroy 0]).step (.wOfShared 0)).heap.map
        (fun c => (c.shared_counter, c.weak_counter, c.freed)) = [(2, 0, 0)] ∧
    ((State.init.run [.sMake, .wOfShared 0, .wDefault, .wCopyAssign 1 0, .wDestroy 0,
      .wDestroy 0]).step (.wOfShared 0)).wp = [{ block_ := some 0, ptr_ := .obj 0 }] := by
  refine ⟨by decide, by decide, by decide, by decide⟩

/-- C25: `a = MakeIntrusive<T>(); b = MakeIntrusive<T>(*a);` for a `T` with the
implicit copy constructor. The new object starts with the counter of `*a`, so
`b.UseCount()` is 2 with one live `IntrusivePtr` on the object; when `b` is
destroyed the counter is 1, no pointer holds the object and it is not
destroyed. -/
theorem Intrusive.MakeIntrusiveCopy_copies_count :
    (Intrusive.MakeIntrusiveCopy (Intrusive.MakeIntrusive []).1 0).1.map
      (fun c => (c.count_, c.destroyed)) = [(1, 0), (2, 0)] ∧
    (Intrusive.MakeIntrusiveCopy (Intrusive.MakeIntrusive []).1 0).2.UseCount
      (Intrusive.MakeIntrusiveCopy (Intrusive.MakeIntrusive []).1 0).1 = 2 ∧
    (Intrusive.State.mk (Intrusive.MakeIntrusiveCopy (Intrusive.MakeIntrusive []).1 0).1
      [(Intrusive.MakeIntrusive []).2,
        (Intrusive.MakeIntrusiveCopy (Intrusive.MakeIntrusive []).1 0).2]).live 1 = 1 ∧
    ((Intrusive.State.mk (Intrusive.MakeIntrusiveCopy (Intrusive.MakeIntrusive []).1 0).1
      [(Intrusive.MakeIntrusive []).2,
        (Intrusive.MakeIntrusiveCopy (Intrusive.MakeIntrusive []).1 0).2]).step
          (.pDestroy 1)).objs.map (fun c => (c.count_, c.destroyed)) = [(1, 0), (1, 0)] ∧
    ((Intrusive.State.mk (Intrusive.MakeIntrusiveCopy (Intrusive.MakeIntrusive []).1 0).1
      [(Intrusive.MakeIntrusive []).2,
        (Intrusive.MakeIntrusiveCopy (Intrusive.MakeIntrusive []).1 0).2]).step
          (.pDestroy 1)).live 1 = 0 := by
  refine ⟨by decide, by decide, by decide, by decide, by decide⟩

/-- On a program whose objects have no smart-pointer members the two
embeddings compute the same blocks: `A = MakeShared(); B = A; W = WeakPtr(A);
destroy A; destroy B; destroy W`. -/
theorem Owning.agrees_without_members :
    (Owning.State.init.run 20 [.sMake [], .sCopy (.var 0), .wOfShared (.var 0), .sDestroy 0,
      .sDestroy 0, .wDestroy 0]).map
        (fun s => (s.heap.map (fun c => c.block), s.sp, s.wp, s.ub)) =
      some ((SmartPtrs.State.init.run [.sMake, .sCopy 0, .wOfShared 0, .sDestroy 0, .sDestroy 0,
        .wDestroy 0]).heap, [], [], 0) := by
  decide

end SmartPtrs
